import Mathlib

/-!
Register allocation of the Jitter basic-block optimizer

A shallow embedding of `Jitter_RegAlloc.cpp` (with what it needs of
`Jitter_SymbolRef.h`) and of `Jitter_SymbolTable.cpp`, and theorems about them.

Conventions of the embedding.

* `unsigned int` values are natural numbers; the sentinel `-1` is `UINT_MAX`
  (`2^32 - 1`), and the wrapping computations of the allocator
  (`size() - 1`, `allocRange.second + 1` and `useCount++`) are taken modulo
  `2^32`.
* In the allocator a symbol pointer is represented by the value of the symbol
  it points to: the symbol table interns symbols, a `CSymbol` is never mutated
  once made, and the allocator only reads a symbol's fields or looks a symbol
  up structurally. `symbolTable.MakeSymbol(type, id)` is therefore the symbol
  `(type, id, 0)` there. The table itself is embedded separately
  (`CSymbolTable`), with pointers that carry their address.
* The per-range table `SymbolRegAllocInfo` is a map; it is a list of
  (symbol, record) pairs in the order in which the map enumerates them, and a
  pointer to one of its pairs is represented by the pair's symbol.
* `std::list` iterators stay valid across insertions; the statement list that
  receives the loads and spills carries, for every original statement, its
  original index as a tag, and an iterator is such an index (`size()` is
  `end()`).
-/

namespace Jitter

/-! ## Data model -/

/-- Modelled from the spec: the enumeration `SYM_TYPE` is declared in `Jitter_Symbol.h`,
which is not among the sources. The constructors are the kinds named by the spec and by
`Jitter_RegAlloc.cpp`; `SYM_OTHER` stands for the remaining ones. -/
inductive SYM_TYPE where
  | SYM_CONSTANT
  | SYM_RELATIVE
  | SYM_TEMPORARY
  | SYM_REGISTER
  | SYM_REL_REFERENCE
  | SYM_TMP_REFERENCE
  | SYM_REG_REFERENCE
  | SYM_FP_RELATIVE32
  | SYM_FP_TEMPORARY32
  | SYM_FP_REGISTER32
  | SYM_RELATIVE128
  | SYM_TEMPORARY128
  | SYM_REGISTER128
  | SYM_OTHER (code : Nat)
  deriving DecidableEq, Repr

open SYM_TYPE

/-- Modelled from the spec: the opcode enumeration is declared in a header that is not among
the sources. The constructors are the opcodes named by the spec and the source; `OP_OTHER`
stands for the remaining ones. -/
inductive OPERATION where
  | OP_NOP
  | OP_MOV
  | OP_ADD
  | OP_CALL
  | OP_JMP
  | OP_CONDJMP
  | OP_EXTERNJMP
  | OP_EXTERNJMP_DYN
  | OP_PARAM_RET
  | OP_OTHER (code : Nat)
  deriving DecidableEq, Repr

open OPERATION

/-- The value of `(unsigned int)-1`, the sentinel of the allocation records. -/
def UINT_MAX : Nat := 4294967295

/-- Modelled from the spec: `CSymbol` is declared in `Jitter_Symbol.h`, which is not among the
sources: a kind and two 32-bit payloads, compared structurally. -/
structure CSymbol where
  m_type : SYM_TYPE
  m_valueLow : Nat
  m_valueHigh : Nat
  deriving DecidableEq, Repr

/-- The class `CSymbolRef`: a symbol and a version. -/
structure CSymbolRef where
  m_symbol : CSymbol
  m_version : Int
  deriving DecidableEq, Repr

/-- The constant `CSymbolRef::UNVERSIONED`. -/
def CSymbolRef.UNVERSIONED : Int := -1

/-- The member `CSymbolRef::GetSymbol`. -/
def CSymbolRef.GetSymbol (r : CSymbolRef) : CSymbol := r.m_symbol

/-- The member `CSymbolRef::GetVersion`. -/
def CSymbolRef.GetVersion (r : CSymbolRef) : Int := r.m_version

/-- The member `CSymbolRef::IsVersioned`. -/
def CSymbolRef.IsVersioned (r : CSymbolRef) : Bool := r.m_version != CSymbolRef.UNVERSIONED

/-- The member `CSymbolRef::Equals`; a null argument is `none`. -/
def CSymbolRef.Equals (r : CSymbolRef) (symbolRef : Option CSymbolRef) : Bool :=
  match symbolRef with
  | none => false
  | some o => (r.m_version == o.m_version) && (r.GetSymbol == o.GetSymbol)

/-- The function `dynamic_symbolref_cast`; a null pointer is `none`. -/
def dynamic_symbolref_cast (type : SYM_TYPE) (symbolRef : Option CSymbolRef) : Option CSymbol :=
  match symbolRef with
  | none => none
  | some r => if r.GetSymbol.m_type ≠ type then none else some r.GetSymbol

/-- Modelled from the spec: `MakeSymbolRef` is declared in a header that is not among the
sources; it wraps a symbol in a `CSymbolRef` built by the one-argument constructor, whose
version is `UNVERSIONED`. -/
def MakeSymbolRef (symbol : CSymbol) : CSymbolRef := ⟨symbol, CSymbolRef.UNVERSIONED⟩

/-- The call `symbolTable.MakeSymbol(type, valueLow, valueHigh)` as the allocator sees it: the
canonical symbol with these fields (a `SymbolPtr` is represented by the symbol it points to). -/
def MakeSymbol (type : SYM_TYPE) (valueLow valueHigh : Nat) : CSymbol :=
  ⟨type, valueLow, valueHigh⟩

/-- Modelled from the spec: `STATEMENT` is declared in a header that is not among the sources:
an opcode and the optional operands `dst`, `src1`, `src2` (a null operand is `none`). -/
structure STATEMENT where
  op : OPERATION
  dst : Option CSymbolRef
  src1 : Option CSymbolRef
  src2 : Option CSymbolRef
  deriving DecidableEq, Repr

/-- Modelled from the spec: `STATEMENT::VisitDestination` yields `dst` if present. -/
def STATEMENT.destination (s : STATEMENT) : List CSymbolRef := s.dst.toList

/-- Modelled from the spec: `STATEMENT::VisitSources` yields `src1` and `src2`, in this order,
when present. -/
def STATEMENT.sources (s : STATEMENT) : List CSymbolRef := s.src1.toList ++ s.src2.toList

/-- Modelled from the spec: `STATEMENT::VisitOperands` yields the destination, then the
sources. -/
def STATEMENT.operands (s : STATEMENT) : List CSymbolRef := s.destination ++ s.sources

/-- Modelled from the spec: `BASIC_BLOCK` is declared in a header that is not among the
sources: the ordered statements of the block (its symbol table is represented by the symbol
values themselves). -/
structure BASIC_BLOCK where
  statements : List STATEMENT
  deriving DecidableEq, Repr

/-- An allocation range `(first, second)` of inclusive statement indices. -/
abbrev AllocationRange := Nat × Nat

/-! ## ComputeAllocationRanges -/

/-- The loop of `ComputeAllocationRanges` from statement index `idx` on, followed by the final
`push_back` of `(currentStart, last)`. -/
def ComputeAllocationRanges.loop (last : Nat) :
    List STATEMENT → Nat → Nat → List AllocationRange
  | [], _, currentStart => [(currentStart, last)]
  | statement :: rest, statementIdx, currentStart =>
    if statement.op = OP_CALL then
      (currentStart, statementIdx) :: loop last rest (statementIdx + 1) (statementIdx + 1)
    else
      loop last rest (statementIdx + 1) currentStart

/-- The function `CJitter::ComputeAllocationRanges`. The last index of the final range is
`size() - 1` as an `unsigned int`. -/
def ComputeAllocationRanges (basicBlock : BASIC_BLOCK) : List AllocationRange :=
  ComputeAllocationRanges.loop ((basicBlock.statements.length + 4294967295) % 4294967296)
    basicBlock.statements 0 0

/-! ## The declarations the allocator takes from headers -/

/-- Modelled from the spec: what `Jitter_Symbol.h`, which is not among the sources, declares
and the allocator uses: the integer value of every `SYM_TYPE` enumerator (the comparator of
the assignment orders kinds by it; distinct enumerators have distinct values), and the members
`CSymbol::Aliases` and `CSymbol::IsTemporary`. -/
structure SymbolDecls where
  typeValue : SYM_TYPE → Nat
  typeValue_injective : Function.Injective typeValue
  Aliases : CSymbol → CSymbol → Bool
  IsTemporary : CSymbol → Bool

/-- Modelled from the spec: `CSymbol::Equals`, structural over kind and both payloads. -/
def CSymbol.Equals (a b : CSymbol) : Bool := a == b

/-! ## The per-range table -/

/-- Modelled from the spec: `SYMBOL_REGALLOCINFO` is declared in a header that is not among
the sources. The index fields and `registerId` are `unsigned int` with the sentinel `-1`. -/
structure SYMBOL_REGALLOCINFO where
  useCount : Nat
  firstUse : Nat
  lastUse : Nat
  firstDef : Nat
  lastDef : Nat
  aliased : Bool
  registerType : SYM_TYPE
  registerId : Nat
  deriving DecidableEq, Repr

/-- The default-constructed record: nothing counted, every index absent, not aliased, no
register. -/
def SYMBOL_REGALLOCINFO.init : SYMBOL_REGALLOCINFO :=
  ⟨0, UINT_MAX, UINT_MAX, UINT_MAX, UINT_MAX, false, SYM_REGISTER, UINT_MAX⟩

/-- The map `SymbolRegAllocInfo`, as the list of its pairs in enumeration order. -/
abbrev SymbolRegAllocInfo := List (CSymbol × SYMBOL_REGALLOCINFO)

/-- The call `symbolRegAllocs.find(symbol)`; `end` is `none`. -/
def regAllocFind (symbolRegAllocs : SymbolRegAllocInfo) (symbol : CSymbol) :
    Option SYMBOL_REGALLOCINFO :=
  symbolRegAllocs.lookup symbol

/-- The access `symbolRegAllocs[symbol]` followed by the mutation `f` of the record: a symbol
that is not tracked yet gets a default record (enumerated last). -/
def regAllocUpdate (symbolRegAllocs : SymbolRegAllocInfo) (symbol : CSymbol)
    (f : SYMBOL_REGALLOCINFO → SYMBOL_REGALLOCINFO) : SymbolRegAllocInfo :=
  match symbolRegAllocs with
  | [] => [(symbol, f SYMBOL_REGALLOCINFO.init)]
  | pair :: rest =>
    if pair.1 = symbol then (pair.1, f pair.2) :: rest
    else pair :: regAllocUpdate rest symbol f

/-! ## ComputeLivenessForRange -/

/-- The visitor that `ComputeLivenessForRange` passes to `VisitDestination`. -/
def livenessVisitDestination (statementIdx : Nat) (symbolRegAllocs : SymbolRegAllocInfo)
    (symbolRef : CSymbolRef) : SymbolRegAllocInfo :=
  regAllocUpdate symbolRegAllocs symbolRef.GetSymbol (fun r =>
    let r1 := { r with useCount := (r.useCount + 1) % 4294967296 }
    let r2 := if r1.firstDef = UINT_MAX then { r1 with firstDef := statementIdx } else r1
    if r2.lastDef = UINT_MAX ∨ statementIdx > r2.lastDef then
      { r2 with lastDef := statementIdx }
    else r2)

/-- The visitor that `ComputeLivenessForRange` passes to `VisitSources`. -/
def livenessVisitSource (statementIdx : Nat) (symbolRegAllocs : SymbolRegAllocInfo)
    (symbolRef : CSymbolRef) : SymbolRegAllocInfo :=
  regAllocUpdate symbolRegAllocs symbolRef.GetSymbol (fun r =>
    let r1 := { r with useCount := (r.useCount + 1) % 4294967296 }
    let r2 := if r1.firstUse = UINT_MAX then { r1 with firstUse := statementIdx } else r1
    if r2.lastUse = UINT_MAX ∨ statementIdx > r2.lastUse then
      { r2 with lastUse := statementIdx }
    else r2)

/-- The function `CJitter::ComputeLivenessForRange`. -/
def ComputeLivenessForRange (basicBlock : BASIC_BLOCK) (allocRange : AllocationRange)
    (symbolRegAllocs : SymbolRegAllocInfo) : SymbolRegAllocInfo :=
  basicBlock.statements.enum.foldl (fun t statementInfo =>
    if statementInfo.1 < allocRange.1 then t
    else if statementInfo.1 > allocRange.2 then t
    else
      statementInfo.2.sources.foldl (livenessVisitSource statementInfo.1)
        (statementInfo.2.destination.foldl (livenessVisitDestination statementInfo.1) t))
    symbolRegAllocs

/-! ## MarkAliasedSymbols -/

/-- The visitor of `MarkAliasedSymbols` for one tested symbol and one operand. -/
def aliasVisit (d : SymbolDecls) (testedSymbol : CSymbol) (r : SYMBOL_REGALLOCINFO)
    (symbolRef : CSymbolRef) : SYMBOL_REGALLOCINFO :=
  if symbolRef.GetSymbol.Equals testedSymbol then r
  else if d.Aliases symbolRef.GetSymbol testedSymbol then { r with aliased := true }
  else r

/-- The body of the loop of `MarkAliasedSymbols` for one statement of the range. A
`OP_PARAM_RET` without `src1` would dereference a null pointer; the model leaves the table
alone there. -/
def markAliasedStatement (d : SymbolDecls) (statement : STATEMENT)
    (symbolRegAllocs : SymbolRegAllocInfo) : SymbolRegAllocInfo :=
  let t :=
    if statement.op = OP_PARAM_RET then
      match statement.src1 with
      | some src1 => regAllocUpdate symbolRegAllocs src1.GetSymbol
          (fun r => { r with aliased := true })
      | none => symbolRegAllocs
    else symbolRegAllocs
  t.map (fun symbolRegAlloc =>
    if symbolRegAlloc.2.aliased then symbolRegAlloc
    else (symbolRegAlloc.1,
      statement.operands.foldl (aliasVisit d symbolRegAlloc.1) symbolRegAlloc.2))

/-- The function `CJitter::MarkAliasedSymbols`. The `break` past the range skips the remaining
statements, whose indices are all past the range as well. -/
def MarkAliasedSymbols (d : SymbolDecls) (basicBlock : BASIC_BLOCK)
    (allocRange : AllocationRange) (symbolRegAllocs : SymbolRegAllocInfo) :
    SymbolRegAllocInfo :=
  basicBlock.statements.enum.foldl (fun t statementInfo =>
    if statementInfo.1 < allocRange.1 then t
    else if statementInfo.1 > allocRange.2 then t
    else markAliasedStatement d statementInfo.2 t)
    symbolRegAllocs

/-! ## AssociateSymbolsToRegisters -/

/-- The lambda `isRegisterAllocatable`. -/
def isRegisterAllocatable (symbolType : SYM_TYPE) : Bool :=
  (symbolType == SYM_RELATIVE) || (symbolType == SYM_TEMPORARY) ||
  (symbolType == SYM_REL_REFERENCE) || (symbolType == SYM_TMP_REFERENCE) ||
  (symbolType == SYM_FP_RELATIVE32) || (symbolType == SYM_FP_TEMPORARY32) ||
  (symbolType == SYM_RELATIVE128) || (symbolType == SYM_TEMPORARY128)

/-- The comparator handed to `std::sort`: true when the first pair goes before the second. -/
def sortComparator (d : SymbolDecls) (p1 p2 : CSymbol × SYMBOL_REGALLOCINFO) : Bool :=
  if p1.2.useCount = p2.2.useCount then
    if p1.1.m_type = p2.1.m_type then
      decide (p1.1.m_valueLow > p2.1.m_valueLow)
    else
      decide (d.typeValue p1.1.m_type > d.typeValue p2.1.m_type)
  else
    decide (p1.2.useCount > p2.2.useCount)

/-- The call of `std::sort` with `sortComparator`. The standard leaves the relative order of
equivalent elements open; the model is an insertion sort, which keeps equivalent elements in
the order in which they were collected. What is stated about the position of a candidate in
the sorted vector is stated for every vector the call can leave (`isSortOutcome`). -/
def stdSort (d : SymbolDecls) (l : List (CSymbol × SYMBOL_REGALLOCINFO)) :
    List (CSymbol × SYMBOL_REGALLOCINFO) :=
  l.insertionSort (fun a b => sortComparator d b a = false)

/-- The two vectors of available registers. -/
inductive RegisterPool where
  | GP
  | MD
  deriving DecidableEq, Repr

/-- The kind dispatch of the assignment loop: the vector `availableRegisters` points to
(`none` is the null pointer) and `registerSymbolType`. -/
def selectRegisters (type : SYM_TYPE) : Option RegisterPool × SYM_TYPE :=
  if (type = SYM_RELATIVE) ∨ (type = SYM_TEMPORARY) then (some RegisterPool.GP, SYM_REGISTER)
  else if (type = SYM_REL_REFERENCE) ∨ (type = SYM_TMP_REFERENCE) then
    (some RegisterPool.GP, SYM_REG_REFERENCE)
  else if (type = SYM_FP_RELATIVE32) ∨ (type = SYM_FP_TEMPORARY32) then
    (some RegisterPool.MD, SYM_FP_REGISTER32)
  else if (type = SYM_RELATIVE128) ∨ (type = SYM_TEMPORARY128) then
    (some RegisterPool.MD, SYM_REGISTER128)
  else (none, SYM_REGISTER)

/-- The two assignments `registerType = ...; registerId = ...` through the pointer to the pair
of `symbol`. -/
def setRegister (symbolRegAllocs : SymbolRegAllocInfo) (symbol : CSymbol)
    (registerType : SYM_TYPE) (registerId : Nat) : SymbolRegAllocInfo :=
  symbolRegAllocs.map (fun pair =>
    if pair.1 = symbol then
      (pair.1, { pair.2 with registerType := registerType, registerId := registerId })
    else pair)

/-- The state of the assignment loop. -/
structure AssignState where
  availableGpRegisters : List Nat
  availableMdRegisters : List Nat
  symbolRegAllocs : SymbolRegAllocInfo

/-- The body of the assignment loop for one sorted pair. -/
def assignStep (st : AssignState) (symbolRegAllocPair : CSymbol × SYMBOL_REGALLOCINFO) :
    AssignState :=
  let symbol := symbolRegAllocPair.1
  match selectRegisters symbol.m_type with
  | (some RegisterPool.GP, registerSymbolType) =>
    match st.availableGpRegisters.getLast? with
    | some back =>
      ⟨st.availableGpRegisters.dropLast, st.availableMdRegisters,
        setRegister st.symbolRegAllocs symbol registerSymbolType back⟩
    | none => st
  | (some RegisterPool.MD, registerSymbolType) =>
    match st.availableMdRegisters.getLast? with
    | some back =>
      ⟨st.availableGpRegisters, st.availableMdRegisters.dropLast,
        setRegister st.symbolRegAllocs symbol registerSymbolType back⟩
    | none => st
  | (none, _) => st

/-- The function `CJitter::AssociateSymbolsToRegisters`; `gpCount` and `mdCount` are what
`GetAvailableRegisterCount` and `GetAvailableMdRegisterCount` return. -/
def AssociateSymbolsToRegisters (d : SymbolDecls) (gpCount mdCount : Nat)
    (symbolRegAllocs : SymbolRegAllocInfo) : SymbolRegAllocInfo :=
  let availableGpRegisters := List.range gpCount
  let availableMdRegisters := List.range mdCount
  let sortedSymbols := stdSort d (symbolRegAllocs.filter (fun symbolRegAllocPair =>
    isRegisterAllocatable symbolRegAllocPair.1.m_type && !symbolRegAllocPair.2.aliased))
  (sortedSymbols.foldl assignStep
    ⟨availableGpRegisters, availableMdRegisters, symbolRegAllocs⟩).symbolRegAllocs

/-! ## AllocateRegisters -/

/-- The visitor of the rewrite loop: an operand whose symbol is tracked with a register is
replaced by a reference to the interned register symbol. -/
def rewriteOperand (symbolRegAllocs : SymbolRegAllocInfo) (symbolRef : CSymbolRef) :
    CSymbolRef :=
  match regAllocFind symbolRegAllocs symbolRef.GetSymbol with
  | some symbolRegAlloc =>
    if symbolRegAlloc.registerId ≠ UINT_MAX then
      MakeSymbolRef (MakeSymbol symbolRegAlloc.registerType symbolRegAlloc.registerId 0)
    else symbolRef
  | none => symbolRef

/-- The call `statement.VisitOperands` of the rewrite loop. -/
def rewriteStatement (symbolRegAllocs : SymbolRegAllocInfo) (statement : STATEMENT) :
    STATEMENT :=
  { op := statement.op
    dst := statement.dst.map (rewriteOperand symbolRegAllocs)
    src1 := statement.src1.map (rewriteOperand symbolRegAllocs)
    src2 := statement.src2.map (rewriteOperand symbolRegAllocs) }

/-- The rewrite loop of `AllocateRegisters` for one range. -/
def rewriteRange (allocRange : AllocationRange) (symbolRegAllocs : SymbolRegAllocInfo)
    (statements : List STATEMENT) : List STATEMENT :=
  statements.enum.map (fun statementInfo =>
    if statementInfo.1 < allocRange.1 then statementInfo.2
    else if statementInfo.1 > allocRange.2 then statementInfo.2
    else rewriteStatement symbolRegAllocs statementInfo.2)

/-- A multimap from statement index to statement, as the list of its pairs in insertion
order; the pairs of one key are enumerated in that order. -/
abbrev StatementMultimap := List (Nat × STATEMENT)

/-- The load that `AllocateRegisters` builds for a symbol and its record. -/
def loadStatement (symbol : CSymbol) (symbolRegAlloc : SYMBOL_REGALLOCINFO) : STATEMENT :=
  { op := OP_MOV
    dst := some (MakeSymbolRef
      (MakeSymbol symbolRegAlloc.registerType symbolRegAlloc.registerId 0))
    src1 := some (MakeSymbolRef symbol)
    src2 := none }

/-- The spill that `AllocateRegisters` builds for a symbol and its record. -/
def spillStatement (symbol : CSymbol) (symbolRegAlloc : SYMBOL_REGALLOCINFO) : STATEMENT :=
  { op := OP_MOV
    dst := some (MakeSymbolRef symbol)
    src1 := some (MakeSymbolRef
      (MakeSymbol symbolRegAlloc.registerType symbolRegAlloc.registerId 0))
    src2 := none }

/-- The body of the loop "Prepare load and spills" for one pair of the table; the state is
the pair of `loadStatements` and `spillStatements`. -/
def prepareLoadAndSpill (d : SymbolDecls) (isLastRange : Bool) (allocRange : AllocationRange)
    (st : StatementMultimap × StatementMultimap)
    (symbolRegAllocPair : CSymbol × SYMBOL_REGALLOCINFO) :
    StatementMultimap × StatementMultimap :=
  let symbol := symbolRegAllocPair.1
  let symbolRegAlloc := symbolRegAllocPair.2
  if symbolRegAlloc.registerId = UINT_MAX then st
  else
    let loadStatements :=
      if (symbolRegAlloc.firstUse ≠ UINT_MAX) ∧
          (symbolRegAlloc.firstUse ≤ symbolRegAlloc.firstDef) then
        st.1 ++ [(allocRange.1, loadStatement symbol symbolRegAlloc)]
      else st.1
    let deadTemporary := d.IsTemporary symbol && isLastRange
    let spillStatements :=
      if (!deadTemporary) ∧ (symbolRegAlloc.firstDef ≠ UINT_MAX) then
        st.2 ++ [(allocRange.2, spillStatement symbol symbolRegAlloc)]
      else st.2
    (loadStatements, spillStatements)

/-- What `AllocateRegisters` carries from one range to the next: the block and the two
multimaps of staged statements. -/
structure AllocState where
  basicBlock : BASIC_BLOCK
  loadStatements : StatementMultimap
  spillStatements : StatementMultimap
  deriving DecidableEq, Repr

/-- The table of a range once `ComputeLivenessForRange`, `MarkAliasedSymbols` and
`AssociateSymbolsToRegisters` have run on it. -/
def rangeRegAllocs (d : SymbolDecls) (gpCount mdCount : Nat) (basicBlock : BASIC_BLOCK)
    (allocRange : AllocationRange) : SymbolRegAllocInfo :=
  AssociateSymbolsToRegisters d gpCount mdCount
    (MarkAliasedSymbols d basicBlock allocRange
      (ComputeLivenessForRange basicBlock allocRange []))

/-- The body of the loop over the allocation ranges. -/
def allocateRange (d : SymbolDecls) (gpCount mdCount : Nat) (st : AllocState)
    (allocRange : AllocationRange) : AllocState :=
  let isLastRange : Bool :=
    (allocRange.2 + 1) % 4294967296 == st.basicBlock.statements.length
  let symbolRegAllocs := rangeRegAllocs d gpCount mdCount st.basicBlock allocRange
  let staged := symbolRegAllocs.foldl (prepareLoadAndSpill d isLastRange allocRange)
    (st.loadStatements, st.spillStatements)
  { basicBlock := ⟨rewriteRange allocRange symbolRegAllocs st.basicBlock.statements⟩
    loadStatements := staged.1
    spillStatements := staged.2 }

/-- The state of `AllocateRegisters` after the loop over the ranges: the rewritten block and
every staged load and spill. -/
def allocateRanges (d : SymbolDecls) (gpCount mdCount : Nat) (basicBlock : BASIC_BLOCK) :
    AllocState :=
  (ComputeAllocationRanges basicBlock).foldl (allocateRange d gpCount mdCount)
    ⟨basicBlock, [], []⟩

/-- The statement list while loads and spills are inserted: an original statement carries its
original index (the identity its iterator keeps), an inserted one carries none. -/
abbrev StatementList := List (Option Nat × STATEMENT)

/-- The statement list of a block, every statement with its index. -/
def indexedStatementList (statements : List STATEMENT) : StatementList :=
  statements.enum.map (fun statementInfo => (some statementInfo.1, statementInfo.2))

/-- The call `statements.insert(iterator, statement)`: the statement goes right before the
original statement the iterator points to, at the end when the iterator is `end()`. -/
def listInsert (iterator : Nat) (statement : STATEMENT) : StatementList → StatementList
  | [] => [(none, statement)]
  | x :: rest =>
    if x.1 = some iterator then (none, statement) :: x :: rest
    else x :: listInsert iterator statement rest

/-- The five opcodes before which, rather than after which, spills are inserted. -/
def isControlTransfer (op : OPERATION) : Bool :=
  !((op != OP_CONDJMP) && (op != OP_JMP) && (op != OP_CALL) &&
    (op != OP_EXTERNJMP) && (op != OP_EXTERNJMP_DYN))

/-- The map `loadPoints`: for every statement index with a staged load, in increasing order,
the iterator of that statement. -/
def computeLoadPoints (statements : List STATEMENT) (loadStatements : StatementMultimap) :
    List (Nat × Nat) :=
  statements.enum.filterMap (fun statementInfo =>
    if loadStatements.any (fun stmt => stmt.1 == statementInfo.1) then
      some (statementInfo.1, statementInfo.1)
    else none)

/-- The map `spillPoints`: for every statement index with a staged spill, in increasing
order, the iterator of that statement, advanced by one unless the statement is one of the
five control transfers. -/
def computeSpillPoints (statements : List STATEMENT) (spillStatements : StatementMultimap) :
    List (Nat × Nat) :=
  statements.enum.filterMap (fun statementInfo =>
    if spillStatements.any (fun stmt => stmt.1 == statementInfo.1) then
      some (statementInfo.1,
        if isControlTransfer statementInfo.2.op then statementInfo.1
        else statementInfo.1 + 1)
    else none)

/-- The loops "Loads" and "Spills": for every point, in order, every staged statement of the
point's index, in order, is inserted at the point's iterator. -/
def insertStaged (points : List (Nat × Nat)) (staged : StatementMultimap)
    (statements : StatementList) : StatementList :=
  points.foldl (fun l point =>
    (staged.filter (fun stmt => stmt.1 == point.1)).foldl
      (fun l stmt => listInsert point.2 stmt.2 l) l) statements

/-- The second half of `AllocateRegisters`, on the statement list with its iterators: the load
and spill points are computed on the block as the range loop left it, then the loads and
after them the spills are inserted. -/
def insertedStatementList (st : AllocState) : StatementList :=
  let loadPoints := computeLoadPoints st.basicBlock.statements st.loadStatements
  let spillPoints := computeSpillPoints st.basicBlock.statements st.spillStatements
  let withLoads := insertStaged loadPoints st.loadStatements
    (indexedStatementList st.basicBlock.statements)
  insertStaged spillPoints st.spillStatements withLoads

/-- The block that the second half of `AllocateRegisters` leaves. -/
def insertLoadsAndSpills (st : AllocState) : BASIC_BLOCK :=
  ⟨(insertedStatementList st).map (fun x => x.2)⟩

/-- The function `CJitter::AllocateRegisters`. -/
def AllocateRegisters (d : SymbolDecls) (gpCount mdCount : Nat) (basicBlock : BASIC_BLOCK) :
    BASIC_BLOCK :=
  insertLoadsAndSpills (allocateRanges d gpCount mdCount basicBlock)

/-! ## The commented-out AssociateSymbolsToRegisters

The earlier implementation that `Jitter_RegAlloc.cpp` keeps in a comment block. Its
`std::multimap<SYM_TYPE, unsigned int>` is a list of pairs in insertion order: a multimap keeps
the pairs of one key in the order of their insertion, so the pairs between `lower_bound(key)`
and `upper_bound(key)` are the pairs of the list with that key, in list order. -/

/-- The kind dispatch of the commented-out loop: the key handed to `lower_bound` and
`upper_bound` (`none` when both iterators stay at `end`) and `registerSymbolType`. -/
def selectEqualRange (type : SYM_TYPE) : Option SYM_TYPE × SYM_TYPE :=
  if (type = SYM_RELATIVE) ∨ (type = SYM_TEMPORARY) then (some SYM_REGISTER, SYM_REGISTER)
  else if (type = SYM_REL_REFERENCE) ∨ (type = SYM_TMP_REFERENCE) then
    (some SYM_REGISTER, SYM_REG_REFERENCE)
  else if (type = SYM_FP_RELATIVE32) ∨ (type = SYM_FP_TEMPORARY32) then
    (some SYM_REGISTER128, SYM_FP_REGISTER32)
  else if (type = SYM_RELATIVE128) ∨ (type = SYM_TEMPORARY128) then
    (some SYM_REGISTER128, SYM_REGISTER128)
  else (none, SYM_REGISTER)

/-- The state of the commented-out assignment loop. -/
structure MultimapAssignState where
  availableRegisters : List (SYM_TYPE × Nat)
  symbolRegAllocs : SymbolRegAllocInfo

/-- The body of the commented-out assignment loop for one sorted pair. The `break` on an empty
multimap is a step that changes nothing: the multimap stays empty for the rest of the loop. -/
def multimapAssignStep (st : MultimapAssignState)
    (symbolRegAllocPair : CSymbol × SYMBOL_REGALLOCINFO) : MultimapAssignState :=
  if st.availableRegisters.isEmpty then st
  else
    let symbol := symbolRegAllocPair.1
    match selectEqualRange symbol.m_type with
    | (some key, registerSymbolType) =>
      match st.availableRegisters.find? (fun r => r.1 = key) with
      | some registerIterator =>
        ⟨st.availableRegisters.erase registerIterator,
          setRegister st.symbolRegAllocs symbol registerSymbolType registerIterator.2⟩
      | none => st
    | (none, _) => st

/-- The commented-out `CJitter::AssociateSymbolsToRegisters` with one multimap of available
registers. -/
def AssociateSymbolsToRegistersMultimap (d : SymbolDecls) (gpCount mdCount : Nat)
    (symbolRegAllocs : SymbolRegAllocInfo) : SymbolRegAllocInfo :=
  let availableRegisters :=
    (List.range gpCount).map (fun i => (SYM_REGISTER, i)) ++
    (List.range mdCount).map (fun i => (SYM_REGISTER128, i))
  let sortedSymbols := stdSort d (symbolRegAllocs.filter (fun symbolRegAllocPair =>
    isRegisterAllocatable symbolRegAllocPair.1.m_type && !symbolRegAllocPair.2.aliased))
  (sortedSymbols.foldl multimapAssignStep ⟨availableRegisters, symbolRegAllocs⟩).symbolRegAllocs

/-! ## CSymbolTable

The table of `Jitter_SymbolTable.cpp`. A `SymbolPtr` is the address of a symbol object together
with the object it points to (the fields of a symbol never change after its construction);
the identity of a handle is its address. -/

/-- A `SymbolPtr`: the address of the object and the object. -/
abbrev SymbolPtr := Nat × CSymbol

/-- The operator `new` as the table uses it: the address of the new object, given the
addresses of the objects the table has allocated and not deleted. It is none of them, since
these objects are alive. -/
structure Allocator where
  newAddress : List Nat → Nat
  fresh : ∀ live, newAddress live ∉ live

/-- The class `CSymbolTable`: the set `m_symbols`, as the list of its elements, and the vector
`m_allocatedSymbols`. -/
structure CSymbolTable where
  m_symbols : List SymbolPtr
  m_allocatedSymbols : List SymbolPtr
  deriving DecidableEq, Repr

/-- The constructor: both containers are empty. -/
def CSymbolTable.empty : CSymbolTable := ⟨[], []⟩

/-- The call `m_symbols.find(srcSymbol)`; `end` is `none`. Modelled from the spec:
`SymbolComparator` is declared in `Jitter_Symbol.h`, which is not among the sources, and
compares the pointed-to symbols structurally. -/
def CSymbolTable.find (t : CSymbolTable) (srcSymbol : CSymbol) : Option SymbolPtr :=
  t.m_symbols.find? (fun symbol => symbol.2.Equals srcSymbol)

/-- The overload `CSymbolTable::MakeSymbol(SymbolPtr)`: the handle it returns and the table it
leaves. -/
def CSymbolTable.MakeSymbolFromPtr (a : Allocator) (t : CSymbolTable) (srcSymbol : CSymbol) :
    SymbolPtr × CSymbolTable :=
  match t.find srcSymbol with
  | some symbolIterator => (symbolIterator, t)
  | none =>
    let result : SymbolPtr := (a.newAddress (t.m_allocatedSymbols.map Prod.fst), srcSymbol)
    (result, ⟨t.m_symbols ++ [result], t.m_allocatedSymbols ++ [result]⟩)

/-- The overload `CSymbolTable::MakeSymbol(SYM_TYPE, uint32, uint32)`. -/
def CSymbolTable.MakeSymbol (a : Allocator) (t : CSymbolTable) (type : SYM_TYPE)
    (valueLow valueHigh : Nat) : SymbolPtr × CSymbolTable :=
  CSymbolTable.MakeSymbolFromPtr a t ⟨type, valueLow, valueHigh⟩

/-- The function `CSymbolTable::RemoveSymbol`: the element the iterator points to leaves
`m_symbols`; `m_allocatedSymbols` keeps the object. -/
def CSymbolTable.RemoveSymbol (t : CSymbolTable) (symbolIterator : SymbolPtr) : CSymbolTable :=
  ⟨t.m_symbols.erase symbolIterator, t.m_allocatedSymbols⟩

/-- The function `CSymbolTable::Clear`: the set is swapped out and every allocated symbol is
deleted. -/
def CSymbolTable.Clear (_t : CSymbolTable) : CSymbolTable := ⟨[], []⟩

/-! ## Concrete declarations used to instantiate the theorems -/

/-- One numbering of the kinds, in the order of the constructors. -/
def exampleTypeValue : SYM_TYPE → Nat
  | SYM_CONSTANT => 0
  | SYM_RELATIVE => 1
  | SYM_TEMPORARY => 2
  | SYM_REGISTER => 3
  | SYM_REL_REFERENCE => 4
  | SYM_TMP_REFERENCE => 5
  | SYM_REG_REFERENCE => 6
  | SYM_FP_RELATIVE32 => 7
  | SYM_FP_TEMPORARY32 => 8
  | SYM_FP_REGISTER32 => 9
  | SYM_RELATIVE128 => 10
  | SYM_TEMPORARY128 => 11
  | SYM_REGISTER128 => 12
  | SYM_OTHER code => 13 + code

/-- Declarations for the examples: the numbering above, no two symbols alias, and the
temporaries are the four temporary kinds among the allocatable ones. -/
def exampleDecls : SymbolDecls :=
  { typeValue := exampleTypeValue
    typeValue_injective := by
      intro a b h
      cases a <;> cases b <;> simp [exampleTypeValue] at h <;>
        first | rfl | omega | (subst h; rfl)
    Aliases := fun _ _ => false
    IsTemporary := fun s =>
      s.m_type == SYM_TEMPORARY || s.m_type == SYM_TMP_REFERENCE ||
      s.m_type == SYM_FP_TEMPORARY32 || s.m_type == SYM_TEMPORARY128 }

/-- A reference to the relative symbol at offset `n`. -/
def relRef (n : Nat) : CSymbolRef := MakeSymbolRef ⟨SYM_RELATIVE, n, 0⟩

/-- A reference to the temporary number `n`. -/
def tmpRef (n : Nat) : CSymbolRef := MakeSymbolRef ⟨SYM_TEMPORARY, n, 0⟩

/-- The block `[MOV t1, rel_a; ADD t1, t1, rel_b; MOV rel_c, t1]`. -/
def straightLineBlock : BASIC_BLOCK :=
  ⟨[⟨OP_MOV, some (tmpRef 1), some (relRef 0), none⟩,
    ⟨OP_ADD, some (tmpRef 1), some (tmpRef 1), some (relRef 4)⟩,
    ⟨OP_MOV, some (relRef 8), some (tmpRef 1), none⟩]⟩

/-- The block `[MOV t1, rel_a; CALL f; MOV rel_b, t1]`. -/
def callBlock : BASIC_BLOCK :=
  ⟨[⟨OP_MOV, some (tmpRef 1), some (relRef 0), none⟩,
    ⟨OP_CALL, none, none, none⟩,
    ⟨OP_MOV, some (relRef 8), some (tmpRef 1), none⟩]⟩

/-! ## Auxiliary definitions for the statements and proofs -/

/-- What the assignment loop gives to `symbol` when it walks the sorted pairs `l` with `g`
general-purpose and `m` multimedia registers left: the register kind and the register index,
or nothing. The vector of `g` available registers is `0, ..., g - 1` and its back is
`g - 1`. -/
def assignedRegister :
    List (CSymbol × SYMBOL_REGALLOCINFO) → Nat → Nat → CSymbol → Option (SYM_TYPE × Nat)
  | [], _, _, _ => none
  | p :: rest, g, m, symbol =>
    match selectRegisters p.1.m_type with
    | (some RegisterPool.GP, registerSymbolType) =>
      if g = 0 then assignedRegister rest g m symbol
      else if p.1 = symbol then some (registerSymbolType, g - 1)
      else assignedRegister rest (g - 1) m symbol
    | (some RegisterPool.MD, registerSymbolType) =>
      if m = 0 then assignedRegister rest g m symbol
      else if p.1 = symbol then some (registerSymbolType, m - 1)
      else assignedRegister rest g (m - 1) symbol
    | (none, _) => assignedRegister rest g m symbol

/-- The pair of the table once the loop has given it `a`. -/
def applyAssigned (a : Option (SYM_TYPE × Nat)) (pair : CSymbol × SYMBOL_REGALLOCINFO) :
    CSymbol × SYMBOL_REGALLOCINFO :=
  match a with
  | some x => (pair.1, { pair.2 with registerType := x.1, registerId := x.2 })
  | none => pair

/-- The pairs that `AssociateSymbolsToRegisters` sorts and walks. -/
def sortedCandidates (d : SymbolDecls) (t : SymbolRegAllocInfo) :
    List (CSymbol × SYMBOL_REGALLOCINFO) :=
  stdSort d (t.filter (fun symbolRegAllocPair =>
    isRegisterAllocatable symbolRegAllocPair.1.m_type && !symbolRegAllocPair.2.aliased))

/-- Whether the pair's symbol is of a kind that takes its register from `pool`. -/
def drawsFrom (pool : RegisterPool) (p : CSymbol × SYMBOL_REGALLOCINFO) : Bool :=
  (selectRegisters p.1.m_type).1 == some pool

/-- The number of registers of `pool` among `g` general-purpose and `m` multimedia ones. -/
def poolSize (pool : RegisterPool) (g m : Nat) : Nat :=
  match pool with
  | RegisterPool.GP => g
  | RegisterPool.MD => m

/-- The candidates of `AssociateSymbolsToRegisters` (allocatable kind, not aliased) that take
their register from `pool`. -/
def isPoolCandidate (pool : RegisterPool) (p : CSymbol × SYMBOL_REGALLOCINFO) : Bool :=
  (isRegisterAllocatable p.1.m_type && !p.2.aliased) && drawsFrom pool p

/-- A table of two tracked symbols: a relative symbol read once and a constant. -/
def twoSymbolTable : SymbolRegAllocInfo :=
  [(⟨SYM_RELATIVE, 0, 0⟩, { SYMBOL_REGALLOCINFO.init with useCount := 1, firstUse := 0 }),
   (⟨SYM_CONSTANT, 5, 0⟩, { SYMBOL_REGALLOCINFO.init with useCount := 1, firstUse := 0 })]

/-- Ten relative symbols at offsets `0, 4, ..., 36`, the one at offset `4 * i` used `i + 1`
times. -/
def tenRelatives : SymbolRegAllocInfo :=
  (List.range 10).map (fun i =>
    (⟨SYM_RELATIVE, 4 * i, 0⟩, { SYMBOL_REGALLOCINFO.init with useCount := i + 1 }))

/-- Two relative symbols with the same offset that differ only in `valueHigh`, each used
once. -/
def tiedTable : SymbolRegAllocInfo :=
  [(⟨SYM_RELATIVE, 8, 0⟩, { SYMBOL_REGALLOCINFO.init with useCount := 1, firstUse := 0 }),
   (⟨SYM_RELATIVE, 8, 1⟩, { SYMBOL_REGALLOCINFO.init with useCount := 1, firstUse := 0 })]

/-- The loads that the loop "Prepare load and spills" stages for the pairs of a table, in
order. -/
def stagedLoads (allocRange : AllocationRange) (t : SymbolRegAllocInfo) : StatementMultimap :=
  t.flatMap (fun p =>
    if p.2.registerId ≠ UINT_MAX ∧ p.2.firstUse ≠ UINT_MAX ∧ p.2.firstUse ≤ p.2.firstDef then
      [(allocRange.1, loadStatement p.1 p.2)]
    else [])

/-- The spills that the loop "Prepare load and spills" stages for the pairs of a table, in
order. -/
def stagedSpills (d : SymbolDecls) (isLastRange : Bool) (allocRange : AllocationRange)
    (t : SymbolRegAllocInfo) : StatementMultimap :=
  t.flatMap (fun p =>
    if p.2.registerId ≠ UINT_MAX ∧ ¬ (d.IsTemporary p.1 = true ∧ isLastRange = true) ∧
        p.2.firstDef ≠ UINT_MAX then
      [(allocRange.2, spillStatement p.1 p.2)]
    else [])

/-- What the rewrite does to one operand slot, `old` before and `new` after: a slot whose
symbol is tracked with a register refers to the interned register symbol with the record's
`registerType` and `registerId`; a slot whose symbol is untracked or has no register, and an
empty slot, are unchanged. -/
def operandRewritten (t : SymbolRegAllocInfo) (old new : Option CSymbolRef) : Prop :=
  (∀ symbolRef symbolRegAlloc, old = some symbolRef →
    regAllocFind t symbolRef.GetSymbol = some symbolRegAlloc →
    symbolRegAlloc.registerId ≠ UINT_MAX →
    new = some (MakeSymbolRef
      (MakeSymbol symbolRegAlloc.registerType symbolRegAlloc.registerId 0))) ∧
  (∀ symbolRef symbolRegAlloc, old = some symbolRef →
    regAllocFind t symbolRef.GetSymbol = some symbolRegAlloc →
    symbolRegAlloc.registerId = UINT_MAX → new = old) ∧
  (∀ symbolRef, old = some symbolRef →
    regAllocFind t symbolRef.GetSymbol = none → new = old) ∧
  (old = none → new = none)

/-- The calls of `insert` that the loop over `points` makes, in order: the iterator and the
statement of each. -/
def insertions (points : List (Nat × Nat)) (staged : StatementMultimap) :
    List (Nat × STATEMENT) :=
  points.flatMap (fun point =>
    (staged.filter (fun stmt => stmt.1 == point.1)).map (fun stmt => (point.2, stmt.2)))

/-- The statement list after the calls `ins` of `insert` on the statements `stmts`, whose
indices start at `k`: before each original statement come the statements inserted at its
iterator, in the order of the calls, and at the end those inserted at `end()`. -/
def render (ins : List (Nat × STATEMENT)) : Nat → List STATEMENT → StatementList
  | k, [] => (ins.filter (fun x => decide (k ≤ x.1))).map (fun x => (none, x.2))
  | k, s :: rest =>
    (ins.filter (fun x => x.1 == k)).map (fun x => (none, x.2)) ++
      (some k, s) :: render ins (k + 1) rest

/-- The staged statements of index `i`, in the order in which they were staged. -/
def stagedAt (staged : StatementMultimap) (i : Nat) : List STATEMENT :=
  (staged.filter (fun stmt => stmt.1 == i)).map (fun stmt => stmt.2)

/-- An inserted statement, which has no iterator of its own. -/
def inserted (s : STATEMENT) : Option Nat × STATEMENT := (none, s)

/-- The statement list in which the statements `c` come first and every original statement
(indices from `k`) is preceded by its loads and by the spills inserted at its iterator: its
own spills if it is a control transfer, those of the statement before it otherwise. -/
def iteratorForm (loads spills : StatementMultimap) :
    List STATEMENT → Nat → List STATEMENT → StatementList
  | c, _, [] => c.map inserted
  | c, k, s :: rest =>
    (stagedAt loads k ++ c ++
        (if isControlTransfer s.op then stagedAt spills k else [])).map inserted ++
      (some k, s) ::
        iteratorForm loads spills (if isControlTransfer s.op then [] else stagedAt spills k)
          (k + 1) rest

/-- The statement list in which every original statement (indices from `k`) is preceded by
its loads, then by its spills if it is a control transfer, and followed by its spills if it is
not. -/
def anchoredForm (loads spills : StatementMultimap) (k : Nat) (stmts : List STATEMENT) :
    StatementList :=
  (stmts.enumFrom k).flatMap (fun info =>
    (stagedAt loads info.1 ++
        (if isControlTransfer info.2.op then stagedAt spills info.1 else [])).map inserted ++
      (some info.1, info.2) ::
        (if isControlTransfer info.2.op then [] else stagedAt spills info.1).map inserted)

/-- The statement list `[JMP; MOV rel_c, rel_a]`, with a jump in its middle (so not a basic
block). -/
def jumpFirstBlock : BASIC_BLOCK :=
  ⟨[⟨OP_JMP, none, none, none⟩,
    ⟨OP_MOV, some (relRef 8), some (relRef 0), none⟩]⟩

/-- The map `loadPoints` for statements whose indices start at `k`. -/
def loadPointsFrom (loadStatements : StatementMultimap) (k : Nat) (stmts : List STATEMENT) :
    List (Nat × Nat) :=
  (stmts.enumFrom k).filterMap (fun statementInfo =>
    if loadStatements.any (fun stmt => stmt.1 == statementInfo.1) then
      some (statementInfo.1, statementInfo.1)
    else none)

/-- The map `spillPoints` for statements whose indices start at `k`. -/
def spillPointsFrom (spillStatements : StatementMultimap) (k : Nat) (stmts : List STATEMENT) :
    List (Nat × Nat) :=
  (stmts.enumFrom k).filterMap (fun statementInfo =>
    if spillStatements.any (fun stmt => stmt.1 == statementInfo.1) then
      some (statementInfo.1,
        if isControlTransfer statementInfo.2.op then statementInfo.1
        else statementInfo.1 + 1)
    else none)

/-- What holds of the state of `AllocateRegisters` after any number of ranges of the block
whose statements were `orig`. -/
def rangeLoopInvariant (orig : List STATEMENT) (st : AllocState) : Prop :=
  st.basicBlock.statements.length = orig.length ∧
  (∀ i : Nat, (st.basicBlock.statements[i]?).map (fun s : STATEMENT => s.op) =
    (orig[i]?).map (fun s : STATEMENT => s.op)) ∧
  (∀ l ∈ st.loadStatements, l.1 < orig.length ∧
    (l.1 = 0 ∨ ∃ j s, orig[j]? = some s ∧ s.op = OP_CALL ∧ l.1 = j + 1)) ∧
  (∀ l ∈ st.spillStatements, l.1 < orig.length)

/-! ## Auxiliary definitions for the later statements -/

/-- The indices, in increasing order, of the `OP_CALL` statements of a statement list whose
indices start at `k`. -/
def callIndicesFrom (k : Nat) (stmts : List STATEMENT) : List Nat :=
  ((stmts.enumFrom k).filter (fun info => info.2.op == OP_CALL)).map (fun info => info.1)

/-- The ranges `(start, c1), (c1 + 1, c2), ..., (ck + 1, last)` for the call indices
`c1, ..., ck`. -/
def rangesOfCalls (last : Nat) : List Nat → Nat → List AllocationRange
  | [], start => [(start, last)]
  | c :: cs, start => (start, c) :: rangesOfCalls last cs (c + 1)

/-- A table with one symbol of each register kind: a relative symbol, a single-precision
relative symbol, a relative reference and a 128-bit relative symbol. -/
def mixedTable : SymbolRegAllocInfo :=
  [(⟨SYM_RELATIVE, 0, 0⟩, { SYMBOL_REGALLOCINFO.init with useCount := 3, firstUse := 0 }),
   (⟨SYM_FP_RELATIVE32, 4, 0⟩, { SYMBOL_REGALLOCINFO.init with useCount := 2, firstUse := 0 }),
   (⟨SYM_REL_REFERENCE, 8, 0⟩, { SYMBOL_REGALLOCINFO.init with useCount := 5, firstUse := 0 }),
   (⟨SYM_RELATIVE128, 16, 0⟩, { SYMBOL_REGALLOCINFO.init with useCount := 1, firstUse := 0 })]

/-- The multimap of the commented-out loop when the general-purpose registers
`a, ..., a + g - 1` and the multimedia registers `b, ..., b + m - 1` are left. -/
def availableFrom (a g b m : Nat) : List (SYM_TYPE × Nat) :=
  (List.range' a g).map (fun i => (SYM_REGISTER, i)) ++
  (List.range' b m).map (fun i => (SYM_REGISTER128, i))

/-- What the commented-out loop gives to `symbol` when it walks the sorted pairs `l` with the
multimap `availableFrom a g b m`: the register kind and the lowest index left. -/
def assignedLowest :
    List (CSymbol × SYMBOL_REGALLOCINFO) → Nat → Nat → Nat → Nat → CSymbol →
      Option (SYM_TYPE × Nat)
  | [], _, _, _, _, _ => none
  | p :: rest, a, g, b, m, symbol =>
    match selectRegisters p.1.m_type with
    | (some RegisterPool.GP, registerSymbolType) =>
      if g = 0 then assignedLowest rest a g b m symbol
      else if p.1 = symbol then some (registerSymbolType, a)
      else assignedLowest rest (a + 1) (g - 1) b m symbol
    | (some RegisterPool.MD, registerSymbolType) =>
      if m = 0 then assignedLowest rest a g b m symbol
      else if p.1 = symbol then some (registerSymbolType, b)
      else assignedLowest rest a g (b + 1) (m - 1) symbol
    | (none, _) => assignedLowest rest a g b m symbol

/-- The number of registers of the pool that registers of kind `registerType` come from. -/
def poolSizeOf (registerType : SYM_TYPE) (g m : Nat) : Nat :=
  if registerType ∈ [SYM_REGISTER, SYM_REG_REFERENCE] then g else m

/-- The two results for one symbol agree in everything but the register index, and the two
indices mirror each other in the pool. -/
def mirrored (g m : Nat) (x y : CSymbol × SYMBOL_REGALLOCINFO) : Prop :=
  x.1 = y.1 ∧ x.2.useCount = y.2.useCount ∧ x.2.firstUse = y.2.firstUse ∧
  x.2.lastUse = y.2.lastUse ∧ x.2.firstDef = y.2.firstDef ∧ x.2.lastDef = y.2.lastDef ∧
  x.2.aliased = y.2.aliased ∧ x.2.registerType = y.2.registerType ∧
  (x.2.registerId = UINT_MAX ↔ y.2.registerId = UINT_MAX) ∧
  (x.2.registerId ≠ UINT_MAX →
    x.2.registerId + y.2.registerId + 1 = poolSizeOf x.2.registerType g m)

/-- Whether a statement index lies in the range `[first, last]`. -/
def inRange (allocRange : AllocationRange) (i : Nat) : Bool :=
  decide (allocRange.1 ≤ i) && decide (i ≤ allocRange.2)

/-- The statements of the block whose index lies in the range, with their indices, in block
order. -/
def rangeStatements (basicBlock : BASIC_BLOCK) (allocRange : AllocationRange) :
    List (Nat × STATEMENT) :=
  basicBlock.statements.enum.filter (fun statementInfo => inRange allocRange statementInfo.1)

/-- The number of operand occurrences of `symbol` in the range: `dst`, `src1` and `src2` of
every statement of the range count separately. -/
def operandOccurrences (basicBlock : BASIC_BLOCK) (allocRange : AllocationRange)
    (symbol : CSymbol) : Nat :=
  (((rangeStatements basicBlock allocRange).flatMap
    (fun statementInfo => statementInfo.2.operands)).filter
      (fun symbolRef => decide (symbolRef.GetSymbol = symbol))).length

/-- The indices of the range at which `symbol` is the destination. -/
def defIndices (basicBlock : BASIC_BLOCK) (allocRange : AllocationRange) (symbol : CSymbol) :
    List Nat :=
  ((rangeStatements basicBlock allocRange).filter (fun statementInfo =>
    statementInfo.2.destination.any (fun symbolRef => decide (symbolRef.GetSymbol = symbol)))).map
      (fun statementInfo => statementInfo.1)

/-- The indices of the range at which `symbol` is a source. -/
def useIndices (basicBlock : BASIC_BLOCK) (allocRange : AllocationRange) (symbol : CSymbol) :
    List Nat :=
  ((rangeStatements basicBlock allocRange).filter (fun statementInfo =>
    statementInfo.2.sources.any (fun symbolRef => decide (symbolRef.GetSymbol = symbol)))).map
      (fun statementInfo => statementInfo.1)

/-- The field value `x` is the smallest index of `l`, or the sentinel `-1` when there is
none. -/
def isSmallestOf (x : Nat) (l : List Nat) : Prop :=
  (l = [] ∧ x = UINT_MAX) ∨ (x ∈ l ∧ ∀ i ∈ l, x ≤ i)

/-- The field value `x` is the largest index of `l`, or the sentinel `-1` when there is
none. -/
def isLargestOf (x : Nat) (l : List Nat) : Prop :=
  (l = [] ∧ x = UINT_MAX) ∨ (x ∈ l ∧ ∀ i ∈ l, i ≤ x)

/-- One visit of the liveness pass: the statement index, whether the operand is visited as
destination, and the operand. -/
abbrev LivenessEvent := Nat × Bool × CSymbolRef

/-- What one visit does to the record of the visited symbol. -/
def recordEvent (r : SYMBOL_REGALLOCINFO) (e : LivenessEvent) : SYMBOL_REGALLOCINFO :=
  match e.2.1 with
  | true =>
    let r1 := { r with useCount := (r.useCount + 1) % 4294967296 }
    let r2 := if r1.firstDef = UINT_MAX then { r1 with firstDef := e.1 } else r1
    if r2.lastDef = UINT_MAX ∨ e.1 > r2.lastDef then { r2 with lastDef := e.1 } else r2
  | false =>
    let r1 := { r with useCount := (r.useCount + 1) % 4294967296 }
    let r2 := if r1.firstUse = UINT_MAX then { r1 with firstUse := e.1 } else r1
    if r2.lastUse = UINT_MAX ∨ e.1 > r2.lastUse then { r2 with lastUse := e.1 } else r2

/-- The visits of the liveness pass for one statement: the destination, then the sources. -/
def statementEvents (statementInfo : Nat × STATEMENT) : List LivenessEvent :=
  statementInfo.2.destination.map (fun symbolRef => (statementInfo.1, true, symbolRef)) ++
  statementInfo.2.sources.map (fun symbolRef => (statementInfo.1, false, symbolRef))

/-- The visits of the liveness pass over the range, in order. -/
def livenessEvents (basicBlock : BASIC_BLOCK) (allocRange : AllocationRange) :
    List LivenessEvent :=
  (rangeStatements basicBlock allocRange).flatMap statementEvents

/-- The visits of `symbol` among the visits of the range. -/
def symbolEvents (basicBlock : BASIC_BLOCK) (allocRange : AllocationRange) (symbol : CSymbol) :
    List LivenessEvent :=
  (livenessEvents basicBlock allocRange).filter (fun e => decide (e.2.2.GetSymbol = symbol))

/-- The statement indices of the visits as destination (`asDestination = true`) or as source
among the visits `es`, in order. -/
def eventIndices (asDestination : Bool) (es : List LivenessEvent) : List Nat :=
  (es.filter (fun e => e.2.1 == asDestination)).map (fun e => e.1)

/-- The statement is an `OP_PARAM_RET` whose `src1` refers to `testedSymbol`. -/
def paramRetSource (statement : STATEMENT) (testedSymbol : CSymbol) : Bool :=
  statement.op == OP_PARAM_RET &&
    statement.src1.any (fun symbolRef => symbolRef.GetSymbol == testedSymbol)

/-- The statement has an operand whose symbol is not structurally equal to `testedSymbol` and
aliases it. -/
def aliasingOperand (d : SymbolDecls) (statement : STATEMENT) (testedSymbol : CSymbol) : Bool :=
  statement.operands.any (fun symbolRef =>
    !(symbolRef.GetSymbol == testedSymbol) && d.Aliases symbolRef.GetSymbol testedSymbol)

/-- Declarations in which a 128-bit relative symbol at offset `o` and a relative symbol at an
offset in `[o, o + 16)` alias each other. -/
def overlapDecls : SymbolDecls :=
  { typeValue := exampleTypeValue
    typeValue_injective := exampleDecls.typeValue_injective
    Aliases := fun a b =>
      (a.m_type == SYM_RELATIVE128 && b.m_type == SYM_RELATIVE &&
        decide (a.m_valueLow ≤ b.m_valueLow ∧ b.m_valueLow < a.m_valueLow + 16)) ||
      (b.m_type == SYM_RELATIVE128 && a.m_type == SYM_RELATIVE &&
        decide (b.m_valueLow ≤ a.m_valueLow ∧ a.m_valueLow < b.m_valueLow + 16))
    IsTemporary := exampleDecls.IsTemporary }

/-- The block `[MOV rel128_0, rel128_32; ADD t1, rel_4, rel_64; PARAM_RET rel_64]`. -/
def aliasBlock : BASIC_BLOCK :=
  ⟨[⟨OP_MOV, some (MakeSymbolRef ⟨SYM_RELATIVE128, 0, 0⟩),
      some (MakeSymbolRef ⟨SYM_RELATIVE128, 32, 0⟩), none⟩,
    ⟨OP_ADD, some (tmpRef 1), some (relRef 4), some (relRef 64)⟩,
    ⟨OP_PARAM_RET, none, some (relRef 64), none⟩]⟩

/-- The invariant of a table: the allocated objects have pairwise different addresses, every
element of the set is an allocated object, and no two elements of the set are structurally
equal. -/
def CSymbolTable.WellFormed (t : CSymbolTable) : Prop :=
  (t.m_allocatedSymbols.map Prod.fst).Nodup ∧
  (∀ symbol ∈ t.m_symbols, symbol ∈ t.m_allocatedSymbols) ∧
  (t.m_symbols.map Prod.snd).Nodup

instance (t : CSymbolTable) : Decidable t.WellFormed := by
  unfold CSymbolTable.WellFormed
  infer_instance

/-- An allocator: one more than the highest address alive. -/
def exampleAllocator : Allocator :=
  { newAddress := fun live => live.foldr max 0 + 1
    fresh := by
      intro live h
      have hle : ∀ (l : List Nat) (x : Nat), x ∈ l → x ≤ l.foldr max 0 := by
        intro l
        induction l with
        | nil => intro x hx; cases hx
        | cons y rest ih =>
          intro x hx
          rw [List.foldr_cons]
          rcases List.mem_cons.1 hx with e | e
          · rw [e]; exact Nat.le_max_left _ _
          · exact Nat.le_trans (ih x e) (Nat.le_max_right _ _)
      have h' : live.foldr max 0 + 1 ∈ live := h
      have := hle live _ h'
      omega }

/-- A call on a table: `MakeSymbol` of a symbol, or `RemoveSymbol` of an iterator. -/
inductive TableOperation where
  | make (srcSymbol : CSymbol)
  | remove (symbolIterator : SymbolPtr)
  deriving DecidableEq, Repr

/-- The table after one call. -/
def applyOperation (a : Allocator) (t : CSymbolTable) (operation : TableOperation) :
    CSymbolTable :=
  match operation with
  | TableOperation.make srcSymbol => (CSymbolTable.MakeSymbolFromPtr a t srcSymbol).2
  | TableOperation.remove symbolIterator => t.RemoveSymbol symbolIterator

/-- The table after a sequence of calls. -/
def applyOperations (a : Allocator) (operations : List TableOperation) (t : CSymbolTable) :
    CSymbolTable :=
  operations.foldl (applyOperation a) t

/-- Where a statement of the output of `AllocateRegisters` comes from: a load staged for the
statement index, a spill staged for the index and inserted before the statement of that
index, the (rewritten) statement of the index itself, or a spill staged for the index and
inserted after the statement. -/
inductive Placement where
  | load (index : Nat)
  | spillBefore (index : Nat)
  | original (index : Nat)
  | spillAfter (index : Nat)
  deriving DecidableEq, Repr

/-- The statement index a placement belongs to. -/
def Placement.index : Placement → Nat
  | Placement.load i => i
  | Placement.spillBefore i => i
  | Placement.original i => i
  | Placement.spillAfter i => i

/-- The rank of a placement in the output: index first, then loads, spills before, the
statement, spills after. -/
def Placement.slot : Placement → Nat
  | Placement.load i => 4 * i
  | Placement.spillBefore i => 4 * i + 1
  | Placement.original i => 4 * i + 2
  | Placement.spillAfter i => 4 * i + 3

/-- The iterator tag of a placed statement: an original statement carries its index, an
inserted one carries none. -/
def Placement.tag : Placement → Option Nat
  | Placement.original i => some i
  | _ => none

/-- The statements around the statement `info.2` of index `info.1`, with their placements:
its loads, its spills if it is a control transfer, the statement, its spills if it is not. -/
def placedAround (loads spills : StatementMultimap) (info : Nat × STATEMENT) :
    List (Placement × STATEMENT) :=
  (stagedAt loads info.1).map (fun s => (Placement.load info.1, s)) ++
    ((if isControlTransfer info.2.op then stagedAt spills info.1 else []).map
      (fun s => (Placement.spillBefore info.1, s)) ++
    (Placement.original info.1, info.2) ::
      (if isControlTransfer info.2.op then [] else stagedAt spills info.1).map
        (fun s => (Placement.spillAfter info.1, s)))

/-- The statement list of `anchoredForm` with the placement of every statement. -/
def placedForm (loads spills : StatementMultimap) (k : Nat) (stmts : List STATEMENT) :
    List (Placement × STATEMENT) :=
  (stmts.enumFrom k).flatMap (placedAround loads spills)

/-- The output of `AllocateRegisters` with the placement of every statement. -/
def placedOutput (d : SymbolDecls) (gpCount mdCount : Nat) (basicBlock : BASIC_BLOCK) :
    List (Placement × STATEMENT) :=
  placedForm (allocateRanges d gpCount mdCount basicBlock).loadStatements
    (allocateRanges d gpCount mdCount basicBlock).spillStatements 0
    (allocateRanges d gpCount mdCount basicBlock).basicBlock.statements

/-- Two candidates neither of which the comparator ranks before the other. -/
def incomparable (d : SymbolDecls) (a b : CSymbol × SYMBOL_REGALLOCINFO) : Prop :=
  sortComparator d a b = false ∧ sortComparator d b a = false

/-- The key the comparator orders by: the use count, the value of the kind, the low value. -/
def sortKey (d : SymbolDecls) (p : CSymbol × SYMBOL_REGALLOCINFO) : Nat × Nat × Nat :=
  (p.2.useCount, d.typeValue p.1.m_type, p.1.m_valueLow)

/-- The assignment loop of `AssociateSymbolsToRegisters` on the vector `sortedSymbols` as the
call of `std::sort` left it. -/
def assignSortedSymbols (gpCount mdCount : Nat)
    (sortedSymbols : List (CSymbol × SYMBOL_REGALLOCINFO))
    (symbolRegAllocs : SymbolRegAllocInfo) : SymbolRegAllocInfo :=
  (sortedSymbols.foldl assignStep
    ⟨List.range gpCount, List.range mdCount, symbolRegAllocs⟩).symbolRegAllocs

/-- The vector `sortedSymbols` is a possible result of the call of `std::sort` on the
candidates of the table: a permutation of the candidates in which no element ranks before an
earlier one. The standard leaves the order of tied candidates open, so there can be several. -/
def isSortOutcome (d : SymbolDecls) (symbolRegAllocs : SymbolRegAllocInfo)
    (sortedSymbols : List (CSymbol × SYMBOL_REGALLOCINFO)) : Prop :=
  List.Perm sortedSymbols (symbolRegAllocs.filter (fun symbolRegAllocPair =>
    isRegisterAllocatable symbolRegAllocPair.1.m_type && !symbolRegAllocPair.2.aliased)) ∧
  List.Pairwise (fun a b => sortComparator d b a = false) sortedSymbols

/-- The block `[MOV rel_c, rel_a; CONDJMP rel_c, rel_a]`, which ends in a conditional jump. -/
def branchBlock : BASIC_BLOCK :=
  ⟨[⟨OP_MOV, some (relRef 8), some (relRef 0), none⟩,
    ⟨OP_CONDJMP, none, some (relRef 8), some (relRef 0)⟩]⟩

/-! ## Theorems: ComputeAllocationRanges -/

theorem ranges_loop_head (last : Nat) (stmts : List STATEMENT) (idx cs : Nat) :
    ∃ r rest, ComputeAllocationRanges.loop last stmts idx cs = r :: rest ∧ r.1 = cs := by
  induction stmts generalizing idx cs with
  | nil => exact ⟨_, _, rfl, rfl⟩
  | cons s rest ih =>
    unfold ComputeAllocationRanges.loop
    split
    · exact ⟨_, _, rfl, rfl⟩
    · exact ih (idx + 1) cs

theorem ranges_loop_first_ge (last : Nat) (stmts : List STATEMENT) (idx cs : Nat)
    (hcs : cs ≤ idx) :
    ∀ r ∈ ComputeAllocationRanges.loop last stmts idx cs, cs ≤ r.1 := by
  induction stmts generalizing idx cs with
  | nil => intro r hr; simp [ComputeAllocationRanges.loop] at hr; subst hr; exact le_refl _
  | cons s rest ih =>
    intro r hr
    unfold ComputeAllocationRanges.loop at hr
    split at hr
    · rcases List.mem_cons.1 hr with h | h
      · subst h; exact le_refl _
      · have := ih (idx + 1) (idx + 1) (le_refl _) r h
        omega
    · exact ih (idx + 1) cs (by omega) r hr

theorem ranges_loop_chain (last : Nat) (stmts : List STATEMENT) (idx cs : Nat) :
    List.Chain' (fun r s : AllocationRange => s.1 = r.2 + 1)
      (ComputeAllocationRanges.loop last stmts idx cs) := by
  induction stmts generalizing idx cs with
  | nil => simp [ComputeAllocationRanges.loop]
  | cons s rest ih =>
    unfold ComputeAllocationRanges.loop
    split
    · obtain ⟨r, tl, hrt, hr1⟩ := ranges_loop_head last rest (idx + 1) (idx + 1)
      have hc := ih (idx + 1) (idx + 1)
      rw [hrt] at hc ⊢
      exact List.Chain'.cons hr1 hc
    · exact ih (idx + 1) cs

theorem ranges_loop_pairwise (last : Nat) (stmts : List STATEMENT) (idx cs : Nat) :
    List.Pairwise (fun r s : AllocationRange => r.2 < s.1)
      (ComputeAllocationRanges.loop last stmts idx cs) := by
  induction stmts generalizing idx cs with
  | nil => simp [ComputeAllocationRanges.loop]
  | cons s rest ih =>
    unfold ComputeAllocationRanges.loop
    split
    · refine List.Pairwise.cons ?_ (ih (idx + 1) (idx + 1))
      intro r hr
      have := ranges_loop_first_ge last rest (idx + 1) (idx + 1) (le_refl _) r hr
      show idx < r.1
      omega
    · exact ih (idx + 1) cs

theorem ranges_loop_cover (last : Nat) (stmts : List STATEMENT) (idx cs : Nat)
    (hcs : cs ≤ idx) (hlast : last + 1 = idx + stmts.length) (i : Nat) :
    (∃ r ∈ ComputeAllocationRanges.loop last stmts idx cs, r.1 ≤ i ∧ i ≤ r.2) ↔
      (cs ≤ i ∧ i ≤ last) := by
  induction stmts generalizing idx cs with
  | nil => simp [ComputeAllocationRanges.loop]
  | cons s rest ih =>
    unfold ComputeAllocationRanges.loop
    have hl : last + 1 = idx + 1 + rest.length := by simp at hlast; omega
    split
    · have h := ih (idx + 1) (idx + 1) (le_refl _) hl
      constructor
      · rintro ⟨r, hr, h1, h2⟩
        rcases List.mem_cons.1 hr with e | e
        · subst e; simp at h1 h2; omega
        · have := h.1 ⟨r, e, h1, h2⟩; omega
      · rintro ⟨h1, h2⟩
        by_cases hi : i ≤ idx
        · exact ⟨(cs, idx), List.mem_cons_self _ _, h1, hi⟩
        · obtain ⟨r, hr, h3, h4⟩ := h.2 ⟨by omega, h2⟩
          exact ⟨r, List.mem_cons_of_mem _ hr, h3, h4⟩
    · exact ih (idx + 1) cs (by omega) hl

theorem ranges_loop_call (last : Nat) (stmts : List STATEMENT) (idx cs : Nat)
    (hcs : cs ≤ idx) (j : Nat) (hj : j < stmts.length) (hop : stmts[j].op = OP_CALL) :
    ∃ r ∈ ComputeAllocationRanges.loop last stmts idx cs, r.1 ≤ idx + j ∧ r.2 = idx + j := by
  induction stmts generalizing idx cs j with
  | nil => simp at hj
  | cons s rest ih =>
    unfold ComputeAllocationRanges.loop
    cases j with
    | zero =>
      simp at hop
      rw [if_pos hop]
      exact ⟨(cs, idx), List.mem_cons_self _ _, hcs, rfl⟩
    | succ k =>
      simp at hop hj
      split
      · obtain ⟨r, hr, h1, h2⟩ := ih (idx + 1) (idx + 1) (le_refl _) k hj hop
        exact ⟨r, List.mem_cons_of_mem _ hr, by omega, by omega⟩
      · obtain ⟨r, hr, h1, h2⟩ := ih (idx + 1) cs (by omega) k hj hop
        exact ⟨r, hr, by omega, by omega⟩

/-- Claim C1: for a block of `n ≥ 1` statements (`n` within the range of the `unsigned int`
indices) the ranges of `ComputeAllocationRanges`, in order, start at index 0, each next range
starts at the previous range's last index plus one, no two of them overlap, an index lies in
some range exactly when it is below `n`, and every `OP_CALL` statement is the last index of a
range that contains it. -/
theorem ComputeAllocationRanges_partition (basicBlock : BASIC_BLOCK)
    (hn : 1 ≤ basicBlock.statements.length)
    (hlt : basicBlock.statements.length < 4294967296) :
    (∃ r rest, ComputeAllocationRanges basicBlock = r :: rest ∧ r.1 = 0) ∧
    List.Chain' (fun r s : AllocationRange => s.1 = r.2 + 1)
      (ComputeAllocationRanges basicBlock) ∧
    List.Pairwise (fun r s : AllocationRange => r.2 < s.1)
      (ComputeAllocationRanges basicBlock) ∧
    (∀ i, (∃ r ∈ ComputeAllocationRanges basicBlock, r.1 ≤ i ∧ i ≤ r.2) ↔
      i < basicBlock.statements.length) ∧
    (∀ i (hi : i < basicBlock.statements.length),
      basicBlock.statements[i].op = OP_CALL →
      ∃ r ∈ ComputeAllocationRanges basicBlock, r.1 ≤ i ∧ r.2 = i) := by
  have hlast : (basicBlock.statements.length + 4294967295) % 4294967296 + 1 =
      0 + basicBlock.statements.length := by omega
  refine ⟨ranges_loop_head _ _ 0 0, ranges_loop_chain _ _ 0 0, ranges_loop_pairwise _ _ 0 0,
    ?_, ?_⟩
  · intro i
    have h := ranges_loop_cover _ basicBlock.statements 0 0 (le_refl _) hlast i
    unfold ComputeAllocationRanges
    rw [h]
    omega
  · intro i hi hop
    have h := ranges_loop_call ((basicBlock.statements.length + 4294967295) % 4294967296)
      basicBlock.statements 0 0 (le_refl _) i hi hop
    simpa [ComputeAllocationRanges] using h

theorem ComputeAllocationRanges_partition_witness :
    (∃ r rest, ComputeAllocationRanges callBlock = r :: rest ∧ r.1 = 0) ∧
    List.Chain' (fun r s : AllocationRange => s.1 = r.2 + 1)
      (ComputeAllocationRanges callBlock) ∧
    List.Pairwise (fun r s : AllocationRange => r.2 < s.1)
      (ComputeAllocationRanges callBlock) ∧
    (∀ i, (∃ r ∈ ComputeAllocationRanges callBlock, r.1 ≤ i ∧ i ≤ r.2) ↔
      i < callBlock.statements.length) ∧
    (∀ i (hi : i < callBlock.statements.length),
      callBlock.statements[i].op = OP_CALL →
      ∃ r ∈ ComputeAllocationRanges callBlock, r.1 ≤ i ∧ r.2 = i) :=
  ComputeAllocationRanges_partition callBlock (by decide) (by decide)

/-! ## Theorems: AssociateSymbolsToRegisters -/



theorem assignedRegister_not_mem (l : List (CSymbol × SYMBOL_REGALLOCINFO)) (g m : Nat)
    (symbol : CSymbol) (h : symbol ∉ l.map Prod.fst) : assignedRegister l g m symbol = none := by
  induction l generalizing g m with
  | nil => rfl
  | cons p rest ih =>
    simp only [List.map_cons, List.mem_cons, not_or] at h
    have hne : ¬ p.1 = symbol := fun e => h.1 e.symm
    unfold assignedRegister
    split <;> simp [hne, ih _ _ h.2]

theorem dropLast_range (g : Nat) : (List.range g).dropLast = List.range (g - 1) := by
  cases g with
  | zero => rfl
  | succ k => rw [List.range_succ]; simp

theorem assign_foldl (l : List (CSymbol × SYMBOL_REGALLOCINFO)) (g m : Nat)
    (t : SymbolRegAllocInfo) (hnd : (l.map Prod.fst).Nodup) :
    (l.foldl assignStep ⟨List.range g, List.range m, t⟩).symbolRegAllocs =
      t.map (fun pair => applyAssigned (assignedRegister l g m pair.1) pair) := by
  induction l generalizing g m t with
  | nil => simp [assignedRegister, applyAssigned]
  | cons p rest ih =>
    simp only [List.map_cons, List.nodup_cons] at hnd
    have hnone : ∀ g m, assignedRegister rest g m p.1 = none :=
      fun g m => assignedRegister_not_mem rest g m p.1 hnd.1
    rw [List.foldl_cons]
    rcases hsel : selectRegisters p.1.m_type with ⟨pool, rt⟩
    rcases pool with _ | pool
    · have hstep : assignStep ⟨List.range g, List.range m, t⟩ p = ⟨List.range g, List.range m, t⟩ := by
        simp [assignStep, hsel]
      rw [hstep, ih g m t hnd.2]
      apply List.map_congr_left
      intro pair _
      simp [assignedRegister, hsel]
    · cases pool with
      | GP =>
        by_cases hg : g = 0
        · have hstep : assignStep ⟨List.range g, List.range m, t⟩ p =
              ⟨List.range g, List.range m, t⟩ := by
            simp [assignStep, hsel, hg]
          rw [hstep, ih g m t hnd.2]
          apply List.map_congr_left
          intro pair _
          simp [assignedRegister, hsel, hg]
        · have hstep : assignStep ⟨List.range g, List.range m, t⟩ p =
              ⟨List.range (g - 1), List.range m, setRegister t p.1 rt (g - 1)⟩ := by
            simp [assignStep, hsel, List.getLast?_range, hg, dropLast_range]
          rw [hstep, ih (g - 1) m _ hnd.2, setRegister, List.map_map]
          apply List.map_congr_left
          intro pair _
          by_cases hp : pair.1 = p.1
          · simp [assignedRegister, hsel, hg, hp, hnone, applyAssigned]
          · have hp2 : ¬ p.1 = pair.1 := fun e => hp e.symm
            simp [assignedRegister, hsel, hg, hp, hp2]
      | MD =>
        by_cases hg : m = 0
        · have hstep : assignStep ⟨List.range g, List.range m, t⟩ p =
              ⟨List.range g, List.range m, t⟩ := by
            simp [assignStep, hsel, hg]
          rw [hstep, ih g m t hnd.2]
          apply List.map_congr_left
          intro pair _
          simp [assignedRegister, hsel, hg]
        · have hstep : assignStep ⟨List.range g, List.range m, t⟩ p =
              ⟨List.range g, List.range (m - 1), setRegister t p.1 rt (m - 1)⟩ := by
            simp [assignStep, hsel, List.getLast?_range, hg, dropLast_range]
          rw [hstep, ih g (m - 1) _ hnd.2, setRegister, List.map_map]
          apply List.map_congr_left
          intro pair _
          by_cases hp : pair.1 = p.1
          · simp [assignedRegister, hsel, hg, hp, hnone, applyAssigned]
          · have hp2 : ¬ p.1 = pair.1 := fun e => hp e.symm
            simp [assignedRegister, hsel, hg, hp, hp2]

theorem isRegisterAllocatable_iff (k : SYM_TYPE) :
    isRegisterAllocatable k = true ↔
      k ∈ [SYM_RELATIVE, SYM_TEMPORARY, SYM_REL_REFERENCE, SYM_TMP_REFERENCE,
        SYM_FP_RELATIVE32, SYM_FP_TEMPORARY32, SYM_RELATIVE128, SYM_TEMPORARY128] := by
  cases k <;> simp [isRegisterAllocatable]

theorem sortComparator_iff (d : SymbolDecls) (a b : CSymbol × SYMBOL_REGALLOCINFO) :
    sortComparator d a b = true ↔
      (a.2.useCount > b.2.useCount ∨
        (a.2.useCount = b.2.useCount ∧
          (d.typeValue a.1.m_type > d.typeValue b.1.m_type ∨
            (d.typeValue a.1.m_type = d.typeValue b.1.m_type ∧
              a.1.m_valueLow > b.1.m_valueLow)))) := by
  unfold sortComparator
  by_cases hu : a.2.useCount = b.2.useCount
  · by_cases ht : a.1.m_type = b.1.m_type
    · simp [hu, ht]
    · have hv : d.typeValue a.1.m_type ≠ d.typeValue b.1.m_type :=
        fun e => ht (d.typeValue_injective e)
      simp [hu, ht, hv]
  · simp [hu]

theorem sortComparator_false_iff (d : SymbolDecls) (a b : CSymbol × SYMBOL_REGALLOCINFO) :
    sortComparator d a b = false ↔
      ¬ (a.2.useCount > b.2.useCount ∨
        (a.2.useCount = b.2.useCount ∧
          (d.typeValue a.1.m_type > d.typeValue b.1.m_type ∨
            (d.typeValue a.1.m_type = d.typeValue b.1.m_type ∧
              a.1.m_valueLow > b.1.m_valueLow)))) := by
  rw [← sortComparator_iff]; simp

theorem stdSort_perm (d : SymbolDecls) (l : List (CSymbol × SYMBOL_REGALLOCINFO)) :
    List.Perm (stdSort d l) l :=
  List.perm_insertionSort _ l

theorem stdSort_sorted (d : SymbolDecls) (l : List (CSymbol × SYMBOL_REGALLOCINFO)) :
    List.Pairwise (fun a b => sortComparator d b a = false) (stdSort d l) := by
  haveI : IsTotal (CSymbol × SYMBOL_REGALLOCINFO) (fun a b => sortComparator d b a = false) :=
    ⟨fun a b => by
      simp only [sortComparator_false_iff]
      omega⟩
  haveI : IsTrans (CSymbol × SYMBOL_REGALLOCINFO) (fun a b => sortComparator d b a = false) :=
    ⟨fun a b c => by
      simp only [sortComparator_false_iff]
      omega⟩
  exact List.sorted_insertionSort _ l

theorem candidates_keys_nodup (d : SymbolDecls) (t : SymbolRegAllocInfo)
    (hnd : (t.map Prod.fst).Nodup) (f : CSymbol × SYMBOL_REGALLOCINFO → Bool) :
    ((stdSort d (t.filter f)).map Prod.fst).Nodup := by
  have hp : List.Perm ((stdSort d (t.filter f)).map Prod.fst) ((t.filter f).map Prod.fst) :=
    (stdSort_perm d _).map _
  rw [hp.nodup_iff]
  exact hnd.sublist ((List.filter_sublist t).map _)

theorem mem_sortedCandidates (d : SymbolDecls) (t : SymbolRegAllocInfo)
    (p : CSymbol × SYMBOL_REGALLOCINFO) :
    p ∈ sortedCandidates d t ↔
      p ∈ t ∧ isRegisterAllocatable p.1.m_type = true ∧ p.2.aliased = false := by
  unfold sortedCandidates
  rw [(stdSort_perm d _).mem_iff]
  simp

theorem associate_eq_map (d : SymbolDecls) (gpCount mdCount : Nat) (t : SymbolRegAllocInfo)
    (hnd : (t.map Prod.fst).Nodup) :
    AssociateSymbolsToRegisters d gpCount mdCount t =
      t.map (fun pair =>
        applyAssigned (assignedRegister (sortedCandidates d t) gpCount mdCount pair.1) pair) := by
  unfold AssociateSymbolsToRegisters
  exact assign_foldl _ gpCount mdCount t (candidates_keys_nodup d t hnd _)

theorem eq_of_mem_of_keys_nodup (t : SymbolRegAllocInfo) (hnd : (t.map Prod.fst).Nodup)
    (p q : CSymbol × SYMBOL_REGALLOCINFO) (hp : p ∈ t) (hq : q ∈ t) (h : p.1 = q.1) :
    p = q := by
  induction t with
  | nil => cases hp
  | cons x rest ih =>
    simp only [List.map_cons, List.nodup_cons, List.mem_map, not_exists, not_and] at hnd
    rcases List.mem_cons.1 hp with e1 | e1 <;> rcases List.mem_cons.1 hq with e2 | e2
    · rw [e1, e2]
    · exact absurd (by rw [← h, e1]) (hnd.1 q e2)
    · exact absurd (by rw [h, e2]) (hnd.1 p e1)
    · exact ih hnd.2 e1 e2

theorem assignedRegister_some_mem (l : List (CSymbol × SYMBOL_REGALLOCINFO)) (g m : Nat)
    (symbol : CSymbol) (x : SYM_TYPE × Nat) (h : assignedRegister l g m symbol = some x) :
    ∃ r, (symbol, r) ∈ l := by
  by_contra hc
  have : symbol ∉ l.map Prod.fst := by
    intro hm
    obtain ⟨p, hp, e⟩ := List.mem_map.1 hm
    exact hc ⟨p.2, by rw [← e]; exact hp⟩
  rw [assignedRegister_not_mem l g m symbol this] at h
  cases h

theorem assigned_is_candidate (d : SymbolDecls) (gpCount mdCount : Nat)
    (t : SymbolRegAllocInfo) (hnd : (t.map Prod.fst).Nodup)
    (p : CSymbol × SYMBOL_REGALLOCINFO) (hp : p ∈ t) (x : SYM_TYPE × Nat)
    (hx : assignedRegister (sortedCandidates d t) gpCount mdCount p.1 = some x) :
    isRegisterAllocatable p.1.m_type = true ∧ p.2.aliased = false := by
  obtain ⟨r, hr⟩ := assignedRegister_some_mem _ _ _ _ _ hx
  have hm := (mem_sortedCandidates d t (p.1, r)).1 hr
  have e : (p.1, r) = p := eq_of_mem_of_keys_nodup t hnd _ _ hm.1 hp rfl
  rw [e] at hm
  exact hm.2

theorem assignedRegister_cons_ne (p : CSymbol × SYMBOL_REGALLOCINFO)
    (rest : List (CSymbol × SYMBOL_REGALLOCINFO)) (g m : Nat) (symbol : CSymbol)
    (hne : ¬ p.1 = symbol) :
    assignedRegister (p :: rest) g m symbol =
      assignedRegister rest
        (if drawsFrom RegisterPool.GP p then g - 1 else g)
        (if drawsFrom RegisterPool.MD p then m - 1 else m) symbol := by
  rcases hsel : selectRegisters p.1.m_type with ⟨pool, rt⟩
  rcases pool with _ | pool
  · simp [assignedRegister, hsel, drawsFrom]
  · cases pool with
    | GP =>
      by_cases hg : g = 0
      · simp [assignedRegister, hsel, drawsFrom, hg]
      · simp [assignedRegister, hsel, drawsFrom, hg, hne]
    | MD =>
      by_cases hg : m = 0
      · simp [assignedRegister, hsel, drawsFrom, hg]
      · simp [assignedRegister, hsel, drawsFrom, hg, hne]

theorem assignedRegister_cons_self (p : CSymbol × SYMBOL_REGALLOCINFO)
    (rest : List (CSymbol × SYMBOL_REGALLOCINFO)) (g m : Nat)
    (hnot : p.1 ∉ rest.map Prod.fst) :
    assignedRegister (p :: rest) g m p.1 =
      if drawsFrom RegisterPool.GP p then
        (if g = 0 then none else some ((selectRegisters p.1.m_type).2, g - 1))
      else if drawsFrom RegisterPool.MD p then
        (if m = 0 then none else some ((selectRegisters p.1.m_type).2, m - 1))
      else none := by
  have hnone : ∀ g m, assignedRegister rest g m p.1 = none :=
    fun g m => assignedRegister_not_mem rest g m p.1 hnot
  rcases hsel : selectRegisters p.1.m_type with ⟨pool, rt⟩
  rcases pool with _ | pool
  · simp [assignedRegister, hsel, drawsFrom, hnone]
  · cases pool with
    | GP =>
      by_cases hg : g = 0
      · simp [assignedRegister, hsel, drawsFrom, hg, hnone]
      · simp [assignedRegister, hsel, drawsFrom, hg]
    | MD =>
      by_cases hg : m = 0
      · simp [assignedRegister, hsel, drawsFrom, hg, hnone]
      · simp [assignedRegister, hsel, drawsFrom, hg]

theorem drawsFrom_exclusive (p : CSymbol × SYMBOL_REGALLOCINFO)
    (h : drawsFrom RegisterPool.GP p = true) : drawsFrom RegisterPool.MD p = false := by
  unfold drawsFrom at *
  cases hs : (selectRegisters p.1.m_type).1 with
  | none => simp
  | some pool => rw [hs] at h; cases pool <;> simp_all

theorem assigned_count (pool : RegisterPool) (l : List (CSymbol × SYMBOL_REGALLOCINFO))
    (g m : Nat) (hnd : (l.map Prod.fst).Nodup) :
    (l.filter (fun p => drawsFrom pool p && (assignedRegister l g m p.1).isSome)).length =
      min (poolSize pool g m) (l.filter (drawsFrom pool)).length := by
  induction l generalizing g m with
  | nil => simp
  | cons p rest ih =>
    simp only [List.map_cons, List.nodup_cons] at hnd
    have hrest : rest.filter (fun q => drawsFrom pool q &&
          (assignedRegister (p :: rest) g m q.1).isSome) =
        rest.filter (fun q => drawsFrom pool q &&
          (assignedRegister rest
            (if drawsFrom RegisterPool.GP p then g - 1 else g)
            (if drawsFrom RegisterPool.MD p then m - 1 else m) q.1).isSome) := by
      apply List.filter_congr
      intro q hq
      have hne : ¬ p.1 = q.1 := fun e => hnd.1 (e ▸ List.mem_map_of_mem Prod.fst hq)
      rw [assignedRegister_cons_ne p rest g m q.1 hne]
    rw [List.filter_cons, List.filter_cons, hrest, assignedRegister_cons_self p rest g m hnd.1]
    have IH := ih (if drawsFrom RegisterPool.GP p then g - 1 else g)
      (if drawsFrom RegisterPool.MD p then m - 1 else m) hnd.2
    by_cases hgp : drawsFrom RegisterPool.GP p = true
    · have hmd := drawsFrom_exclusive p hgp
      cases pool with
      | GP =>
        simp only [hgp, hmd, if_true, Bool.true_and] at IH ⊢
        by_cases hg : g = 0
        · simp [hg, poolSize] at IH ⊢
          exact IH
        · simp [hg, poolSize] at IH ⊢
          rw [IH]; omega
      | MD =>
        simp only [hgp, hmd, if_true, Bool.false_and] at IH ⊢
        simp [poolSize] at IH ⊢
        exact IH
    · have hgp' : drawsFrom RegisterPool.GP p = false := by simpa using hgp
      by_cases hmd : drawsFrom RegisterPool.MD p = true
      · cases pool with
        | GP =>
          simp [hgp', hmd, poolSize] at IH ⊢
          exact IH
        | MD =>
          by_cases hg : m = 0
          · simp [hgp', hmd, hg, poolSize] at IH ⊢
            exact IH
          · simp [hgp', hmd, hg, poolSize] at IH ⊢
            rw [IH]; omega
      · have hmd' : drawsFrom RegisterPool.MD p = false := by simpa using hmd
        cases pool with
        | GP =>
          simp [hgp', hmd', poolSize] at IH ⊢
          exact IH
        | MD =>
          simp [hgp', hmd', poolSize] at IH ⊢
          exact IH

theorem assignedRegister_lt (l : List (CSymbol × SYMBOL_REGALLOCINFO)) (g m : Nat)
    (symbol : CSymbol) (x : SYM_TYPE × Nat) (h : assignedRegister l g m symbol = some x) :
    x.2 < g ∨ x.2 < m := by
  induction l generalizing g m with
  | nil => cases h
  | cons p rest ih =>
    rcases hsel : selectRegisters p.1.m_type with ⟨pool, rt⟩
    rcases pool with _ | pool
    · simp only [assignedRegister, hsel] at h
      exact ih g m h
    · cases pool with
      | GP =>
        simp only [assignedRegister, hsel] at h
        split at h
        · exact ih g m h
        · split at h
          · cases h; left; show g - 1 < g; omega
          · have := ih (g - 1) m h; omega
      | MD =>
        simp only [assignedRegister, hsel] at h
        split at h
        · exact ih g m h
        · split at h
          · cases h; right; show m - 1 < m; omega
          · have := ih g (m - 1) h; omega

theorem drawsFrom_congr (pool : RegisterPool) (p q : CSymbol × SYMBOL_REGALLOCINFO)
    (h : p.1 = q.1) : drawsFrom pool p = drawsFrom pool q := by
  unfold drawsFrom; rw [h]

theorem assignedRegister_pool_empty (pool : RegisterPool)
    (l : List (CSymbol × SYMBOL_REGALLOCINFO)) (g m : Nat)
    (b : CSymbol × SYMBOL_REGALLOCINFO) (hnd : (l.map Prod.fst).Nodup)
    (hempty : poolSize pool g m = 0) (hb : drawsFrom pool b = true) :
    assignedRegister l g m b.1 = none := by
  induction l generalizing g m with
  | nil => rfl
  | cons p rest ih =>
    simp only [List.map_cons, List.nodup_cons] at hnd
    by_cases hpb : p.1 = b.1
    · have hp : drawsFrom pool p = true := by rw [drawsFrom_congr pool p b hpb]; exact hb
      rw [← hpb, assignedRegister_cons_self p rest g m hnd.1]
      cases pool with
      | GP => simp [poolSize] at hempty; simp [hp, hempty]
      | MD =>
        have hgp : drawsFrom RegisterPool.GP p = false := by
          cases hq : drawsFrom RegisterPool.GP p with
          | false => rfl
          | true => rw [drawsFrom_exclusive p hq] at hp; cases hp
        simp [poolSize] at hempty; simp [hp, hgp, hempty]
    · rw [assignedRegister_cons_ne p rest g m b.1 hpb]
      apply ih _ _ hnd.2
      cases pool with
      | GP => simp [poolSize] at hempty ⊢; split <;> omega
      | MD => simp [poolSize] at hempty ⊢; split <;> omega

theorem assigned_order (pool : RegisterPool)
    (R : CSymbol × SYMBOL_REGALLOCINFO → CSymbol × SYMBOL_REGALLOCINFO → Prop)
    (l : List (CSymbol × SYMBOL_REGALLOCINFO)) (g m : Nat)
    (hnd : (l.map Prod.fst).Nodup) (hs : List.Pairwise R l)
    (a b : CSymbol × SYMBOL_REGALLOCINFO) (ha : a ∈ l) (hb : b ∈ l)
    (hda : drawsFrom pool a = true) (hdb : drawsFrom pool b = true)
    (hna : assignedRegister l g m a.1 = none)
    (hsb : (assignedRegister l g m b.1).isSome = true) : R b a := by
  induction l generalizing g m with
  | nil => cases ha
  | cons p rest ih =>
    have hnd' := hnd
    simp only [List.map_cons, List.nodup_cons] at hnd'
    rw [List.pairwise_cons] at hs
    by_cases hpa : p.1 = a.1
    · exfalso
      have hp : drawsFrom pool p = true := by rw [drawsFrom_congr pool p a hpa]; exact hda
      rw [← hpa, assignedRegister_cons_self p rest g m hnd'.1] at hna
      have hempty : poolSize pool g m = 0 := by
        cases pool with
        | GP =>
          simp only [hp, if_true] at hna
          by_cases hg : g = 0
          · exact hg
          · simp [hg] at hna
        | MD =>
          have hgp : drawsFrom RegisterPool.GP p = false := by
            cases hq : drawsFrom RegisterPool.GP p with
            | false => rfl
            | true => rw [drawsFrom_exclusive p hq] at hp; cases hp
          simp only [hp, hgp, if_true] at hna
          by_cases hg : m = 0
          · exact hg
          · simp [hg] at hna
      rw [assignedRegister_pool_empty pool (p :: rest) g m b hnd hempty hdb] at hsb
      cases hsb
    · have ha' : a ∈ rest := by
        rcases List.mem_cons.1 ha with e | e
        · exact absurd (by rw [e]) hpa
        · exact e
      by_cases hpb : p.1 = b.1
      · have hbp : b = p :=
          eq_of_mem_of_keys_nodup (p :: rest) hnd b p hb (List.mem_cons_self _ _) hpb.symm
        rw [hbp]
        exact hs.1 a ha'
      · have hb' : b ∈ rest := by
          rcases List.mem_cons.1 hb with e | e
          · exact absurd (by rw [e]) hpb
          · exact e
        rw [assignedRegister_cons_ne p rest g m a.1 hpa] at hna
        rw [assignedRegister_cons_ne p rest g m b.1 hpb] at hsb
        exact ih _ _ hnd'.2 hs.2 ha' hb' hna hsb

theorem applyAssigned_fst (a : Option (SYM_TYPE × Nat)) (p : CSymbol × SYMBOL_REGALLOCINFO) :
    (applyAssigned a p).1 = p.1 := by
  cases a <;> rfl

theorem applyAssigned_aliased (a : Option (SYM_TYPE × Nat))
    (p : CSymbol × SYMBOL_REGALLOCINFO) : (applyAssigned a p).2.aliased = p.2.aliased := by
  cases a <;> rfl

theorem applyAssigned_useCount (a : Option (SYM_TYPE × Nat))
    (p : CSymbol × SYMBOL_REGALLOCINFO) : (applyAssigned a p).2.useCount = p.2.useCount := by
  cases a <;> rfl

theorem isPoolCandidate_applyAssigned (pool : RegisterPool) (a : Option (SYM_TYPE × Nat))
    (p : CSymbol × SYMBOL_REGALLOCINFO) :
    isPoolCandidate pool (applyAssigned a p) = isPoolCandidate pool p := by
  unfold isPoolCandidate drawsFrom
  rw [applyAssigned_fst, applyAssigned_aliased]

theorem applyAssigned_registerId_ne (gpCount mdCount : Nat)
    (l : List (CSymbol × SYMBOL_REGALLOCINFO)) (p : CSymbol × SYMBOL_REGALLOCINFO)
    (hG : gpCount < 4294967296) (hM : mdCount < 4294967296)
    (hinit : p.2.registerId = UINT_MAX) :
    ((applyAssigned (assignedRegister l gpCount mdCount p.1) p).2.registerId ≠ UINT_MAX) ↔
      (assignedRegister l gpCount mdCount p.1).isSome = true := by
  cases hx : assignedRegister l gpCount mdCount p.1 with
  | none => simp [applyAssigned, hinit]
  | some x =>
    have := assignedRegister_lt l gpCount mdCount p.1 x hx
    simp only [applyAssigned, Option.isSome_some, iff_true, UINT_MAX]
    omega

/-- Claim C9: for each of the two pools, among the candidates that draw from it exactly
`min (pool size) (number of such candidates)` receive a register, and no such candidate left
without a register ranks strictly before one that received a register (higher `useCount`, or
equal `useCount` and higher kind value, or equal `useCount` and kind and higher
`valueLow`). -/
theorem AssociateSymbolsToRegisters_pool_exhaustion (d : SymbolDecls) (gpCount mdCount : Nat)
    (t : SymbolRegAllocInfo) (pool : RegisterPool) (hnd : (t.map Prod.fst).Nodup)
    (hinit : ∀ p ∈ t, p.2.registerId = UINT_MAX)
    (hG : gpCount < 4294967296) (hM : mdCount < 4294967296) :
    ((AssociateSymbolsToRegisters d gpCount mdCount t).filter
        (fun p => isPoolCandidate pool p && (p.2.registerId != UINT_MAX))).length =
      min (poolSize pool gpCount mdCount) (t.filter (isPoolCandidate pool)).length ∧
    (∀ a ∈ AssociateSymbolsToRegisters d gpCount mdCount t,
      ∀ b ∈ AssociateSymbolsToRegisters d gpCount mdCount t,
      isPoolCandidate pool a = true → isPoolCandidate pool b = true →
      a.2.registerId = UINT_MAX → b.2.registerId ≠ UINT_MAX →
      ¬ (a.2.useCount > b.2.useCount ∨
        (a.2.useCount = b.2.useCount ∧
          d.typeValue a.1.m_type > d.typeValue b.1.m_type) ∨
        (a.2.useCount = b.2.useCount ∧ a.1.m_type = b.1.m_type ∧
          a.1.m_valueLow > b.1.m_valueLow))) := by
  rw [associate_eq_map d gpCount mdCount t hnd]
  have hSnd : ((sortedCandidates d t).map Prod.fst).Nodup := candidates_keys_nodup d t hnd _
  have hperm : List.Perm (sortedCandidates d t) (t.filter (fun p =>
      isRegisterAllocatable p.1.m_type && !p.2.aliased)) := stdSort_perm d _
  constructor
  · rw [List.filter_map, List.length_map]
    have h1 : t.filter ((fun p => isPoolCandidate pool p && (p.2.registerId != UINT_MAX)) ∘
          (fun pair => applyAssigned
            (assignedRegister (sortedCandidates d t) gpCount mdCount pair.1) pair)) =
        (t.filter (fun p => isRegisterAllocatable p.1.m_type && !p.2.aliased)).filter
          (fun p => drawsFrom pool p &&
            (assignedRegister (sortedCandidates d t) gpCount mdCount p.1).isSome) := by
      rw [List.filter_filter]
      apply List.filter_congr
      intro p hp
      have hne := applyAssigned_registerId_ne gpCount mdCount (sortedCandidates d t) p hG hM
        (hinit p hp)
      simp only [Function.comp, isPoolCandidate_applyAssigned]
      by_cases hs : (assignedRegister (sortedCandidates d t) gpCount mdCount p.1).isSome = true
      · have := hne.2 hs
        simp [hs, this, isPoolCandidate, Bool.and_comm]
      · have hs' : (assignedRegister (sortedCandidates d t) gpCount mdCount p.1).isSome =
            false := by simpa using hs
        have : (applyAssigned (assignedRegister (sortedCandidates d t) gpCount mdCount p.1)
            p).2.registerId = UINT_MAX := by
          by_contra hc
          exact hs (hne.1 hc)
        simp [hs', this]
    have h2 : t.filter (isPoolCandidate pool) =
        (t.filter (fun p => isRegisterAllocatable p.1.m_type && !p.2.aliased)).filter
          (drawsFrom pool) := by
      rw [List.filter_filter]
      apply List.filter_congr
      intro p _
      simp [isPoolCandidate, Bool.and_comm]
    rw [h1, h2, ← (hperm.filter _).length_eq, ← (hperm.filter _).length_eq]
    exact assigned_count pool (sortedCandidates d t) gpCount mdCount hSnd
  · intro a' ha' b' hb' hca hcb hra hrb
    obtain ⟨a, ha, rfl⟩ := List.mem_map.1 ha'
    obtain ⟨b, hb, rfl⟩ := List.mem_map.1 hb'
    rw [isPoolCandidate_applyAssigned] at hca hcb
    simp only [applyAssigned_fst, applyAssigned_useCount]
    have hna : assignedRegister (sortedCandidates d t) gpCount mdCount a.1 = none := by
      cases hx : assignedRegister (sortedCandidates d t) gpCount mdCount a.1 with
      | none => rfl
      | some x =>
        exfalso
        have := (applyAssigned_registerId_ne gpCount mdCount (sortedCandidates d t) a hG hM
          (hinit a ha)).2 (by rw [hx]; rfl)
        exact this hra
    have hsb := (applyAssigned_registerId_ne gpCount mdCount (sortedCandidates d t) b hG hM
      (hinit b hb)).1 hrb
    simp only [isPoolCandidate, Bool.and_eq_true, Bool.not_eq_true'] at hca hcb
    have hma : a ∈ sortedCandidates d t :=
      (mem_sortedCandidates d t a).2 ⟨ha, hca.1.1, hca.1.2⟩
    have hmb : b ∈ sortedCandidates d t :=
      (mem_sortedCandidates d t b).2 ⟨hb, hcb.1.1, hcb.1.2⟩
    have hR := assigned_order pool (fun x y => sortComparator d y x = false)
      (sortedCandidates d t) gpCount mdCount hSnd (stdSort_sorted d _) a b hma hmb hca.2 hcb.2
      hna hsb
    have hR : sortComparator d a b = false := hR
    rw [sortComparator_false_iff] at hR
    intro hcon
    apply hR
    rcases hcon with h | h | h
    · exact Or.inl h
    · exact Or.inr ⟨h.1, Or.inl h.2⟩
    · exact Or.inr ⟨h.1, Or.inr ⟨by rw [h.2.1], h.2.2⟩⟩


theorem AssociateSymbolsToRegisters_pool_exhaustion_witness :
    ((AssociateSymbolsToRegisters exampleDecls 3 0 tenRelatives).filter
      (fun p => isPoolCandidate RegisterPool.GP p && (p.2.registerId != UINT_MAX))).length =
      3 :=
  (AssociateSymbolsToRegisters_pool_exhaustion exampleDecls 3 0 tenRelatives RegisterPool.GP
    (by decide) (by decide) (by decide) (by decide)).1.trans (by decide)
/-! ## Theorems: the enumeration order of the table -/

theorem regAllocFind_eq_some_iff (t : SymbolRegAllocInfo) (hnd : (t.map Prod.fst).Nodup)
    (s : CSymbol) (r : SYMBOL_REGALLOCINFO) :
    regAllocFind t s = some r ↔ (s, r) ∈ t := by
  induction t with
  | nil => simp [regAllocFind]
  | cons p rest ih =>
    obtain ⟨k, v⟩ := p
    simp only [List.map_cons, List.nodup_cons] at hnd
    have ih' := ih hnd.2
    unfold regAllocFind at ih' ⊢
    rw [List.lookup_cons]
    by_cases hk : s = k
    · subst hk
      simp only [beq_self_eq_true, List.mem_cons, Prod.mk.injEq, true_and, Option.some.injEq]
      constructor
      · intro h; exact Or.inl h.symm
      · rintro (h | h)
        · exact h.symm
        · exact absurd (List.mem_map_of_mem Prod.fst h) hnd.1
    · have hb : (s == k) = false := by simpa using hk
      simp only [hb, List.mem_cons, Prod.mk.injEq, hk, false_and, false_or]
      exact ih'

theorem regAllocFind_perm (t1 t2 : SymbolRegAllocInfo) (hp : List.Perm t1 t2)
    (hnd : (t1.map Prod.fst).Nodup) (s : CSymbol) :
    regAllocFind t1 s = regAllocFind t2 s := by
  have hnd2 : (t2.map Prod.fst).Nodup := (hp.map Prod.fst).nodup_iff.1 hnd
  apply Option.ext
  intro r
  show regAllocFind t1 s = some r ↔ regAllocFind t2 s = some r
  rw [regAllocFind_eq_some_iff t1 hnd, regAllocFind_eq_some_iff t2 hnd2]
  exact hp.mem_iff

theorem sorted_perm_unique {α : Type} (R : α → α → Prop) (l1 l2 : List α)
    (hanti : ∀ a ∈ l1, ∀ b ∈ l1, R a b → R b a → a = b)
    (hp : List.Perm l1 l2) (h1 : List.Pairwise R l1) (h2 : List.Pairwise R l2) : l1 = l2 := by
  induction l1 generalizing l2 with
  | nil => exact hp.nil_eq
  | cons a rest ih =>
    cases l2 with
    | nil => exact absurd hp.length_eq (by simp)
    | cons b rest2 =>
      rw [List.pairwise_cons] at h1 h2
      have hab : a = b := by
        by_cases e : a = b
        · exact e
        · have ha2 : a ∈ rest2 := by
            rcases List.mem_cons.1 (hp.subset (List.mem_cons_self a rest)) with h | h
            · exact absurd h e
            · exact h
          have hb1 : b ∈ rest := by
            rcases List.mem_cons.1 (hp.symm.subset (List.mem_cons_self b rest2)) with h | h
            · exact absurd h.symm e
            · exact h
          exact hanti a (List.mem_cons_self _ _) b (List.mem_cons_of_mem _ hb1)
            (h1.1 b hb1) (h2.1 a ha2)
      subst hab
      have hp' : List.Perm rest rest2 := (List.perm_cons a).1 hp
      rw [ih rest2 (fun x hx y hy => hanti x (List.mem_cons_of_mem _ hx) y
        (List.mem_cons_of_mem _ hy)) hp' h1.2 h2.2]

/-- Claim C10, amended: when no two distinct candidates of the table agree on `useCount`,
kind and `valueLow`, the assignment does not depend on the order in which the table
enumerates its symbols: for two enumeration orders of the same pairs every symbol ends with
the same record, hence the same `registerType` and `registerId`. -/
theorem AssociateSymbolsToRegisters_order_independent (d : SymbolDecls)
    (gpCount mdCount : Nat) (t1 t2 : SymbolRegAllocInfo) (hp : List.Perm t1 t2)
    (hnd : (t1.map Prod.fst).Nodup)
    (hties : ∀ a ∈ t1, ∀ b ∈ t1,
      isRegisterAllocatable a.1.m_type = true → a.2.aliased = false →
      isRegisterAllocatable b.1.m_type = true → b.2.aliased = false →
      a.2.useCount = b.2.useCount → a.1.m_type = b.1.m_type →
      a.1.m_valueLow = b.1.m_valueLow → a.1 = b.1)
    (symbol : CSymbol) :
    regAllocFind (AssociateSymbolsToRegisters d gpCount mdCount t1) symbol =
      regAllocFind (AssociateSymbolsToRegisters d gpCount mdCount t2) symbol := by
  have hnd2 : (t2.map Prod.fst).Nodup := (hp.map Prod.fst).nodup_iff.1 hnd
  have hS : sortedCandidates d t1 = sortedCandidates d t2 := by
    apply sorted_perm_unique (fun a b => sortComparator d b a = false)
    · intro a ha b hb hab hba
      have hab' : sortComparator d b a = false := hab
      have hba' : sortComparator d a b = false := hba
      rw [sortComparator_false_iff] at hab' hba'
      have ma := (mem_sortedCandidates d t1 a).1 ha
      have mb := (mem_sortedCandidates d t1 b).1 hb
      have hu : a.2.useCount = b.2.useCount := by omega
      have hv : d.typeValue a.1.m_type = d.typeValue b.1.m_type := by omega
      have hl : a.1.m_valueLow = b.1.m_valueLow := by omega
      exact eq_of_mem_of_keys_nodup t1 hnd a b ma.1 mb.1
        (hties a ma.1 b mb.1 ma.2.1 ma.2.2 mb.2.1 mb.2.2 hu (d.typeValue_injective hv) hl)
    · exact ((stdSort_perm d _).trans (hp.filter _)).trans (stdSort_perm d _).symm
    · exact stdSort_sorted d _
    · exact stdSort_sorted d _
  rw [associate_eq_map d gpCount mdCount t1 hnd, associate_eq_map d gpCount mdCount t2 hnd2,
    hS]
  apply regAllocFind_perm _ _ (hp.map _)
  rw [List.map_map]
  have : (Prod.fst ∘ fun pair : CSymbol × SYMBOL_REGALLOCINFO =>
      applyAssigned (assignedRegister (sortedCandidates d t2) gpCount mdCount pair.1) pair) =
      Prod.fst := by
    funext pair
    exact applyAssigned_fst _ _
  rw [this]
  exact hnd

theorem AssociateSymbolsToRegisters_order_independent_witness :
    regAllocFind (AssociateSymbolsToRegisters exampleDecls 3 0 tenRelatives)
        ⟨SYM_RELATIVE, 36, 0⟩ =
      regAllocFind (AssociateSymbolsToRegisters exampleDecls 3 0 tenRelatives.reverse)
        ⟨SYM_RELATIVE, 36, 0⟩ :=
  AssociateSymbolsToRegisters_order_independent exampleDecls 3 0 tenRelatives
    tenRelatives.reverse (List.reverse_perm tenRelatives).symm (by decide) (by decide) _

/-- Claim C10 fails as stated: two distinct relative symbols that differ only in `valueHigh`
and are used equally often are tied for the comparator, and with one general-purpose register
the symbol enumerated first gets it, so the same two tracked symbols handed over in the two
enumeration orders end with different `registerId`s. -/
theorem AssociateSymbolsToRegisters_order_dependent :
    (⟨SYM_RELATIVE, 8, 0⟩ : CSymbol) ≠ ⟨SYM_RELATIVE, 8, 1⟩ ∧
    List.Perm tiedTable tiedTable.reverse ∧
    (tiedTable.map Prod.fst).Nodup ∧
    (∀ a ∈ tiedTable, ∀ b ∈ tiedTable, sortComparator exampleDecls a b = false) ∧
    (regAllocFind (AssociateSymbolsToRegisters exampleDecls 1 0 tiedTable)
      ⟨SYM_RELATIVE, 8, 0⟩).map (fun r => r.registerId) = some 0 ∧
    (regAllocFind (AssociateSymbolsToRegisters exampleDecls 1 0 tiedTable.reverse)
      ⟨SYM_RELATIVE, 8, 0⟩).map (fun r => r.registerId) = some UINT_MAX := by
  refine ⟨by decide, (List.reverse_perm _).symm, by decide, by decide, by decide, by decide⟩

/-! ## Theorems: the table of a range -/

theorem foldl_invariant {α β : Type} (P : β → Prop) (f : β → α → β) (l : List α) (init : β)
    (h0 : P init) (hstep : ∀ b a, a ∈ l → P b → P (f b a)) : P (l.foldl f init) := by
  induction l generalizing init with
  | nil => exact h0
  | cons x rest ih =>
    rw [List.foldl_cons]
    exact ih _ (hstep _ _ (List.mem_cons_self _ _) h0)
      (fun b a ha hb => hstep b a (List.mem_cons_of_mem _ ha) hb)

theorem regAllocUpdate_keys (t : SymbolRegAllocInfo) (s : CSymbol)
    (f : SYMBOL_REGALLOCINFO → SYMBOL_REGALLOCINFO) :
    (regAllocUpdate t s f).map Prod.fst =
      if s ∈ t.map Prod.fst then t.map Prod.fst else t.map Prod.fst ++ [s] := by
  induction t with
  | nil => simp [regAllocUpdate]
  | cons p rest ih =>
    unfold regAllocUpdate
    by_cases h : p.1 = s
    · simp [h]
    · have h' : ¬ s = p.1 := fun e => h e.symm
      simp only [h, if_false, List.map_cons, ih, List.mem_cons, h', false_or]
      split <;> simp

theorem regAllocUpdate_nodup (t : SymbolRegAllocInfo) (s : CSymbol)
    (f : SYMBOL_REGALLOCINFO → SYMBOL_REGALLOCINFO) (h : (t.map Prod.fst).Nodup) :
    ((regAllocUpdate t s f).map Prod.fst).Nodup := by
  rw [regAllocUpdate_keys]
  split
  · exact h
  · rename_i hs
    rw [List.nodup_append]
    refine ⟨h, List.nodup_singleton s, ?_⟩
    intro a ha hb
    rw [List.mem_singleton] at hb
    exact hs (hb ▸ ha)

theorem ComputeLivenessForRange_nodup (basicBlock : BASIC_BLOCK)
    (allocRange : AllocationRange) (t : SymbolRegAllocInfo) (h : (t.map Prod.fst).Nodup) :
    ((ComputeLivenessForRange basicBlock allocRange t).map Prod.fst).Nodup := by
  unfold ComputeLivenessForRange
  apply foldl_invariant (fun t : SymbolRegAllocInfo => (t.map Prod.fst).Nodup) _ _ _ h
  intro b a _ hb
  dsimp only
  split
  · exact hb
  · split
    · exact hb
    · apply foldl_invariant (fun t : SymbolRegAllocInfo => (t.map Prod.fst).Nodup)
      · apply foldl_invariant (fun t : SymbolRegAllocInfo => (t.map Prod.fst).Nodup) _ _ _ hb
        intro b' a' _ hb'
        exact regAllocUpdate_nodup _ _ _ hb'
      · intro b' a' _ hb'
        exact regAllocUpdate_nodup _ _ _ hb'

theorem markAliasedStatement_keys_nodup (d : SymbolDecls) (statement : STATEMENT)
    (t : SymbolRegAllocInfo) (h : (t.map Prod.fst).Nodup) :
    ((markAliasedStatement d statement t).map Prod.fst).Nodup := by
  unfold markAliasedStatement
  rw [List.map_map]
  have hf : (Prod.fst ∘ fun symbolRegAlloc : CSymbol × SYMBOL_REGALLOCINFO =>
      if symbolRegAlloc.2.aliased = true then symbolRegAlloc
      else (symbolRegAlloc.1,
        statement.operands.foldl (aliasVisit d symbolRegAlloc.1) symbolRegAlloc.2)) =
      Prod.fst := by
    funext p
    simp only [Function.comp]
    split <;> rfl
  rw [hf]
  split
  · split
    · exact regAllocUpdate_nodup _ _ _ h
    · exact h
  · exact h

theorem MarkAliasedSymbols_nodup (d : SymbolDecls) (basicBlock : BASIC_BLOCK)
    (allocRange : AllocationRange) (t : SymbolRegAllocInfo) (h : (t.map Prod.fst).Nodup) :
    ((MarkAliasedSymbols d basicBlock allocRange t).map Prod.fst).Nodup := by
  unfold MarkAliasedSymbols
  apply foldl_invariant (fun t : SymbolRegAllocInfo => (t.map Prod.fst).Nodup) _ _ _ h
  intro b a _ hb
  dsimp only
  split
  · exact hb
  · split
    · exact hb
    · exact markAliasedStatement_keys_nodup d _ _ hb

theorem AssociateSymbolsToRegisters_keys (d : SymbolDecls) (gpCount mdCount : Nat)
    (t : SymbolRegAllocInfo) (h : (t.map Prod.fst).Nodup) :
    (AssociateSymbolsToRegisters d gpCount mdCount t).map Prod.fst = t.map Prod.fst := by
  rw [associate_eq_map d gpCount mdCount t h, List.map_map]
  apply List.map_congr_left
  intro p _
  exact applyAssigned_fst _ _

theorem rangeRegAllocs_nodup (d : SymbolDecls) (gpCount mdCount : Nat)
    (basicBlock : BASIC_BLOCK) (allocRange : AllocationRange) :
    ((rangeRegAllocs d gpCount mdCount basicBlock allocRange).map Prod.fst).Nodup := by
  unfold rangeRegAllocs
  have h1 := ComputeLivenessForRange_nodup basicBlock allocRange [] (by simp)
  have h2 := MarkAliasedSymbols_nodup d basicBlock allocRange _ h1
  rw [AssociateSymbolsToRegisters_keys d gpCount mdCount _ h2]
  exact h2

/-! ## Theorems: fresh records and the source of OP_PARAM_RET -/

theorem foldl_establish {α β : Type} (Q : β → Prop) (f : β → α → β) (l : List α) (init : β)
    (x : α) (hx : x ∈ l) (hest : ∀ b, Q (f b x)) (hpres : ∀ b a, Q b → Q (f b a)) :
    Q (l.foldl f init) := by
  induction l generalizing init with
  | nil => cases hx
  | cons y rest ih =>
    rw [List.foldl_cons]
    rcases List.mem_cons.1 hx with e | e
    · rw [← e]
      exact foldl_invariant Q f rest _ (hest init) (fun b a _ hb => hpres b a hb)
    · exact ih _ e

theorem regAllocUpdate_mem (t : SymbolRegAllocInfo) (s : CSymbol)
    (f : SYMBOL_REGALLOCINFO → SYMBOL_REGALLOCINFO) (p : CSymbol × SYMBOL_REGALLOCINFO)
    (hp : p ∈ regAllocUpdate t s f) :
    p ∈ t ∨ ∃ r, (r = SYMBOL_REGALLOCINFO.init ∨ (s, r) ∈ t) ∧ p = (s, f r) := by
  induction t with
  | nil =>
    simp only [regAllocUpdate, List.mem_singleton] at hp
    exact Or.inr ⟨_, Or.inl rfl, hp⟩
  | cons q rest ih =>
    unfold regAllocUpdate at hp
    split at hp
    · rename_i hq
      rcases List.mem_cons.1 hp with e | e
      · right
        refine ⟨q.2, Or.inr ?_, by rw [e, hq]⟩
        rw [← hq]
        exact List.mem_cons_self _ _
      · exact Or.inl (List.mem_cons_of_mem _ e)
    · rcases List.mem_cons.1 hp with e | e
      · left; rw [e]; exact List.mem_cons_self _ _
      · rcases ih e with h | ⟨r, hr, hpr⟩
        · exact Or.inl (List.mem_cons_of_mem _ h)
        · right
          refine ⟨r, ?_, hpr⟩
          rcases hr with h | h
          · exact Or.inl h
          · exact Or.inr (List.mem_cons_of_mem _ h)

theorem regAllocUpdate_keeps (t : SymbolRegAllocInfo) (s : CSymbol)
    (f : SYMBOL_REGALLOCINFO → SYMBOL_REGALLOCINFO) (k : CSymbol) (r : SYMBOL_REGALLOCINFO)
    (h : (k, r) ∈ t) :
    ∃ r', (k, r') ∈ regAllocUpdate t s f ∧ (r' = r ∨ r' = f r) := by
  induction t with
  | nil => cases h
  | cons q rest ih =>
    unfold regAllocUpdate
    split
    · rename_i hq
      rcases List.mem_cons.1 h with e | e
      · refine ⟨f q.2, ?_, Or.inr (by rw [← e])⟩
        have : q.1 = k := by rw [← e]
        rw [this]
        exact List.mem_cons_self _ _
      · exact ⟨r, List.mem_cons_of_mem _ e, Or.inl rfl⟩
    · rcases List.mem_cons.1 h with e | e
      · exact ⟨r, by rw [e]; exact List.mem_cons_self _ _, Or.inl rfl⟩
      · obtain ⟨r', hr', hor⟩ := ih e
        exact ⟨r', List.mem_cons_of_mem _ hr', hor⟩

theorem regAllocUpdate_has (t : SymbolRegAllocInfo) (s : CSymbol)
    (f : SYMBOL_REGALLOCINFO → SYMBOL_REGALLOCINFO) :
    ∃ r, (s, f r) ∈ regAllocUpdate t s f := by
  induction t with
  | nil => exact ⟨SYMBOL_REGALLOCINFO.init, by simp [regAllocUpdate]⟩
  | cons q rest ih =>
    unfold regAllocUpdate
    split
    · rename_i hq
      exact ⟨q.2, by rw [hq]; exact List.mem_cons_self _ _⟩
    · obtain ⟨r, hr⟩ := ih
      exact ⟨r, List.mem_cons_of_mem _ hr⟩

theorem regAllocUpdate_fresh (t : SymbolRegAllocInfo) (s : CSymbol)
    (f : SYMBOL_REGALLOCINFO → SYMBOL_REGALLOCINFO)
    (hf : ∀ r, (f r).registerId = r.registerId)
    (ht : ∀ p ∈ t, p.2.registerId = UINT_MAX) :
    ∀ p ∈ regAllocUpdate t s f, p.2.registerId = UINT_MAX := by
  intro p hp
  rcases regAllocUpdate_mem t s f p hp with h | ⟨r, hr, hpr⟩
  · exact ht p h
  · rw [hpr]
    show (f r).registerId = UINT_MAX
    rw [hf]
    rcases hr with h | h
    · rw [h]; rfl
    · exact ht _ h

theorem ComputeLivenessForRange_fresh (basicBlock : BASIC_BLOCK)
    (allocRange : AllocationRange) :
    ∀ p ∈ ComputeLivenessForRange basicBlock allocRange [], p.2.registerId = UINT_MAX := by
  unfold ComputeLivenessForRange
  apply foldl_invariant
    (fun t : SymbolRegAllocInfo => ∀ p ∈ t, p.2.registerId = UINT_MAX)
  · intro p hp; cases hp
  · intro b a _ hb
    dsimp only
    split
    · exact hb
    · split
      · exact hb
      · apply foldl_invariant
          (fun t : SymbolRegAllocInfo => ∀ p ∈ t, p.2.registerId = UINT_MAX)
        · apply foldl_invariant
            (fun t : SymbolRegAllocInfo => ∀ p ∈ t, p.2.registerId = UINT_MAX) _ _ _ hb
          intro b' a' _ hb'
          apply regAllocUpdate_fresh _ _ _ _ hb'
          intro r
          dsimp only
          split <;> split <;> rfl
        · intro b' a' _ hb'
          apply regAllocUpdate_fresh _ _ _ _ hb'
          intro r
          dsimp only
          split <;> split <;> rfl

theorem aliasVisit_fold_registerId (d : SymbolDecls) (testedSymbol : CSymbol)
    (operands : List CSymbolRef) (r : SYMBOL_REGALLOCINFO) :
    (operands.foldl (aliasVisit d testedSymbol) r).registerId = r.registerId := by
  apply foldl_invariant (fun x : SYMBOL_REGALLOCINFO => x.registerId = r.registerId) _ _ _ rfl
  intro b a _ hb
  unfold aliasVisit
  split
  · exact hb
  · split
    · exact hb
    · exact hb

theorem markAliasedStatement_fresh (d : SymbolDecls) (statement : STATEMENT)
    (t : SymbolRegAllocInfo) (ht : ∀ p ∈ t, p.2.registerId = UINT_MAX) :
    ∀ p ∈ markAliasedStatement d statement t, p.2.registerId = UINT_MAX := by
  intro p hp
  unfold markAliasedStatement at hp
  obtain ⟨q, hq, hqp⟩ := List.mem_map.1 hp
  have hq' : q.2.registerId = UINT_MAX := by
    split at hq
    · split at hq
      · refine regAllocUpdate_fresh _ _ _ ?_ ht q hq
        intro r
        rfl
      · exact ht q hq
    · exact ht q hq
  rw [← hqp]
  split
  · exact hq'
  · show (statement.operands.foldl (aliasVisit d q.1) q.2).registerId = UINT_MAX
    rw [aliasVisit_fold_registerId]
    exact hq'

theorem MarkAliasedSymbols_fresh (d : SymbolDecls) (basicBlock : BASIC_BLOCK)
    (allocRange : AllocationRange) (t : SymbolRegAllocInfo)
    (ht : ∀ p ∈ t, p.2.registerId = UINT_MAX) :
    ∀ p ∈ MarkAliasedSymbols d basicBlock allocRange t, p.2.registerId = UINT_MAX := by
  unfold MarkAliasedSymbols
  apply foldl_invariant
    (fun t : SymbolRegAllocInfo => ∀ p ∈ t, p.2.registerId = UINT_MAX) _ _ _ ht
  intro b a _ hb
  dsimp only
  split
  · exact hb
  · split
    · exact hb
    · exact markAliasedStatement_fresh d _ _ hb

theorem markAliasedStatement_keeps_aliased (d : SymbolDecls) (statement : STATEMENT)
    (t : SymbolRegAllocInfo) (k : CSymbol)
    (h : ∃ r, (k, r) ∈ t ∧ r.aliased = true) :
    ∃ r, (k, r) ∈ markAliasedStatement d statement t ∧ r.aliased = true := by
  obtain ⟨r, hr, hal⟩ := h
  unfold markAliasedStatement
  have hstep : ∀ t' : SymbolRegAllocInfo, (∃ r', (k, r') ∈ t' ∧ r'.aliased = true) →
      ∃ r', (k, r') ∈ t'.map (fun symbolRegAlloc =>
        if symbolRegAlloc.2.aliased then symbolRegAlloc
        else (symbolRegAlloc.1,
          statement.operands.foldl (aliasVisit d symbolRegAlloc.1) symbolRegAlloc.2)) ∧
        r'.aliased = true := by
    rintro t' ⟨r', hr', hal'⟩
    refine ⟨r', List.mem_map.2 ⟨(k, r'), hr', ?_⟩, hal'⟩
    simp [hal']
  apply hstep
  split
  · split
    · obtain ⟨r', hr', hor⟩ := regAllocUpdate_keeps t _
        (fun r => { r with aliased := true }) k r hr
      refine ⟨r', hr', ?_⟩
      rcases hor with e | e
      · rw [e]; exact hal
      · rw [e]
    · exact ⟨r, hr, hal⟩
  · exact ⟨r, hr, hal⟩

theorem markAliasedStatement_param_ret (d : SymbolDecls) (statement : STATEMENT)
    (t : SymbolRegAllocInfo) (src1 : CSymbolRef) (hop : statement.op = OP_PARAM_RET)
    (hsrc : statement.src1 = some src1) :
    ∃ r, (src1.GetSymbol, r) ∈ markAliasedStatement d statement t ∧ r.aliased = true := by
  unfold markAliasedStatement
  simp only [hop, if_true, hsrc]
  obtain ⟨r, hr⟩ := regAllocUpdate_has t src1.GetSymbol (fun r => { r with aliased := true })
  refine ⟨{ r with aliased := true }, List.mem_map.2 ⟨_, hr, ?_⟩, rfl⟩
  simp

theorem MarkAliasedSymbols_param_ret (d : SymbolDecls) (basicBlock : BASIC_BLOCK)
    (allocRange : AllocationRange) (t : SymbolRegAllocInfo) (i : Nat) (statement : STATEMENT)
    (src1 : CSymbolRef) (hi : basicBlock.statements[i]? = some statement)
    (h1 : allocRange.1 ≤ i) (h2 : i ≤ allocRange.2) (hop : statement.op = OP_PARAM_RET)
    (hsrc : statement.src1 = some src1) :
    ∃ r, (src1.GetSymbol, r) ∈ MarkAliasedSymbols d basicBlock allocRange t ∧
      r.aliased = true := by
  unfold MarkAliasedSymbols
  apply foldl_establish
    (fun t : SymbolRegAllocInfo => ∃ r, (src1.GetSymbol, r) ∈ t ∧ r.aliased = true) _ _ _
    (i, statement) (List.mk_mem_enum_iff_getElem?.2 hi)
  · intro b
    dsimp only
    rw [if_neg (by omega), if_neg (by omega)]
    exact markAliasedStatement_param_ret d statement b src1 hop hsrc
  · intro b a hb
    dsimp only
    split
    · exact hb
    · split
      · exact hb
      · exact markAliasedStatement_keeps_aliased d _ _ _ hb

/-! ## Theorems: only candidates get a register -/

/-- Claim C2: in a table with pairwise distinct symbols whose records have no register yet,
after `AssociateSymbolsToRegisters` a symbol has `registerId != -1` only if its kind is one of
the eight allocatable kinds and it is not aliased; every symbol keeps its `aliased` flag, and
an aliased symbol or one of another kind keeps `registerId = -1`. In particular the `src1` of
an `OP_PARAM_RET` of a range is tracked, aliased and without a register in the table of that
range. -/
theorem AssociateSymbolsToRegisters_only_candidates (d : SymbolDecls) (gpCount mdCount : Nat)
    (t : SymbolRegAllocInfo) (hnd : (t.map Prod.fst).Nodup)
    (hinit : ∀ p ∈ t, p.2.registerId = UINT_MAX) :
    (∀ p ∈ AssociateSymbolsToRegisters d gpCount mdCount t, p.2.registerId ≠ UINT_MAX →
      p.1.m_type ∈ [SYM_RELATIVE, SYM_TEMPORARY, SYM_REL_REFERENCE, SYM_TMP_REFERENCE,
        SYM_FP_RELATIVE32, SYM_FP_TEMPORARY32, SYM_RELATIVE128, SYM_TEMPORARY128] ∧
      p.2.aliased = false) ∧
    (∀ p ∈ t, ∃ q ∈ AssociateSymbolsToRegisters d gpCount mdCount t,
      q.1 = p.1 ∧ q.2.aliased = p.2.aliased ∧
      (p.2.aliased = true ∨
        p.1.m_type ∉ [SYM_RELATIVE, SYM_TEMPORARY, SYM_REL_REFERENCE, SYM_TMP_REFERENCE,
          SYM_FP_RELATIVE32, SYM_FP_TEMPORARY32, SYM_RELATIVE128, SYM_TEMPORARY128] →
        q.2.registerId = UINT_MAX)) ∧
    (∀ (basicBlock : BASIC_BLOCK) (allocRange : AllocationRange) (i : Nat)
      (statement : STATEMENT) (src1 : CSymbolRef),
      basicBlock.statements[i]? = some statement → allocRange.1 ≤ i → i ≤ allocRange.2 →
      statement.op = OP_PARAM_RET → statement.src1 = some src1 →
      ∃ r, (src1.GetSymbol, r) ∈ rangeRegAllocs d gpCount mdCount basicBlock allocRange ∧
        r.aliased = true ∧ r.registerId = UINT_MAX) := by
  refine ⟨?_, ?_, ?_⟩
  · rw [associate_eq_map d gpCount mdCount t hnd]
    intro q hq hreg
    obtain ⟨p, hp, rfl⟩ := List.mem_map.1 hq
    cases hx : assignedRegister (sortedCandidates d t) gpCount mdCount p.1 with
    | none =>
      rw [hx] at hreg
      exact absurd (hinit p hp) hreg
    | some x =>
      have := assigned_is_candidate d gpCount mdCount t hnd p hp x hx
      rw [isRegisterAllocatable_iff] at this
      simpa [applyAssigned] using this
  · rw [associate_eq_map d gpCount mdCount t hnd]
    intro p hp
    refine ⟨_, List.mem_map.2 ⟨p, hp, rfl⟩, ?_⟩
    cases hx : assignedRegister (sortedCandidates d t) gpCount mdCount p.1 with
    | none => simp [applyAssigned, hinit p hp]
    | some x =>
      have := assigned_is_candidate d gpCount mdCount t hnd p hp x hx
      rw [isRegisterAllocatable_iff] at this
      refine ⟨rfl, rfl, ?_⟩
      intro h
      rcases h with h | h
      · rw [this.2] at h; cases h
      · exact absurd this.1 h
  · intro basicBlock allocRange i statement src1 hi h1 h2 hop hsrc
    have hnd1 := ComputeLivenessForRange_nodup basicBlock allocRange [] (by simp)
    have hnd2 := MarkAliasedSymbols_nodup d basicBlock allocRange _ hnd1
    have hfresh := MarkAliasedSymbols_fresh d basicBlock allocRange _
      (ComputeLivenessForRange_fresh basicBlock allocRange)
    obtain ⟨r, hr, hal⟩ := MarkAliasedSymbols_param_ret d basicBlock allocRange
      (ComputeLivenessForRange basicBlock allocRange []) i statement src1 hi h1 h2 hop hsrc
    unfold rangeRegAllocs
    rw [associate_eq_map d gpCount mdCount _ hnd2]
    refine ⟨r, List.mem_map.2 ⟨(src1.GetSymbol, r), hr, ?_⟩, hal, hfresh _ hr⟩
    cases hx : assignedRegister (sortedCandidates d (MarkAliasedSymbols d basicBlock
        allocRange (ComputeLivenessForRange basicBlock allocRange []))) gpCount mdCount
        src1.GetSymbol with
    | none => rfl
    | some x =>
      have := assigned_is_candidate d gpCount mdCount _ hnd2 (src1.GetSymbol, r) hr x hx
      rw [hal] at this
      cases this.2

theorem AssociateSymbolsToRegisters_only_candidates_witness :
    (twoSymbolTable.map Prod.fst).Nodup ∧
    (∀ p ∈ twoSymbolTable, p.2.registerId = UINT_MAX) ∧
    (∀ p ∈ AssociateSymbolsToRegisters exampleDecls 1 0 twoSymbolTable,
      p.2.registerId ≠ UINT_MAX →
      p.1.m_type ∈ [SYM_RELATIVE, SYM_TEMPORARY, SYM_REL_REFERENCE, SYM_TMP_REFERENCE,
        SYM_FP_RELATIVE32, SYM_FP_TEMPORARY32, SYM_RELATIVE128, SYM_TEMPORARY128] ∧
      p.2.aliased = false) :=
  ⟨by decide, by decide,
    (AssociateSymbolsToRegisters_only_candidates exampleDecls 1 0 twoSymbolTable
      (by decide) (by decide)).1⟩

/-! ## Theorems: the rewrite, the loads and the spills of one range -/

theorem prepare_step (d : SymbolDecls) (isLastRange : Bool) (allocRange : AllocationRange)
    (p : CSymbol × SYMBOL_REGALLOCINFO) (loads spills : StatementMultimap) :
    prepareLoadAndSpill d isLastRange allocRange (loads, spills) p =
      (loads ++ stagedLoads allocRange [p],
        spills ++ stagedSpills d isLastRange allocRange [p]) := by
  unfold prepareLoadAndSpill stagedLoads stagedSpills
  by_cases hreg : p.2.registerId = UINT_MAX
  · simp [hreg]
  · have hs' : ((!(d.IsTemporary p.1 && isLastRange)) = true ∧ p.2.firstDef ≠ UINT_MAX) ↔
        (¬ (d.IsTemporary p.1 = true ∧ isLastRange = true) ∧ p.2.firstDef ≠ UINT_MAX) := by
      cases d.IsTemporary p.1 <;> cases isLastRange <;> simp
    simp only [hreg, if_false, hs', ne_eq, not_false_eq_true, true_and, List.flatMap_cons,
      List.flatMap_nil, List.append_nil]
    congr 1
    · split <;> simp
    · split <;> simp

theorem prepare_foldl (d : SymbolDecls) (isLastRange : Bool) (allocRange : AllocationRange)
    (t : SymbolRegAllocInfo) (loads spills : StatementMultimap) :
    t.foldl (prepareLoadAndSpill d isLastRange allocRange) (loads, spills) =
      (loads ++ stagedLoads allocRange t, spills ++ stagedSpills d isLastRange allocRange t) := by
  induction t generalizing loads spills with
  | nil => simp [stagedLoads, stagedSpills]
  | cons p rest ih =>
    rw [List.foldl_cons, prepare_step, ih]
    simp [stagedLoads, stagedSpills]

theorem flatMap_select {X : Type} (t : SymbolRegAllocInfo) (hnd : (t.map Prod.fst).Nodup)
    (s : CSymbol) (r : SYMBOL_REGALLOCINFO) (hm : (s, r) ∈ t)
    (h : CSymbol × SYMBOL_REGALLOCINFO → List X) (hne : ∀ p, p.1 ≠ s → h p = []) :
    t.flatMap h = h (s, r) := by
  induction t with
  | nil => cases hm
  | cons p rest ih =>
    simp only [List.map_cons, List.nodup_cons] at hnd
    rw [List.flatMap_cons]
    rcases List.mem_cons.1 hm with e | e
    · have hrest : rest.flatMap h = [] := by
        rw [List.flatMap_eq_nil_iff]
        intro q hq
        apply hne
        intro hq1
        apply hnd.1
        have hps : p.1 = s := by rw [← e]
        rw [hps, ← hq1]
        exact List.mem_map_of_mem Prod.fst hq
      rw [hrest, ← e, List.append_nil]
    · have hp : p.1 ≠ s := by
        intro hp
        apply hnd.1
        rw [hp]
        exact List.mem_map_of_mem Prod.fst e
      rw [hne p hp, ih hnd.2 e, List.nil_append]

theorem MakeSymbolRef_injective (a b : CSymbol) (h : MakeSymbolRef a = MakeSymbolRef b) :
    a = b := by
  unfold MakeSymbolRef at h
  injection h

theorem allocateRange_loadStatements (d : SymbolDecls) (gpCount mdCount : Nat)
    (st : AllocState) (allocRange : AllocationRange) :
    (allocateRange d gpCount mdCount st allocRange).loadStatements =
      st.loadStatements ++
        stagedLoads allocRange (rangeRegAllocs d gpCount mdCount st.basicBlock allocRange) := by
  unfold allocateRange
  simp only [prepare_foldl]

theorem allocateRange_spillStatements (d : SymbolDecls) (gpCount mdCount : Nat)
    (st : AllocState) (allocRange : AllocationRange) :
    (allocateRange d gpCount mdCount st allocRange).spillStatements =
      st.spillStatements ++
        stagedSpills d ((allocRange.2 + 1) % 4294967296 == st.basicBlock.statements.length)
          allocRange (rangeRegAllocs d gpCount mdCount st.basicBlock allocRange) := by
  unfold allocateRange
  simp only [prepare_foldl]

/-- Claim C3: for every range and every symbol tracked in it, the range's pass of
`AllocateRegisters` stages exactly one load for the symbol when the symbol has a register,
occurs as a source and `firstUse <= firstDef`, and none otherwise; the load is the `OP_MOV`
from the symbol to the interned register symbol, keyed by the range's first index, and every
load staged is the load of a tracked symbol. In
`[MOV t1, rel_a; ADD t1, t1, rel_b; MOV rel_c, t1]` the symbols `rel_a` and `rel_b`, which
are only read, get a load. -/
theorem allocateRange_stages_loads (d : SymbolDecls) (gpCount mdCount : Nat)
    (st : AllocState) (allocRange : AllocationRange) :
    (∃ newLoads : StatementMultimap,
      (allocateRange d gpCount mdCount st allocRange).loadStatements =
        st.loadStatements ++ newLoads ∧
      (∀ l ∈ newLoads, ∃ p ∈ rangeRegAllocs d gpCount mdCount st.basicBlock allocRange,
        l.2.src1 = some (MakeSymbolRef p.1)) ∧
      (∀ symbol symbolRegAlloc,
        (symbol, symbolRegAlloc) ∈ rangeRegAllocs d gpCount mdCount st.basicBlock allocRange →
        newLoads.filter (fun l => decide (l.2.src1 = some (MakeSymbolRef symbol))) =
          if symbolRegAlloc.registerId ≠ UINT_MAX ∧ symbolRegAlloc.firstUse ≠ UINT_MAX ∧
              symbolRegAlloc.firstUse ≤ symbolRegAlloc.firstDef then
            [(allocRange.1,
              { op := OP_MOV
                dst := some (MakeSymbolRef
                  (MakeSymbol symbolRegAlloc.registerType symbolRegAlloc.registerId 0))
                src1 := some (MakeSymbolRef symbol)
                src2 := none })]
          else [])) ∧
    (allocateRanges exampleDecls 4 0 straightLineBlock).loadStatements =
      [(0, ⟨OP_MOV, some (MakeSymbolRef ⟨SYM_REGISTER, 0, 0⟩), some (relRef 0), none⟩),
       (0, ⟨OP_MOV, some (MakeSymbolRef ⟨SYM_REGISTER, 1, 0⟩), some (relRef 4), none⟩)] := by
  refine ⟨⟨stagedLoads allocRange (rangeRegAllocs d gpCount mdCount st.basicBlock allocRange),
    allocateRange_loadStatements d gpCount mdCount st allocRange, ?_, ?_⟩, by decide⟩
  · intro l hl
    unfold stagedLoads at hl
    obtain ⟨p, hp, hlp⟩ := List.mem_flatMap.1 hl
    refine ⟨p, hp, ?_⟩
    split at hlp
    · rw [List.mem_singleton] at hlp
      rw [hlp]; rfl
    · cases hlp
  · intro symbol symbolRegAlloc hm
    unfold stagedLoads
    rw [List.filter_flatMap]
    rw [flatMap_select _ (rangeRegAllocs_nodup d gpCount mdCount st.basicBlock allocRange)
      symbol symbolRegAlloc hm]
    · dsimp only
      split
      · simp [loadStatement]
      · rfl
    · intro p hp
      dsimp only
      split
      · have : MakeSymbolRef p.1 ≠ MakeSymbolRef symbol :=
          fun e => hp (MakeSymbolRef_injective _ _ e)
        simp [loadStatement, this]
      · rfl

theorem rangeRegAllocs_of_nil (d : SymbolDecls) (gpCount mdCount : Nat)
    (basicBlock : BASIC_BLOCK) (allocRange : AllocationRange)
    (h : basicBlock.statements = []) :
    rangeRegAllocs d gpCount mdCount basicBlock allocRange = [] := by
  simp [rangeRegAllocs, ComputeLivenessForRange, MarkAliasedSymbols,
    AssociateSymbolsToRegisters, stdSort, h]

/-- Claim C4: for every range (its last index an `unsigned int`, the block shorter than
`2^32`) and every symbol tracked in it, the range's pass of `AllocateRegisters` stages exactly
one spill for the symbol when the symbol has a register, is written in the range, and it is
not the case that the symbol is a temporary and the range's last index is the block's last
statement index; it stages none otherwise. The spill is the `OP_MOV` from the interned
register symbol to the symbol, keyed by the range's last index, and every spill staged is the
spill of a tracked symbol. -/
theorem allocateRange_stages_spills (d : SymbolDecls) (gpCount mdCount : Nat)
    (st : AllocState) (allocRange : AllocationRange)
    (h2 : allocRange.2 < 4294967296)
    (hn : st.basicBlock.statements.length < 4294967296) :
    ∃ newSpills : StatementMultimap,
      (allocateRange d gpCount mdCount st allocRange).spillStatements =
        st.spillStatements ++ newSpills ∧
      (∀ l ∈ newSpills, ∃ p ∈ rangeRegAllocs d gpCount mdCount st.basicBlock allocRange,
        l.2.dst = some (MakeSymbolRef p.1)) ∧
      (∀ symbol symbolRegAlloc,
        (symbol, symbolRegAlloc) ∈ rangeRegAllocs d gpCount mdCount st.basicBlock allocRange →
        newSpills.filter (fun l => decide (l.2.dst = some (MakeSymbolRef symbol))) =
          if symbolRegAlloc.registerId ≠ UINT_MAX ∧ symbolRegAlloc.firstDef ≠ UINT_MAX ∧
              ¬ (d.IsTemporary symbol = true ∧
                allocRange.2 + 1 = st.basicBlock.statements.length) then
            [(allocRange.2,
              { op := OP_MOV
                dst := some (MakeSymbolRef symbol)
                src1 := some (MakeSymbolRef
                  (MakeSymbol symbolRegAlloc.registerType symbolRegAlloc.registerId 0))
                src2 := none })]
          else []) := by
  refine ⟨_, allocateRange_spillStatements d gpCount mdCount st allocRange, ?_, ?_⟩
  · intro l hl
    unfold stagedSpills at hl
    obtain ⟨p, hp, hlp⟩ := List.mem_flatMap.1 hl
    refine ⟨p, hp, ?_⟩
    split at hlp
    · rw [List.mem_singleton] at hlp
      rw [hlp]; rfl
    · cases hlp
  · intro symbol symbolRegAlloc hm
    have hpos : st.basicBlock.statements.length ≠ 0 := by
      intro h0
      rw [rangeRegAllocs_of_nil d gpCount mdCount st.basicBlock allocRange
        (List.length_eq_zero.1 h0)] at hm
      cases hm
    have hlast : (((allocRange.2 + 1) % 4294967296 == st.basicBlock.statements.length) =
        true) ↔ allocRange.2 + 1 = st.basicBlock.statements.length := by
      rw [beq_iff_eq]
      omega
    unfold stagedSpills
    rw [List.filter_flatMap]
    rw [flatMap_select _ (rangeRegAllocs_nodup d gpCount mdCount st.basicBlock allocRange)
      symbol symbolRegAlloc hm]
    · dsimp only
      simp only [hlast]
      by_cases hc : symbolRegAlloc.registerId ≠ UINT_MAX ∧
          ¬ (d.IsTemporary symbol = true ∧
            allocRange.2 + 1 = st.basicBlock.statements.length) ∧
          symbolRegAlloc.firstDef ≠ UINT_MAX
      · rw [if_pos hc, if_pos ⟨hc.1, hc.2.2, hc.2.1⟩]
        simp [spillStatement]
      · rw [if_neg hc, if_neg (fun h => hc ⟨h.1, h.2.2, h.2.1⟩)]
        rfl
    · intro p hp
      dsimp only
      split
      · have : MakeSymbolRef p.1 ≠ MakeSymbolRef symbol :=
          fun e => hp (MakeSymbolRef_injective _ _ e)
        simp [spillStatement, this]
      · rfl

theorem allocateRange_stages_spills_witness :
    (allocateRanges exampleDecls 4 0 straightLineBlock).spillStatements =
      [(2, ⟨OP_MOV, some (relRef 8), some (MakeSymbolRef ⟨SYM_REGISTER, 2, 0⟩), none⟩)] ∧
    ∃ newSpills : StatementMultimap,
      (allocateRange exampleDecls 4 0 ⟨straightLineBlock, [], []⟩ (0, 2)).spillStatements =
        [] ++ newSpills :=
  ⟨by decide,
    (allocateRange_stages_spills exampleDecls 4 0 ⟨straightLineBlock, [], []⟩ (0, 2)
      (by decide) (by decide)).imp (fun _ h => h.1)⟩

theorem rewriteRange_getElem? (allocRange : AllocationRange) (t : SymbolRegAllocInfo)
    (statements : List STATEMENT) (i : Nat) :
    (rewriteRange allocRange t statements)[i]? =
      (statements[i]?).map (fun s =>
        if i < allocRange.1 then s
        else if i > allocRange.2 then s
        else rewriteStatement t s) := by
  unfold rewriteRange
  rw [List.getElem?_map, List.getElem?_enum]
  cases statements[i]? <;> rfl

theorem operandRewritten_map (t : SymbolRegAllocInfo) (old : Option CSymbolRef) :
    operandRewritten t old (old.map (rewriteOperand t)) := by
  unfold operandRewritten
  refine ⟨?_, ?_, ?_, ?_⟩
  · intro symbolRef symbolRegAlloc ho hf hr
    subst ho
    simp [rewriteOperand, hf, hr]
  · intro symbolRef symbolRegAlloc ho hf hr
    subst ho
    simp [rewriteOperand, hf, hr]
  · intro symbolRef ho hf
    subst ho
    simp [rewriteOperand, hf]
  · intro ho
    subst ho
    rfl

/-- Claim C8: the rewrite step of one range keeps the number of statements and every opcode;
in a statement with index in `[first, last]` each of the slots `dst`, `src1`, `src2` whose
symbol is tracked with `registerId != -1` refers to the interned register symbol
`(registerType, registerId)` of that symbol, and every other slot is unchanged; a statement
outside the range is unchanged. -/
theorem allocateRange_rewrites_operands (d : SymbolDecls) (gpCount mdCount : Nat)
    (st : AllocState) (allocRange : AllocationRange) :
    (allocateRange d gpCount mdCount st allocRange).basicBlock.statements.length =
      st.basicBlock.statements.length ∧
    ∀ i statement, st.basicBlock.statements[i]? = some statement →
      ∃ rewritten,
        (allocateRange d gpCount mdCount st allocRange).basicBlock.statements[i]? =
          some rewritten ∧
        rewritten.op = statement.op ∧
        ((allocRange.1 ≤ i ∧ i ≤ allocRange.2) →
          operandRewritten (rangeRegAllocs d gpCount mdCount st.basicBlock allocRange)
            statement.dst rewritten.dst ∧
          operandRewritten (rangeRegAllocs d gpCount mdCount st.basicBlock allocRange)
            statement.src1 rewritten.src1 ∧
          operandRewritten (rangeRegAllocs d gpCount mdCount st.basicBlock allocRange)
            statement.src2 rewritten.src2) ∧
        (¬ (allocRange.1 ≤ i ∧ i ≤ allocRange.2) → rewritten = statement) := by
  constructor
  · simp [allocateRange, rewriteRange]
  · intro i statement hs
    have hget : (allocateRange d gpCount mdCount st allocRange).basicBlock.statements[i]? =
        some (if i < allocRange.1 then statement
          else if i > allocRange.2 then statement
          else rewriteStatement
            (rangeRegAllocs d gpCount mdCount st.basicBlock allocRange) statement) := by
      show (rewriteRange allocRange _ st.basicBlock.statements)[i]? = _
      rw [rewriteRange_getElem?, hs]
      rfl
    refine ⟨_, hget, ?_, ?_, ?_⟩
    · split
      · rfl
      · split <;> rfl
    · intro hin
      rw [if_neg (by omega), if_neg (by omega)]
      exact ⟨operandRewritten_map _ _, operandRewritten_map _ _, operandRewritten_map _ _⟩
    · intro hout
      by_cases h1 : i < allocRange.1
      · rw [if_pos h1]
      · rw [if_neg h1, if_pos (by omega)]

/-! ## Theorems: the insertion of the loads and the spills -/

theorem insertStaged_eq_foldl (points : List (Nat × Nat)) (staged : StatementMultimap)
    (l : StatementList) :
    insertStaged points staged l =
      (insertions points staged).foldl (fun l x => listInsert x.1 x.2 l) l := by
  induction points generalizing l with
  | nil => rfl
  | cons pt pts ih =>
    unfold insertStaged insertions at *
    rw [List.foldl_cons, List.flatMap_cons, List.foldl_append, ih, List.foldl_map]

theorem listInsert_nil (p : Nat) (s : STATEMENT) : listInsert p s [] = [(none, s)] := rfl

theorem listInsert_cons (p : Nat) (s : STATEMENT) (x : Option Nat × STATEMENT)
    (rest : StatementList) :
    listInsert p s (x :: rest) =
      if x.1 = some p then (none, s) :: x :: rest else x :: listInsert p s rest := rfl

theorem listInsert_inserted_append (p : Nat) (s : STATEMENT) (a : List (Nat × STATEMENT))
    (l : StatementList) :
    listInsert p s (a.map (fun x => (none, x.2)) ++ l) =
      a.map (fun x => (none, x.2)) ++ listInsert p s l := by
  induction a with
  | nil => rfl
  | cons x rest ih =>
    simp only [List.map_cons, List.cons_append]
    rw [listInsert_cons]
    simp only [reduceCtorEq, if_false]
    rw [ih]

theorem render_append_lt (ins : List (Nat × STATEMENT)) (p : Nat) (s : STATEMENT) (k : Nat)
    (stmts : List STATEMENT) (h : p < k) :
    render (ins ++ [(p, s)]) k stmts = render ins k stmts := by
  induction stmts generalizing k with
  | nil =>
    have : ¬ k ≤ p := by omega
    simp [render, List.filter_append, this]
  | cons s0 rest ih =>
    have : ¬ p = k := by omega
    simp [render, List.filter_append, this, ih (k + 1) (by omega)]

theorem listInsert_render (ins : List (Nat × STATEMENT)) (p : Nat) (s : STATEMENT) (k : Nat)
    (stmts : List STATEMENT) (h : k ≤ p) :
    listInsert p s (render ins k stmts) = render (ins ++ [(p, s)]) k stmts := by
  induction stmts generalizing k with
  | nil =>
    unfold render
    have := listInsert_inserted_append p s (ins.filter (fun x => decide (k ≤ x.1))) []
    simp only [List.append_nil] at this
    rw [this]
    simp [List.filter_append, h, listInsert_nil]
  | cons s0 rest ih =>
    unfold render
    rw [listInsert_inserted_append]
    by_cases hp : p = k
    · subst hp
      simp [listInsert_cons, List.filter_append,
        render_append_lt ins p s (p + 1) rest (by omega)]
    · have hne : ¬ (some k = some p) := by
        intro e; injection e with e; exact hp e.symm
      have ih' := ih (k + 1) (by omega)
      rw [listInsert_cons]
      simp only [hne, if_false]
      rw [ih']
      simp [List.filter_append, hp]

theorem render_nil (k : Nat) (stmts : List STATEMENT) :
    render [] k stmts =
      (stmts.enumFrom k).map (fun statementInfo => (some statementInfo.1, statementInfo.2)) := by
  induction stmts generalizing k with
  | nil => rfl
  | cons s rest ih => simp [render, ih]

theorem foldl_render (base ins : List (Nat × STATEMENT)) (k : Nat) (stmts : List STATEMENT)
    (h : ∀ x ∈ ins, k ≤ x.1) :
    ins.foldl (fun l x => listInsert x.1 x.2 l) (render base k stmts) =
      render (base ++ ins) k stmts := by
  induction ins generalizing base with
  | nil => simp
  | cons x rest ih =>
    rw [List.foldl_cons, listInsert_render base x.1 x.2 k stmts (h x (List.mem_cons_self _ _)),
      ih _ (fun y hy => h y (List.mem_cons_of_mem _ hy))]
    simp

theorem insertedStatementList_eq_render (st : AllocState) :
    insertedStatementList st =
      render (insertions (computeLoadPoints st.basicBlock.statements st.loadStatements)
          st.loadStatements ++
        insertions (computeSpillPoints st.basicBlock.statements st.spillStatements)
          st.spillStatements) 0 st.basicBlock.statements := by
  unfold insertedStatementList
  simp only [insertStaged_eq_foldl]
  rw [← List.foldl_append]
  have h0 : indexedStatementList st.basicBlock.statements =
      render [] 0 st.basicBlock.statements := by
    rw [render_nil]; rfl
  rw [h0, foldl_render [] _ 0 _ (fun x _ => Nat.zero_le _)]
  simp

theorem filter_key_of_not_any (staged : StatementMultimap) (k : Nat)
    (h : ¬ staged.any (fun stmt => stmt.1 == k) = true) :
    staged.filter (fun stmt => stmt.1 == k) = [] := by
  rw [List.filter_eq_nil_iff]
  intro a ha hk
  apply h
  rw [List.any_eq_true]
  exact ⟨a, ha, hk⟩

theorem loadInsertions_cons (loads : StatementMultimap) (k : Nat) (s : STATEMENT)
    (rest : List STATEMENT) :
    insertions (loadPointsFrom loads k (s :: rest)) loads =
      (loads.filter (fun stmt => stmt.1 == k)).map (fun stmt => (k, stmt.2)) ++
        insertions (loadPointsFrom loads (k + 1) rest) loads := by
  unfold loadPointsFrom insertions
  rw [List.enumFrom_cons, List.filterMap_cons]
  by_cases h : loads.any (fun stmt => stmt.1 == k) = true
  · simp only [h, if_true, List.flatMap_cons]
  · simp only [h, if_false, filter_key_of_not_any loads k h, List.map_nil, List.nil_append]
    rfl

theorem spillInsertions_cons (spills : StatementMultimap) (k : Nat) (s : STATEMENT)
    (rest : List STATEMENT) :
    insertions (spillPointsFrom spills k (s :: rest)) spills =
      (spills.filter (fun stmt => stmt.1 == k)).map
          (fun stmt => (if isControlTransfer s.op then k else k + 1, stmt.2)) ++
        insertions (spillPointsFrom spills (k + 1) rest) spills := by
  unfold spillPointsFrom insertions
  rw [List.enumFrom_cons, List.filterMap_cons]
  by_cases h : spills.any (fun stmt => stmt.1 == k) = true
  · simp only [h, if_true, List.flatMap_cons]
  · simp only [h, if_false, filter_key_of_not_any spills k h, List.map_nil, List.nil_append]
    rfl

theorem loadInsertions_ge (loads : StatementMultimap) (k : Nat) (stmts : List STATEMENT) :
    ∀ x ∈ insertions (loadPointsFrom loads k stmts) loads, k ≤ x.1 := by
  induction stmts generalizing k with
  | nil => intro x hx; simp [insertions, loadPointsFrom] at hx
  | cons s rest ih =>
    intro x hx
    rw [loadInsertions_cons, List.mem_append] at hx
    rcases hx with hx | hx
    · obtain ⟨y, _, rfl⟩ := List.mem_map.1 hx
      exact le_refl _
    · have := ih (k + 1) x hx
      omega

theorem spillInsertions_ge (spills : StatementMultimap) (k : Nat) (stmts : List STATEMENT) :
    ∀ x ∈ insertions (spillPointsFrom spills k stmts) spills, k ≤ x.1 := by
  induction stmts generalizing k with
  | nil => intro x hx; simp [insertions, spillPointsFrom] at hx
  | cons s rest ih =>
    intro x hx
    rw [spillInsertions_cons, List.mem_append] at hx
    rcases hx with hx | hx
    · obtain ⟨y, _, rfl⟩ := List.mem_map.1 hx
      dsimp only
      split <;> omega
    · have := ih (k + 1) x hx
      omega

theorem render_filter (ins : List (Nat × STATEMENT)) (k : Nat) (stmts : List STATEMENT) :
    render (ins.filter (fun x => decide (k ≤ x.1))) k stmts = render ins k stmts := by
  induction stmts generalizing k ins with
  | nil =>
    simp [render, List.filter_filter]
  | cons s rest ih =>
    have h1 : (ins.filter (fun x => decide (k ≤ x.1))).filter (fun x => x.1 == k) =
        ins.filter (fun x => x.1 == k) := by
      rw [List.filter_filter]
      apply List.filter_congr
      intro x _
      by_cases hx : x.1 = k <;> simp [hx]
    have h2 : (ins.filter (fun x => decide (k ≤ x.1))).filter
          (fun x => decide (k + 1 ≤ x.1)) =
        ins.filter (fun x => decide (k + 1 ≤ x.1)) := by
      rw [List.filter_filter]
      apply List.filter_congr
      intro x _
      by_cases hx : k + 1 ≤ x.1
      · have : k ≤ x.1 := by omega
        simp [hx, this]
      · simp [hx]
    show (((ins.filter (fun x => decide (k ≤ x.1))).filter (fun x => x.1 == k)).map
        (fun x => (none, x.2)) ++
      (some k, s) :: render (ins.filter (fun x => decide (k ≤ x.1))) (k + 1) rest) =
      ((ins.filter (fun x => x.1 == k)).map (fun x => (none, x.2)) ++
        (some k, s) :: render ins (k + 1) rest)
    rw [h1, ← ih (ins.filter (fun x => decide (k ≤ x.1))) (k + 1), h2, ih ins (k + 1)]

theorem render_cons (ins : List (Nat × STATEMENT)) (k : Nat) (s : STATEMENT)
    (rest : List STATEMENT) :
    render ins k (s :: rest) =
      (ins.filter (fun x => x.1 == k)).map (fun x => (none, x.2)) ++
        (some k, s) :: render ins (k + 1) rest := rfl

theorem iteratorForm_cons (loads spills : StatementMultimap) (c : List STATEMENT) (k : Nat)
    (s : STATEMENT) (rest : List STATEMENT) :
    iteratorForm loads spills c k (s :: rest) =
      (stagedAt loads k ++ c ++
          (if isControlTransfer s.op then stagedAt spills k else [])).map inserted ++
        (some k, s) ::
          iteratorForm loads spills (if isControlTransfer s.op then [] else stagedAt spills k)
            (k + 1) rest := rfl

theorem filter_all {α : Type} (p : α → Bool) (l : List α) (h : ∀ x ∈ l, p x = true) :
    l.filter p = l := List.filter_eq_self.2 h

theorem filter_none {α : Type} (p : α → Bool) (l : List α) (h : ∀ x ∈ l, p x = false) :
    l.filter p = [] := by
  rw [List.filter_eq_nil_iff]
  intro a ha hp
  rw [h a ha] at hp
  cases hp

theorem render_eq_iteratorForm (loads spills : StatementMultimap) (c : List STATEMENT)
    (k : Nat) (stmts : List STATEMENT) :
    render (insertions (loadPointsFrom loads k stmts) loads ++ c.map (fun s => (k, s)) ++
        insertions (spillPointsFrom spills k stmts) spills) k stmts =
      iteratorForm loads spills c k stmts := by
  induction stmts generalizing k c with
  | nil =>
    have h : (c.map (fun s => (k, s))).filter (fun x => decide (k ≤ x.1)) =
        c.map (fun s => (k, s)) := by
      apply filter_all
      intro x hx
      obtain ⟨y, _, rfl⟩ := List.mem_map.1 hx
      simp
    simp only [render, insertions, loadPointsFrom, spillPointsFrom, iteratorForm,
      List.enumFrom_nil, List.filterMap_nil, List.flatMap_nil, List.nil_append,
      List.append_nil, h, List.map_map]
    rfl
  | cons s rest ih =>
    rw [loadInsertions_cons, spillInsertions_cons, render_cons, iteratorForm_cons,
      ← render_filter _ (k + 1) rest]
    have hLR := loadInsertions_ge loads (k + 1) rest
    have hSR := spillInsertions_ge spills (k + 1) rest
    have hLA1 : ((loads.filter (fun stmt => stmt.1 == k)).map
        (fun stmt => (k, stmt.2))).filter (fun x => x.1 == k) =
        (loads.filter (fun stmt => stmt.1 == k)).map (fun stmt => (k, stmt.2)) := by
      apply filter_all
      intro x hx
      obtain ⟨y, _, rfl⟩ := List.mem_map.1 hx
      simp
    have hLA2 : ((loads.filter (fun stmt => stmt.1 == k)).map
        (fun stmt => (k, stmt.2))).filter (fun x => decide (k + 1 ≤ x.1)) = [] := by
      apply filter_none
      intro x hx
      obtain ⟨y, _, rfl⟩ := List.mem_map.1 hx
      simp
    have hC1 : (c.map (fun s => (k, s))).filter (fun x => x.1 == k) =
        c.map (fun s => (k, s)) := by
      apply filter_all
      intro x hx
      obtain ⟨y, _, rfl⟩ := List.mem_map.1 hx
      simp
    have hC2 : (c.map (fun s => (k, s))).filter (fun x => decide (k + 1 ≤ x.1)) = [] := by
      apply filter_none
      intro x hx
      obtain ⟨y, _, rfl⟩ := List.mem_map.1 hx
      simp
    have hLR1 : (insertions (loadPointsFrom loads (k + 1) rest) loads).filter
        (fun x => x.1 == k) = [] := by
      apply filter_none
      intro x hx
      have := hLR x hx
      have hne : ¬ x.1 = k := by omega
      simp [hne]
    have hLR2 : (insertions (loadPointsFrom loads (k + 1) rest) loads).filter
        (fun x => decide (k + 1 ≤ x.1)) = insertions (loadPointsFrom loads (k + 1) rest) loads := by
      apply filter_all
      intro x hx
      have := hLR x hx
      simp [this]
    have hSR1 : (insertions (spillPointsFrom spills (k + 1) rest) spills).filter
        (fun x => x.1 == k) = [] := by
      apply filter_none
      intro x hx
      have := hSR x hx
      have hne : ¬ x.1 = k := by omega
      simp [hne]
    have hSR2 : (insertions (spillPointsFrom spills (k + 1) rest) spills).filter
        (fun x => decide (k + 1 ≤ x.1)) =
        insertions (spillPointsFrom spills (k + 1) rest) spills := by
      apply filter_all
      intro x hx
      have := hSR x hx
      simp [this]
    by_cases hct : isControlTransfer s.op = true
    · have hSA1 : ((spills.filter (fun stmt => stmt.1 == k)).map
          (fun stmt => (k, stmt.2))).filter (fun x => x.1 == k) =
          (spills.filter (fun stmt => stmt.1 == k)).map (fun stmt => (k, stmt.2)) := by
        apply filter_all
        intro x hx
        obtain ⟨y, _, rfl⟩ := List.mem_map.1 hx
        simp
      have hSA2 : ((spills.filter (fun stmt => stmt.1 == k)).map
          (fun stmt => (k, stmt.2))).filter (fun x => decide (k + 1 ≤ x.1)) = [] := by
        apply filter_none
        intro x hx
        obtain ⟨y, _, rfl⟩ := List.mem_map.1 hx
        simp
      simp only [hct, if_true, List.filter_append, hLA1, hLA2, hC1, hC2, hLR1, hLR2, hSR1,
        hSR2, hSA1, hSA2, List.append_nil, List.nil_append]
      have ih' := ih [] (k + 1)
      simp only [List.map_nil, List.append_nil] at ih'
      rw [ih']
      simp only [stagedAt, List.map_append, List.map_map, List.append_assoc]
      rfl
    · have hct' : isControlTransfer s.op = false := by simpa using hct
      have hSA1 : ((spills.filter (fun stmt => stmt.1 == k)).map
          (fun stmt => (k + 1, stmt.2))).filter (fun x => x.1 == k) = [] := by
        apply filter_none
        intro x hx
        obtain ⟨y, _, rfl⟩ := List.mem_map.1 hx
        simp
      have hSA2 : ((spills.filter (fun stmt => stmt.1 == k)).map
          (fun stmt => (k + 1, stmt.2))).filter (fun x => decide (k + 1 ≤ x.1)) =
          (spills.filter (fun stmt => stmt.1 == k)).map (fun stmt => (k + 1, stmt.2)) := by
        apply filter_all
        intro x hx
        obtain ⟨y, _, rfl⟩ := List.mem_map.1 hx
        simp
      simp only [hct', Bool.false_eq_true, if_false, List.filter_append, hLA1, hLA2, hC1, hC2,
        hLR1, hLR2, hSR1, hSR2, hSA1, hSA2, List.append_nil, List.nil_append]
      have ih' := ih (stagedAt spills k) (k + 1)
      have hmap : (stagedAt spills k).map (fun s => (k + 1, s)) =
          (spills.filter (fun stmt => stmt.1 == k)).map (fun stmt => (k + 1, stmt.2)) := by
        simp [stagedAt, List.map_map, Function.comp]
      rw [hmap] at ih'
      simp only [List.append_assoc] at ih' ⊢
      rw [ih']
      simp only [stagedAt, List.map_append, List.map_map, List.append_assoc]
      rfl

theorem anchoredForm_cons (loads spills : StatementMultimap) (k : Nat) (s : STATEMENT)
    (rest : List STATEMENT) :
    anchoredForm loads spills k (s :: rest) =
      ((stagedAt loads k ++
          (if isControlTransfer s.op then stagedAt spills k else [])).map inserted ++
        (some k, s) ::
          (if isControlTransfer s.op then [] else stagedAt spills k).map inserted) ++
      anchoredForm loads spills (k + 1) rest := by
  unfold anchoredForm
  rw [List.enumFrom_cons, List.flatMap_cons]

theorem isControlTransfer_call (op : OPERATION) (h : isControlTransfer op = false) :
    op ≠ OP_CALL := by
  intro e
  rw [e] at h
  cases h

theorem iteratorForm_eq_anchoredForm (loads spills : StatementMultimap) (c : List STATEMENT)
    (k : Nat) (stmts : List STATEMENT)
    (hc : c ≠ [] → stagedAt loads k = [])
    (H : ∀ info ∈ stmts.enumFrom k, info.2.op ≠ OP_CALL → stagedAt loads (info.1 + 1) = []) :
    iteratorForm loads spills c k stmts =
      c.map inserted ++ anchoredForm loads spills k stmts := by
  induction stmts generalizing k c with
  | nil => simp [iteratorForm, anchoredForm]
  | cons s rest ih =>
    rw [iteratorForm_cons, anchoredForm_cons]
    have hswap : stagedAt loads k ++ c = c ++ stagedAt loads k := by
      by_cases hcn : c = []
      · rw [hcn]; simp
      · rw [hc hcn]; simp
    have H' : ∀ info ∈ rest.enumFrom (k + 1), info.2.op ≠ OP_CALL →
        stagedAt loads (info.1 + 1) = [] := by
      intro info hinfo
      apply H
      rw [List.enumFrom_cons]
      exact List.mem_cons_of_mem _ hinfo
    have hhead : (k, s) ∈ (s :: rest).enumFrom k := by
      rw [List.enumFrom_cons]
      exact List.mem_cons_self _ _
    by_cases hct : isControlTransfer s.op = true
    · simp only [hct, if_true]
      rw [ih [] (k + 1) (fun h => absurd rfl h) H', hswap]
      simp [List.append_assoc]
    · have hct' : isControlTransfer s.op = false := by simpa using hct
      simp only [hct', Bool.false_eq_true, if_false]
      rw [ih (stagedAt spills k) (k + 1)
        (fun _ => H (k, s) hhead (isControlTransfer_call s.op hct')) H', hswap]
      simp [List.append_assoc]

theorem insertedStatementList_eq_anchoredForm (st : AllocState)
    (H : ∀ info ∈ st.basicBlock.statements.enumFrom 0, info.2.op ≠ OP_CALL →
      stagedAt st.loadStatements (info.1 + 1) = []) :
    insertedStatementList st =
      anchoredForm st.loadStatements st.spillStatements 0 st.basicBlock.statements := by
  rw [insertedStatementList_eq_render]
  have h := render_eq_iteratorForm st.loadStatements st.spillStatements [] 0
    st.basicBlock.statements
  simp only [List.map_nil, List.append_nil] at h
  have hl : computeLoadPoints st.basicBlock.statements st.loadStatements =
      loadPointsFrom st.loadStatements 0 st.basicBlock.statements := rfl
  have hs : computeSpillPoints st.basicBlock.statements st.spillStatements =
      spillPointsFrom st.spillStatements 0 st.basicBlock.statements := rfl
  rw [hl, hs, h, iteratorForm_eq_anchoredForm _ _ [] 0 _ (fun h => absurd rfl h) H]
  rfl

/-! ## Theorems: what the loop over the ranges keeps -/

theorem ranges_loop_first (last : Nat) (stmts : List STATEMENT) (idx cs : Nat) :
    ∀ r ∈ ComputeAllocationRanges.loop last stmts idx cs,
      r.1 = cs ∨ ∃ j s, stmts[j]? = some s ∧ s.op = OP_CALL ∧ r.1 = idx + j + 1 := by
  induction stmts generalizing idx cs with
  | nil =>
    intro r hr
    simp [ComputeAllocationRanges.loop] at hr
    left; rw [hr]
  | cons s0 rest ih =>
    intro r hr
    unfold ComputeAllocationRanges.loop at hr
    split at hr
    · rename_i hcall
      rcases List.mem_cons.1 hr with e | e
      · left; rw [e]
      · right
        rcases ih (idx + 1) (idx + 1) r e with h | ⟨j, s, hj, hs, hr1⟩
        · exact ⟨0, s0, by simp, hcall, by omega⟩
        · exact ⟨j + 1, s, by simpa using hj, hs, by omega⟩
    · rcases ih (idx + 1) cs r hr with h | ⟨j, s, hj, hs, hr1⟩
      · left; exact h
      · right; exact ⟨j + 1, s, by simpa using hj, hs, by omega⟩

theorem ranges_loop_second (last : Nat) (stmts : List STATEMENT) (idx cs : Nat) :
    ∀ r ∈ ComputeAllocationRanges.loop last stmts idx cs,
      r.2 = last ∨ r.2 < idx + stmts.length := by
  induction stmts generalizing idx cs with
  | nil =>
    intro r hr
    simp [ComputeAllocationRanges.loop] at hr
    left; rw [hr]
  | cons s0 rest ih =>
    intro r hr
    unfold ComputeAllocationRanges.loop at hr
    split at hr
    · rcases List.mem_cons.1 hr with e | e
      · right; rw [e]; simp
      · rcases ih (idx + 1) (idx + 1) r e with h | h
        · left; exact h
        · right; simp only [List.length_cons]; omega
    · rcases ih (idx + 1) cs r hr with h | h
      · left; exact h
      · right; simp only [List.length_cons]; omega

theorem rangeRegAllocs_of_disjoint (d : SymbolDecls) (gpCount mdCount : Nat)
    (basicBlock : BASIC_BLOCK) (allocRange : AllocationRange)
    (h : ∀ i, i < basicBlock.statements.length → ¬ (allocRange.1 ≤ i ∧ i ≤ allocRange.2)) :
    rangeRegAllocs d gpCount mdCount basicBlock allocRange = [] := by
  have hskip : ∀ info ∈ basicBlock.statements.enum,
      info.1 < allocRange.1 ∨ info.1 > allocRange.2 := by
    intro info hinfo
    have := h info.1 (List.fst_lt_of_mem_enum hinfo)
    omega
  have h1 : ComputeLivenessForRange basicBlock allocRange [] = [] := by
    unfold ComputeLivenessForRange
    apply foldl_invariant (fun t : SymbolRegAllocInfo => t = []) _ _ _ rfl
    intro b a ha hb
    rcases hskip a ha with h | h
    · simp [h, hb]
    · simp [h, hb]
  have h2 : MarkAliasedSymbols d basicBlock allocRange [] = [] := by
    unfold MarkAliasedSymbols
    apply foldl_invariant (fun t : SymbolRegAllocInfo => t = []) _ _ _ rfl
    intro b a ha hb
    rcases hskip a ha with h | h
    · simp [h, hb]
    · simp [h, hb]
  unfold rangeRegAllocs
  rw [h1, h2]
  simp [AssociateSymbolsToRegisters, stdSort]

theorem stagedLoads_key (allocRange : AllocationRange) (t : SymbolRegAllocInfo) :
    ∀ l ∈ stagedLoads allocRange t, l.1 = allocRange.1 := by
  intro l hl
  unfold stagedLoads at hl
  obtain ⟨p, _, hlp⟩ := List.mem_flatMap.1 hl
  split at hlp
  · rw [List.mem_singleton] at hlp
    rw [hlp]
  · cases hlp

theorem stagedSpills_key (d : SymbolDecls) (isLastRange : Bool) (allocRange : AllocationRange)
    (t : SymbolRegAllocInfo) :
    ∀ l ∈ stagedSpills d isLastRange allocRange t, l.1 = allocRange.2 := by
  intro l hl
  unfold stagedSpills at hl
  obtain ⟨p, _, hlp⟩ := List.mem_flatMap.1 hl
  split at hlp
  · rw [List.mem_singleton] at hlp
    rw [hlp]
  · cases hlp

theorem allocateRange_length (d : SymbolDecls) (gpCount mdCount : Nat)
    (st : AllocState) (allocRange : AllocationRange) :
    (allocateRange d gpCount mdCount st allocRange).basicBlock.statements.length =
      st.basicBlock.statements.length := by
  simp [allocateRange, rewriteRange]

theorem allocateRange_op (d : SymbolDecls) (gpCount mdCount : Nat)
    (st : AllocState) (allocRange : AllocationRange) (i : Nat) :
    ((allocateRange d gpCount mdCount st allocRange).basicBlock.statements[i]?).map
        (fun s : STATEMENT => s.op) =
      (st.basicBlock.statements[i]?).map (fun s : STATEMENT => s.op) := by
  show ((rewriteRange allocRange _ st.basicBlock.statements)[i]?).map (fun s : STATEMENT => s.op) = _
  rw [rewriteRange_getElem?]
  cases st.basicBlock.statements[i]? with
  | none => rfl
  | some s =>
    simp only [Option.map_some']
    split
    · rfl
    · split <;> rfl

theorem allocateRanges_invariant (d : SymbolDecls) (gpCount mdCount : Nat)
    (basicBlock : BASIC_BLOCK) :
    rangeLoopInvariant basicBlock.statements (allocateRanges d gpCount mdCount basicBlock) := by
  unfold allocateRanges
  apply foldl_invariant (rangeLoopInvariant basicBlock.statements)
  · refine ⟨rfl, fun _ => rfl, ?_, ?_⟩
    · intro l hl; cases hl
    · intro l hl; cases hl
  · intro st r hr hst
    obtain ⟨hlen, hop, hld, hsp⟩ := hst
    have hne : ∀ x, x ∈ rangeRegAllocs d gpCount mdCount st.basicBlock r →
        ∃ i, i < basicBlock.statements.length ∧ r.1 ≤ i ∧ i ≤ r.2 := by
      intro x hx
      by_contra hcon
      rw [rangeRegAllocs_of_disjoint d gpCount mdCount st.basicBlock r
        (fun i hi hin => hcon ⟨i, hlen ▸ hi, hin.1, hin.2⟩)] at hx
      cases hx
    refine ⟨?_, ?_, ?_, ?_⟩
    · rw [allocateRange_length, hlen]
    · intro i
      rw [allocateRange_op, hop]
    · intro l hl
      rw [allocateRange_loadStatements, List.mem_append] at hl
      rcases hl with hl | hl
      · exact hld l hl
      · have hkey := stagedLoads_key _ _ l hl
        unfold stagedLoads at hl
        obtain ⟨p, hp, _⟩ := List.mem_flatMap.1 hl
        obtain ⟨i, hi, h1, h2⟩ := hne p hp
        constructor
        · omega
        · rcases ranges_loop_first _ basicBlock.statements 0 0 r hr with h | ⟨j, s, hj, hs, hr1⟩
          · left; rw [hkey]; exact h
          · right; exact ⟨j, s, hj, hs, by omega⟩
    · intro l hl
      rw [allocateRange_spillStatements, List.mem_append] at hl
      rcases hl with hl | hl
      · exact hsp l hl
      · have hkey := stagedSpills_key _ _ _ _ l hl
        unfold stagedSpills at hl
        obtain ⟨p, hp, _⟩ := List.mem_flatMap.1 hl
        obtain ⟨i, hi, h1, h2⟩ := hne p hp
        rcases ranges_loop_second _ basicBlock.statements 0 0 r hr with h | h
        · rw [hkey, h]; omega
        · rw [hkey]; omega

/-! ## Theorems: the statement sequence that AllocateRegisters produces -/

theorem isControlTransfer_iff (op : OPERATION) :
    isControlTransfer op = true ↔
      op ∈ [OP_CONDJMP, OP_JMP, OP_CALL, OP_EXTERNJMP, OP_EXTERNJMP_DYN] := by
  cases op <;> simp [isControlTransfer]

theorem stagedAt_eq_nil (staged : StatementMultimap) (i : Nat)
    (h : ∀ l ∈ staged, l.1 ≠ i) : stagedAt staged i = [] := by
  unfold stagedAt
  rw [List.map_eq_nil_iff, List.filter_eq_nil_iff]
  intro l hl hk
  exact h l hl (by simpa using hk)

theorem no_load_after_non_call (d : SymbolDecls) (gpCount mdCount : Nat)
    (basicBlock : BASIC_BLOCK) :
    ∀ info ∈ (allocateRanges d gpCount mdCount basicBlock).basicBlock.statements.enumFrom 0,
      info.2.op ≠ OP_CALL →
      stagedAt (allocateRanges d gpCount mdCount basicBlock).loadStatements (info.1 + 1) =
        [] := by
  intro info hinfo hop
  obtain ⟨_, hops, hld, _⟩ := allocateRanges_invariant d gpCount mdCount basicBlock
  apply stagedAt_eq_nil
  intro l hl hkey
  rcases (hld l hl).2 with h0 | ⟨j, s, hj, hs, hl1⟩
  · omega
  · have hji : j = info.1 := by omega
    have hget : (allocateRanges d gpCount mdCount basicBlock).basicBlock.statements[info.1]? =
        some info.2 := List.mem_enum_iff_getElem?.1 hinfo
    have := hops info.1
    rw [hget, ← hji, hj] at this
    simp only [Option.map_some', Option.some.injEq] at this
    exact hop (this.trans hs)

/-- Claim C5: the statements that `AllocateRegisters` produces are the concatenation, over the
indices of the block in order, of the loads staged for the index (in staging order), then the
spills staged for the index if the statement's opcode is one of `OP_CONDJMP`, `OP_JMP`,
`OP_CALL`, `OP_EXTERNJMP`, `OP_EXTERNJMP_DYN`, then the operand-rewritten statement, then the
spills staged for the index if the opcode is none of the five; the rewritten block has the
length and the opcodes of the original one. -/
theorem AllocateRegisters_statement_sequence (d : SymbolDecls) (gpCount mdCount : Nat)
    (basicBlock : BASIC_BLOCK) :
    (AllocateRegisters d gpCount mdCount basicBlock).statements =
      ((allocateRanges d gpCount mdCount basicBlock).basicBlock.statements.enum).flatMap
        (fun info =>
          stagedAt (allocateRanges d gpCount mdCount basicBlock).loadStatements info.1 ++
          (if info.2.op ∈ [OP_CONDJMP, OP_JMP, OP_CALL, OP_EXTERNJMP, OP_EXTERNJMP_DYN] then
            stagedAt (allocateRanges d gpCount mdCount basicBlock).spillStatements info.1
          else []) ++
          [info.2] ++
          (if info.2.op ∈ [OP_CONDJMP, OP_JMP, OP_CALL, OP_EXTERNJMP, OP_EXTERNJMP_DYN] then []
          else
            stagedAt (allocateRanges d gpCount mdCount basicBlock).spillStatements info.1)) ∧
    (allocateRanges d gpCount mdCount basicBlock).basicBlock.statements.length =
      basicBlock.statements.length ∧
    (∀ i : Nat,
      ((allocateRanges d gpCount mdCount basicBlock).basicBlock.statements[i]?).map
          (fun s : STATEMENT => s.op) =
        (basicBlock.statements[i]?).map (fun s : STATEMENT => s.op)) := by
  obtain ⟨hlen, hops, _, _⟩ := allocateRanges_invariant d gpCount mdCount basicBlock
  refine ⟨?_, hlen, hops⟩
  unfold AllocateRegisters insertLoadsAndSpills
  show (insertedStatementList (allocateRanges d gpCount mdCount basicBlock)).map
    (fun x => x.2) = _
  rw [insertedStatementList_eq_anchoredForm _
    (no_load_after_non_call d gpCount mdCount basicBlock)]
  unfold anchoredForm
  rw [List.map_flatMap]
  show List.flatMap _ _ = List.flatMap _ _
  congr 1
  funext info
  have hmap : ∀ l : List STATEMENT, (l.map inserted).map (fun x => x.2) = l := by
    intro l
    rw [List.map_map]
    exact List.map_id l
  by_cases hct : isControlTransfer info.2.op = true
  · have hm := (isControlTransfer_iff info.2.op).1 hct
    simp only [hct, hm, if_true, List.map_append, List.map_cons, List.map_nil, hmap,
      List.append_nil, List.append_assoc, List.singleton_append]
  · have hm : ¬ info.2.op ∈ [OP_CONDJMP, OP_JMP, OP_CALL, OP_EXTERNJMP, OP_EXTERNJMP_DYN] :=
      fun h => hct ((isControlTransfer_iff info.2.op).2 h)
    have hct' : isControlTransfer info.2.op = false := by simpa using hct
    simp only [hct', hm, Bool.false_eq_true, if_false, List.map_append, List.map_cons,
      List.map_nil, hmap, List.append_nil, List.append_assoc, List.singleton_append,
      List.nil_append]

/-- In the statement list that `AllocateRegisters` produces, the spills staged for an index
stand, in staging order, immediately before the statement of that index when its opcode is one
of `OP_CONDJMP`, `OP_JMP`, `OP_CALL`, `OP_EXTERNJMP`, `OP_EXTERNJMP_DYN`, and immediately
after it otherwise. -/
theorem AllocateRegisters_spill_placement (d : SymbolDecls) (gpCount mdCount : Nat)
    (basicBlock : BASIC_BLOCK) :
    (AllocateRegisters d gpCount mdCount basicBlock).statements =
      (insertedStatementList (allocateRanges d gpCount mdCount basicBlock)).map
        (fun x => x.2) ∧
    ∀ (j : Nat) (s : STATEMENT),
      (allocateRanges d gpCount mdCount basicBlock).basicBlock.statements[j]? = some s →
      (s.op ∈ [OP_CONDJMP, OP_JMP, OP_CALL, OP_EXTERNJMP, OP_EXTERNJMP_DYN] →
        ∃ pre post, insertedStatementList (allocateRanges d gpCount mdCount basicBlock) =
          pre ++
          (stagedAt (allocateRanges d gpCount mdCount basicBlock).spillStatements j).map
            inserted ++
          (some j, s) :: post) ∧
      (s.op ∉ [OP_CONDJMP, OP_JMP, OP_CALL, OP_EXTERNJMP, OP_EXTERNJMP_DYN] →
        ∃ pre post, insertedStatementList (allocateRanges d gpCount mdCount basicBlock) =
          pre ++ (some j, s) ::
          ((stagedAt (allocateRanges d gpCount mdCount basicBlock).spillStatements j).map
            inserted ++ post)) := by
  refine ⟨rfl, ?_⟩
  intro j s hj
  rw [insertedStatementList_eq_anchoredForm _
    (no_load_after_non_call d gpCount mdCount basicBlock)]
  have hmem : (j, s) ∈
      (allocateRanges d gpCount mdCount basicBlock).basicBlock.statements.enumFrom 0 :=
    List.mk_mem_enum_iff_getElem?.2 hj
  obtain ⟨a, b, hab⟩ := List.append_of_mem hmem
  unfold anchoredForm
  rw [hab, List.flatMap_append, List.flatMap_cons]
  generalize List.flatMap a _ = flatA
  generalize List.flatMap b _ = flatB
  constructor
  · intro hm
    have hct := (isControlTransfer_iff s.op).2 hm
    refine ⟨flatA ++
      (stagedAt (allocateRanges d gpCount mdCount basicBlock).loadStatements j).map inserted,
      flatB, ?_⟩
    simp only [hct, if_true, List.map_nil, List.map_append, List.append_assoc,
      List.cons_append, List.nil_append]
  · intro hm
    have hct : isControlTransfer s.op = false := by
      cases h : isControlTransfer s.op with
      | false => rfl
      | true => exact absurd ((isControlTransfer_iff s.op).1 h) hm
    refine ⟨flatA ++
      (stagedAt (allocateRanges d gpCount mdCount basicBlock).loadStatements j).map inserted,
      flatB, ?_⟩
    simp only [hct, Bool.false_eq_true, if_false, List.append_nil, List.append_assoc,
      List.cons_append]

/-- Why the order of spills and control transfers is stated for basic blocks, whose jumps
stand at the end: in the statement list `[JMP; MOV rel_c, rel_a]`, which has a jump in its
middle and is no basic block, the single range is `(0, 1)`, the spill of `rel_c` is staged at
index 1 and, the statement of index 1 not being a control transfer, inserted after it. -/
theorem AllocateRegisters_spill_after_jump :
    ComputeAllocationRanges jumpFirstBlock = [(0, 1)] ∧
    (allocateRanges exampleDecls 4 0 jumpFirstBlock).spillStatements =
      [(1, ⟨OP_MOV, some (relRef 8), some (MakeSymbolRef ⟨SYM_REGISTER, 3, 0⟩), none⟩)] ∧
    insertedStatementList (allocateRanges exampleDecls 4 0 jumpFirstBlock) =
      [(none, ⟨OP_MOV, some (MakeSymbolRef ⟨SYM_REGISTER, 2, 0⟩), some (relRef 0), none⟩),
       (some 0, ⟨OP_JMP, none, none, none⟩),
       (some 1, ⟨OP_MOV, some (MakeSymbolRef ⟨SYM_REGISTER, 3, 0⟩),
         some (MakeSymbolRef ⟨SYM_REGISTER, 2, 0⟩), none⟩),
       (none, ⟨OP_MOV, some (relRef 8), some (MakeSymbolRef ⟨SYM_REGISTER, 3, 0⟩), none⟩)] ∧
    (AllocateRegisters exampleDecls 4 0 jumpFirstBlock).statements =
      [⟨OP_MOV, some (MakeSymbolRef ⟨SYM_REGISTER, 2, 0⟩), some (relRef 0), none⟩,
       ⟨OP_JMP, none, none, none⟩,
       ⟨OP_MOV, some (MakeSymbolRef ⟨SYM_REGISTER, 3, 0⟩),
         some (MakeSymbolRef ⟨SYM_REGISTER, 2, 0⟩), none⟩,
       ⟨OP_MOV, some (relRef 8), some (MakeSymbolRef ⟨SYM_REGISTER, 3, 0⟩), none⟩] := by
  refine ⟨by decide, by decide, by decide, by decide⟩

theorem length_listInsert (p : Nat) (s : STATEMENT) (l : StatementList) :
    (listInsert p s l).length = l.length + 1 := by
  induction l with
  | nil => rfl
  | cons x rest ih =>
    rw [listInsert_cons]
    split
    · simp
    · simp [ih]

theorem length_foldl_listInsert (ins : List (Nat × STATEMENT)) (l : StatementList) :
    (ins.foldl (fun l x => listInsert x.1 x.2 l) l).length = l.length + ins.length := by
  induction ins generalizing l with
  | nil => rfl
  | cons x rest ih =>
    rw [List.foldl_cons, ih, length_listInsert, List.length_cons]
    omega

theorem filter_length_add {α : Type} (l : List α) (p q r : α → Bool)
    (h : ∀ x, r x = true ↔ (p x = true ∨ q x = true))
    (hd : ∀ x, ¬ (p x = true ∧ q x = true)) :
    (l.filter r).length = (l.filter p).length + (l.filter q).length := by
  induction l with
  | nil => rfl
  | cons x rest ih =>
    rw [List.filter_cons, List.filter_cons, List.filter_cons]
    cases hp : p x <;> cases hq : q x <;> cases hr : r x
    all_goals first
      | (exfalso; have hx := h x; rw [hp, hq, hr] at hx; simp at hx; done)
      | (exfalso; have hdx := hd x; rw [hp, hq] at hdx; simp at hdx; done)
      | (simp only [if_true, Bool.false_eq_true, if_false, List.length_cons, ih]; try omega)

theorem filter_window_length (staged : StatementMultimap) (k m : Nat) :
    (staged.filter (fun x => decide (k ≤ x.1 ∧ x.1 < k + (m + 1)))).length =
      (staged.filter (fun x => x.1 == k)).length +
        (staged.filter (fun x => decide (k + 1 ≤ x.1 ∧ x.1 < k + 1 + m))).length := by
  apply filter_length_add
  · intro x
    simp only [decide_eq_true_eq, beq_iff_eq]
    omega
  · intro x
    simp only [decide_eq_true_eq, beq_iff_eq]
    omega

theorem loadInsertions_length (loads : StatementMultimap) (k : Nat) (stmts : List STATEMENT) :
    (insertions (loadPointsFrom loads k stmts) loads).length =
      (loads.filter (fun x => decide (k ≤ x.1 ∧ x.1 < k + stmts.length))).length := by
  induction stmts generalizing k with
  | nil =>
    have : loads.filter (fun x => decide (k ≤ x.1 ∧ x.1 < k + ([] : List STATEMENT).length)) =
        [] := by
      apply filter_none
      intro x _
      simp
    rw [this]
    simp [insertions, loadPointsFrom]
  | cons s rest ih =>
    rw [loadInsertions_cons, List.length_append, List.length_map, ih (k + 1),
      List.length_cons, filter_window_length]

theorem spillInsertions_length (spills : StatementMultimap) (k : Nat)
    (stmts : List STATEMENT) :
    (insertions (spillPointsFrom spills k stmts) spills).length =
      (spills.filter (fun x => decide (k ≤ x.1 ∧ x.1 < k + stmts.length))).length := by
  induction stmts generalizing k with
  | nil =>
    have : spills.filter (fun x => decide (k ≤ x.1 ∧ x.1 < k + ([] : List STATEMENT).length)) =
        [] := by
      apply filter_none
      intro x _
      simp
    rw [this]
    simp [insertions, spillPointsFrom]
  | cons s rest ih =>
    rw [spillInsertions_cons, List.length_append, List.length_map, ih (k + 1),
      List.length_cons, filter_window_length]

theorem insertedStatementList_length (st : AllocState)
    (hl : ∀ l ∈ st.loadStatements, l.1 < st.basicBlock.statements.length)
    (hs : ∀ l ∈ st.spillStatements, l.1 < st.basicBlock.statements.length) :
    (insertedStatementList st).length =
      st.basicBlock.statements.length + st.loadStatements.length +
        st.spillStatements.length := by
  unfold insertedStatementList
  simp only [insertStaged_eq_foldl, length_foldl_listInsert]
  have h1 : computeLoadPoints st.basicBlock.statements st.loadStatements =
      loadPointsFrom st.loadStatements 0 st.basicBlock.statements := rfl
  have h2 : computeSpillPoints st.basicBlock.statements st.spillStatements =
      spillPointsFrom st.spillStatements 0 st.basicBlock.statements := rfl
  rw [h1, h2, loadInsertions_length, spillInsertions_length]
  have h3 : st.loadStatements.filter
      (fun x => decide (0 ≤ x.1 ∧ x.1 < 0 + st.basicBlock.statements.length)) =
      st.loadStatements := by
    apply filter_all
    intro x hx
    have := hl x hx
    simp [this]
  have h4 : st.spillStatements.filter
      (fun x => decide (0 ≤ x.1 ∧ x.1 < 0 + st.basicBlock.statements.length)) =
      st.spillStatements := by
    apply filter_all
    intro x hx
    have := hs x hx
    simp [this]
  rw [h3, h4]
  simp [indexedStatementList]

/-- Claim C7: the number of statements after `AllocateRegisters` is the number of statements
before it plus the number of staged loads plus the number of staged spills. -/
theorem AllocateRegisters_statement_count (d : SymbolDecls) (gpCount mdCount : Nat)
    (basicBlock : BASIC_BLOCK) :
    (AllocateRegisters d gpCount mdCount basicBlock).statements.length =
      basicBlock.statements.length +
        (allocateRanges d gpCount mdCount basicBlock).loadStatements.length +
        (allocateRanges d gpCount mdCount basicBlock).spillStatements.length := by
  obtain ⟨hlen, _, hld, hsp⟩ := allocateRanges_invariant d gpCount mdCount basicBlock
  unfold AllocateRegisters insertLoadsAndSpills
  show ((insertedStatementList (allocateRanges d gpCount mdCount basicBlock)).map
    (fun x => x.2)).length = _
  rw [List.length_map, insertedStatementList_length _
    (fun l hl => hlen ▸ (hld l hl).1) (fun l hl => hlen ▸ hsp l hl), hlen]

/-! ## Theorems: the ranges from the call indices, and the empty block -/

theorem callIndicesFrom_cons (k : Nat) (s : STATEMENT) (rest : List STATEMENT) :
    callIndicesFrom k (s :: rest) =
      if s.op = OP_CALL then k :: callIndicesFrom (k + 1) rest
      else callIndicesFrom (k + 1) rest := by
  unfold callIndicesFrom
  rw [List.enumFrom_cons, List.filter_cons]
  by_cases h : s.op = OP_CALL
  · simp [h]
  · simp [h]

theorem callIndicesFrom_ge (k : Nat) (stmts : List STATEMENT) :
    ∀ c ∈ callIndicesFrom k stmts, k ≤ c := by
  induction stmts generalizing k with
  | nil => intro c hc; simp [callIndicesFrom] at hc
  | cons s rest ih =>
    intro c hc
    rw [callIndicesFrom_cons] at hc
    split at hc
    · rcases List.mem_cons.1 hc with e | e
      · omega
      · have := ih (k + 1) c e; omega
    · have := ih (k + 1) c hc; omega

theorem callIndicesFrom_increasing (k : Nat) (stmts : List STATEMENT) :
    List.Pairwise (fun a b : Nat => a < b) (callIndicesFrom k stmts) := by
  induction stmts generalizing k with
  | nil => simp [callIndicesFrom]
  | cons s rest ih =>
    rw [callIndicesFrom_cons]
    split
    · refine List.Pairwise.cons ?_ (ih (k + 1))
      intro c hc
      have := callIndicesFrom_ge (k + 1) rest c hc
      omega
    · exact ih (k + 1)

theorem mem_callIndicesFrom (k : Nat) (stmts : List STATEMENT) (c : Nat) :
    c ∈ callIndicesFrom k stmts ↔
      k ≤ c ∧ ∃ s, stmts[c - k]? = some s ∧ s.op = OP_CALL := by
  unfold callIndicesFrom
  simp only [List.mem_map, List.mem_filter, beq_iff_eq]
  constructor
  · rintro ⟨info, ⟨hm, hop⟩, rfl⟩
    have := List.mk_mem_enumFrom_iff_le_and_getElem?_sub.1 hm
    exact ⟨this.1, info.2, this.2, hop⟩
  · rintro ⟨hk, s, hs, hop⟩
    exact ⟨(c, s), ⟨List.mk_mem_enumFrom_iff_le_and_getElem?_sub.2 ⟨hk, hs⟩, hop⟩, rfl⟩

theorem ranges_loop_eq_rangesOfCalls (last : Nat) (stmts : List STATEMENT) (idx cs : Nat) :
    ComputeAllocationRanges.loop last stmts idx cs =
      rangesOfCalls last (callIndicesFrom idx stmts) cs := by
  induction stmts generalizing idx cs with
  | nil => rfl
  | cons s rest ih =>
    unfold ComputeAllocationRanges.loop
    rw [callIndicesFrom_cons]
    split
    · rw [ih]; rfl
    · rw [ih]

theorem length_rangesOfCalls (last : Nat) (calls : List Nat) (start : Nat) :
    (rangesOfCalls last calls start).length = calls.length + 1 := by
  induction calls generalizing start with
  | nil => rfl
  | cons c cs ih => simp [rangesOfCalls, ih]

theorem getLast_rangesOfCalls (last : Nat) (calls : List Nat) (start : Nat) :
    ((rangesOfCalls last calls start).getLast?).map (fun r => r.2) = some last := by
  induction calls generalizing start with
  | nil => rfl
  | cons c cs ih =>
    have := ih (c + 1)
    cases h : rangesOfCalls last cs (c + 1) with
    | nil =>
      have hl := length_rangesOfCalls last cs (c + 1)
      rw [h] at hl
      simp at hl
    | cons r rs =>
      rw [h] at this
      simp only [rangesOfCalls, h, List.getLast?_cons_cons]
      exact this

/-- Claim C17: for a block of `n ≥ 1` statements (`n` within the range of the `unsigned int`
indices) whose `OP_CALL` statements are at the indices `c1 < ... < ck`,
`ComputeAllocationRanges` returns exactly the `k + 1` ranges
`(0, c1), (c1 + 1, c2), ..., (ck + 1, n - 1)`; the final range ends at `n - 1` whatever the
last opcode is. `[MOV t1, rel_a; CALL f; MOV rel_b, t1]` gives `(0, 1)` and `(2, 2)`, and a
block ending in a call gets the final range `(n, n - 1)`. -/
theorem ComputeAllocationRanges_eq_rangesOfCalls (basicBlock : BASIC_BLOCK)
    (hn : 1 ≤ basicBlock.statements.length)
    (hlt : basicBlock.statements.length < 4294967296) :
    (∀ c, c ∈ callIndicesFrom 0 basicBlock.statements ↔
      ∃ s, basicBlock.statements[c]? = some s ∧ s.op = OP_CALL) ∧
    List.Pairwise (fun a b : Nat => a < b) (callIndicesFrom 0 basicBlock.statements) ∧
    ComputeAllocationRanges basicBlock =
      rangesOfCalls (basicBlock.statements.length - 1)
        (callIndicesFrom 0 basicBlock.statements) 0 ∧
    (ComputeAllocationRanges basicBlock).length =
      (callIndicesFrom 0 basicBlock.statements).length + 1 ∧
    ((ComputeAllocationRanges basicBlock).getLast?).map (fun r => r.2) =
      some (basicBlock.statements.length - 1) ∧
    ComputeAllocationRanges callBlock = [(0, 1), (2, 2)] ∧
    ComputeAllocationRanges
      ⟨[⟨OP_MOV, some (tmpRef 1), some (relRef 0), none⟩, ⟨OP_CALL, none, none, none⟩]⟩ =
      [(0, 1), (2, 1)] := by
  have hlast : (basicBlock.statements.length + 4294967295) % 4294967296 =
      basicBlock.statements.length - 1 := by omega
  have heq : ComputeAllocationRanges basicBlock =
      rangesOfCalls (basicBlock.statements.length - 1)
        (callIndicesFrom 0 basicBlock.statements) 0 := by
    unfold ComputeAllocationRanges
    rw [hlast, ranges_loop_eq_rangesOfCalls]
  refine ⟨?_, callIndicesFrom_increasing 0 _, heq, ?_, ?_, by decide, by decide⟩
  · intro c
    rw [mem_callIndicesFrom]
    simp
  · rw [heq, length_rangesOfCalls]
  · rw [heq, getLast_rangesOfCalls]

theorem ComputeAllocationRanges_eq_rangesOfCalls_witness :
    ComputeAllocationRanges straightLineBlock =
      rangesOfCalls (straightLineBlock.statements.length - 1)
        (callIndicesFrom 0 straightLineBlock.statements) 0 :=
  (ComputeAllocationRanges_eq_rangesOfCalls straightLineBlock (by decide) (by decide)).2.2.1

/-- Claim C18: for the empty block `ComputeAllocationRanges` returns the single range whose
first index is 0 and whose last index is `0 - 1` in unsigned arithmetic, the value
`2^32 - 1` of the sentinel `-1`; on the empty block the table of that range tracks no symbol,
the loop over the ranges stages no load and no spill and leaves the block empty, and
`AllocateRegisters` returns the empty block. -/
theorem AllocateRegisters_empty_block (d : SymbolDecls) (gpCount mdCount : Nat) :
    ComputeAllocationRanges ⟨[]⟩ = [(0, UINT_MAX)] ∧
    UINT_MAX = 2 ^ 32 - 1 ∧
    rangeRegAllocs d gpCount mdCount ⟨[]⟩ (0, UINT_MAX) = [] ∧
    allocateRanges d gpCount mdCount ⟨[]⟩ = ⟨⟨[]⟩, [], []⟩ ∧
    AllocateRegisters d gpCount mdCount ⟨[]⟩ = ⟨[]⟩ := by
  have hT : rangeRegAllocs d gpCount mdCount ⟨[]⟩ (0, UINT_MAX) = [] :=
    rangeRegAllocs_of_nil d gpCount mdCount ⟨[]⟩ (0, UINT_MAX) rfl
  have hR : ComputeAllocationRanges ⟨[]⟩ = [(0, UINT_MAX)] := by decide
  have hA : allocateRanges d gpCount mdCount ⟨[]⟩ = ⟨⟨[]⟩, [], []⟩ := by
    unfold allocateRanges
    rw [hR]
    simp only [List.foldl_cons, List.foldl_nil]
    unfold allocateRange
    simp only [hT]
    rfl
  refine ⟨hR, by decide, hT, hA, ?_⟩
  unfold AllocateRegisters
  rw [hA]
  rfl

/-! ## Theorems: the register kind, the pool and the index of an assignment -/

theorem selectRegisters_kinds (k : SYM_TYPE) :
    (k ∈ [SYM_RELATIVE, SYM_TEMPORARY] ↔
      selectRegisters k = (some RegisterPool.GP, SYM_REGISTER)) ∧
    (k ∈ [SYM_REL_REFERENCE, SYM_TMP_REFERENCE] ↔
      selectRegisters k = (some RegisterPool.GP, SYM_REG_REFERENCE)) ∧
    (k ∈ [SYM_FP_RELATIVE32, SYM_FP_TEMPORARY32] ↔
      selectRegisters k = (some RegisterPool.MD, SYM_FP_REGISTER32)) ∧
    (k ∈ [SYM_RELATIVE128, SYM_TEMPORARY128] ↔
      selectRegisters k = (some RegisterPool.MD, SYM_REGISTER128)) := by
  cases k <;> simp [selectRegisters]

theorem selectRegisters_pool_type (k : SYM_TYPE) (pool : RegisterPool)
    (h : (selectRegisters k).1 = some pool) :
    match pool with
    | RegisterPool.GP => (selectRegisters k).2 ∈ [SYM_REGISTER, SYM_REG_REFERENCE]
    | RegisterPool.MD => (selectRegisters k).2 ∈ [SYM_FP_REGISTER32, SYM_REGISTER128] := by
  cases k <;> cases pool <;> simp [selectRegisters] at h ⊢

theorem assignedRegister_spec (l : List (CSymbol × SYMBOL_REGALLOCINFO)) (g m : Nat)
    (symbol : CSymbol) (x : SYM_TYPE × Nat) (h : assignedRegister l g m symbol = some x) :
    x.1 = (selectRegisters symbol.m_type).2 ∧
    ∃ pool, (selectRegisters symbol.m_type).1 = some pool ∧ x.2 < poolSize pool g m := by
  induction l generalizing g m with
  | nil => cases h
  | cons p rest ih =>
    rcases hsel : selectRegisters p.1.m_type with ⟨pool, rt⟩
    rcases pool with _ | pool
    · simp only [assignedRegister, hsel] at h
      exact ih g m h
    · cases pool with
      | GP =>
        simp only [assignedRegister, hsel] at h
        split at h
        · exact ih g m h
        · split at h
          · rename_i hg hp
            cases h
            rw [← hp, hsel]
            exact ⟨rfl, RegisterPool.GP, rfl, by show g - 1 < g; omega⟩
          · obtain ⟨h1, pool, h2, h3⟩ := ih (g - 1) m h
            refine ⟨h1, pool, h2, ?_⟩
            cases pool <;> simp only [poolSize] at h3 ⊢ <;> omega
      | MD =>
        simp only [assignedRegister, hsel] at h
        split at h
        · exact ih g m h
        · split at h
          · rename_i hg hp
            cases h
            rw [← hp, hsel]
            exact ⟨rfl, RegisterPool.MD, rfl, by show m - 1 < m; omega⟩
          · obtain ⟨h1, pool, h2, h3⟩ := ih g (m - 1) h
            refine ⟨h1, pool, h2, ?_⟩
            cases pool <;> simp only [poolSize] at h3 ⊢ <;> omega

theorem associate_mem (d : SymbolDecls) (gpCount mdCount : Nat) (t : SymbolRegAllocInfo)
    (hnd : (t.map Prod.fst).Nodup) (hinit : ∀ p ∈ t, p.2.registerId = UINT_MAX)
    (q : CSymbol × SYMBOL_REGALLOCINFO)
    (hq : q ∈ AssociateSymbolsToRegisters d gpCount mdCount t)
    (hreg : q.2.registerId ≠ UINT_MAX) :
    assignedRegister (sortedCandidates d t) gpCount mdCount q.1 =
      some (q.2.registerType, q.2.registerId) := by
  rw [associate_eq_map d gpCount mdCount t hnd] at hq
  obtain ⟨p, hp, rfl⟩ := List.mem_map.1 hq
  cases hx : assignedRegister (sortedCandidates d t) gpCount mdCount p.1 with
  | none =>
    rw [hx] at hreg
    exact absurd (hinit p hp) hreg
  | some x =>
    simp [applyAssigned, hx]

/-- Claim C11: the dispatch of the assignment loop sends `Relative`/`Temporary` to the
general-purpose vector with `Register`, `RelReference`/`TmpReference` to the general-purpose
vector with `RegReference`, `FpRelative32`/`FpTemporary32` to the multimedia vector with
`FpRegister32` and `Relative128`/`Temporary128` to the multimedia vector with `Register128`;
accordingly a symbol that received a register has the register kind of its kind and an index
of its pool, and with no multimedia register no `Fp*`/128-bit symbol is allocated, with no
general-purpose register no `Relative`/`Temporary`/reference symbol is. -/
theorem AssociateSymbolsToRegisters_kind_dispatch (d : SymbolDecls) (gpCount mdCount : Nat)
    (t : SymbolRegAllocInfo) (hnd : (t.map Prod.fst).Nodup)
    (hinit : ∀ p ∈ t, p.2.registerId = UINT_MAX) :
    (∀ k : SYM_TYPE,
      (k ∈ [SYM_RELATIVE, SYM_TEMPORARY] ↔
        selectRegisters k = (some RegisterPool.GP, SYM_REGISTER)) ∧
      (k ∈ [SYM_REL_REFERENCE, SYM_TMP_REFERENCE] ↔
        selectRegisters k = (some RegisterPool.GP, SYM_REG_REFERENCE)) ∧
      (k ∈ [SYM_FP_RELATIVE32, SYM_FP_TEMPORARY32] ↔
        selectRegisters k = (some RegisterPool.MD, SYM_FP_REGISTER32)) ∧
      (k ∈ [SYM_RELATIVE128, SYM_TEMPORARY128] ↔
        selectRegisters k = (some RegisterPool.MD, SYM_REGISTER128))) ∧
    (∀ p ∈ AssociateSymbolsToRegisters d gpCount mdCount t, p.2.registerId ≠ UINT_MAX →
      (p.1.m_type ∈ [SYM_RELATIVE, SYM_TEMPORARY] →
        p.2.registerType = SYM_REGISTER ∧ p.2.registerId < gpCount) ∧
      (p.1.m_type ∈ [SYM_REL_REFERENCE, SYM_TMP_REFERENCE] →
        p.2.registerType = SYM_REG_REFERENCE ∧ p.2.registerId < gpCount) ∧
      (p.1.m_type ∈ [SYM_FP_RELATIVE32, SYM_FP_TEMPORARY32] →
        p.2.registerType = SYM_FP_REGISTER32 ∧ p.2.registerId < mdCount) ∧
      (p.1.m_type ∈ [SYM_RELATIVE128, SYM_TEMPORARY128] →
        p.2.registerType = SYM_REGISTER128 ∧ p.2.registerId < mdCount)) ∧
    (mdCount = 0 → ∀ p ∈ AssociateSymbolsToRegisters d gpCount mdCount t,
      p.1.m_type ∈ [SYM_FP_RELATIVE32, SYM_FP_TEMPORARY32, SYM_RELATIVE128,
        SYM_TEMPORARY128] → p.2.registerId = UINT_MAX) ∧
    (gpCount = 0 → ∀ p ∈ AssociateSymbolsToRegisters d gpCount mdCount t,
      p.1.m_type ∈ [SYM_RELATIVE, SYM_TEMPORARY, SYM_REL_REFERENCE, SYM_TMP_REFERENCE] →
      p.2.registerId = UINT_MAX) := by
  have key : ∀ p ∈ AssociateSymbolsToRegisters d gpCount mdCount t,
      p.2.registerId ≠ UINT_MAX → ∀ pool rt, selectRegisters p.1.m_type = (some pool, rt) →
      p.2.registerType = rt ∧ p.2.registerId < poolSize pool gpCount mdCount := by
    intro p hp hreg pool rt hsel
    have hx := associate_mem d gpCount mdCount t hnd hinit p hp hreg
    obtain ⟨h1, pool', h2, h3⟩ := assignedRegister_spec _ _ _ _ _ hx
    rw [hsel] at h1 h2
    simp only [Option.some.injEq] at h2
    rw [← h2] at h3
    exact ⟨h1, h3⟩
  refine ⟨selectRegisters_kinds, ?_, ?_, ?_⟩
  · intro p hp hreg
    have hk := selectRegisters_kinds p.1.m_type
    refine ⟨fun h => ?_, fun h => ?_, fun h => ?_, fun h => ?_⟩
    · exact key p hp hreg _ _ (hk.1.1 h)
    · exact key p hp hreg _ _ (hk.2.1.1 h)
    · exact key p hp hreg _ _ (hk.2.2.1.1 h)
    · exact key p hp hreg _ _ (hk.2.2.2.1 h)
  · intro hm p hp hkind
    by_contra hreg
    have hk := selectRegisters_kinds p.1.m_type
    have hcases : p.1.m_type ∈ [SYM_FP_RELATIVE32, SYM_FP_TEMPORARY32] ∨
        p.1.m_type ∈ [SYM_RELATIVE128, SYM_TEMPORARY128] := by
      simp only [List.mem_cons, List.mem_singleton, List.not_mem_nil, or_false] at hkind ⊢
      tauto
    rcases hcases with h | h
    · have := (key p hp hreg _ _ (hk.2.2.1.1 h)).2
      simp only [poolSize] at this
      omega
    · have := (key p hp hreg _ _ (hk.2.2.2.1 h)).2
      simp only [poolSize] at this
      omega
  · intro hg p hp hkind
    by_contra hreg
    have hk := selectRegisters_kinds p.1.m_type
    have hcases : p.1.m_type ∈ [SYM_RELATIVE, SYM_TEMPORARY] ∨
        p.1.m_type ∈ [SYM_REL_REFERENCE, SYM_TMP_REFERENCE] := by
      simp only [List.mem_cons, List.mem_singleton, List.not_mem_nil, or_false] at hkind ⊢
      tauto
    rcases hcases with h | h
    · have := (key p hp hreg _ _ (hk.1.1 h)).2
      simp only [poolSize] at this
      omega
    · have := (key p hp hreg _ _ (hk.2.1.1 h)).2
      simp only [poolSize] at this
      omega

theorem AssociateSymbolsToRegisters_kind_dispatch_witness :
    (mixedTable.map Prod.fst).Nodup ∧
    (∀ p ∈ mixedTable, p.2.registerId = UINT_MAX) ∧
    (∀ p ∈ AssociateSymbolsToRegisters exampleDecls 3 0 mixedTable,
      p.1.m_type ∈ [SYM_FP_RELATIVE32, SYM_FP_TEMPORARY32, SYM_RELATIVE128,
        SYM_TEMPORARY128] → p.2.registerId = UINT_MAX) :=
  ⟨by decide, by decide,
    (AssociateSymbolsToRegisters_kind_dispatch exampleDecls 3 0 mixedTable
      (by decide) (by decide)).2.2.1 rfl⟩

theorem filter_getElem?_cons_pos {α : Type} (f : α → Bool) (q : α) (rest : List α) (i : Nat)
    (h : f q = true) :
    ((q :: rest).filter f)[i]? =
      match i with
      | 0 => some q
      | j + 1 => (rest.filter f)[j]? := by
  rw [List.filter_cons, if_pos h]
  cases i <;> simp

theorem assignedRegister_rank (pool : RegisterPool)
    (l : List (CSymbol × SYMBOL_REGALLOCINFO)) (g m : Nat) (hnd : (l.map Prod.fst).Nodup)
    (i : Nat) (p : CSymbol × SYMBOL_REGALLOCINFO)
    (hp : (l.filter (drawsFrom pool))[i]? = some p) :
    assignedRegister l g m p.1 =
      if i < poolSize pool g m then
        some ((selectRegisters p.1.m_type).2, poolSize pool g m - 1 - i)
      else none := by
  induction l generalizing g m i with
  | nil => simp at hp
  | cons q rest ih =>
    simp only [List.map_cons, List.nodup_cons] at hnd
    have hmem_rest : ∀ j : Nat, (rest.filter (drawsFrom pool))[j]? = some p → ¬ q.1 = p.1 := by
      intro j hj e
      have hp' : p ∈ rest := (List.mem_filter.1 (List.getElem?_mem hj)).1
      exact hnd.1 (e ▸ List.mem_map_of_mem Prod.fst hp')
    by_cases hq : drawsFrom pool q = true
    · rw [filter_getElem?_cons_pos _ _ _ _ hq] at hp
      cases i with
      | zero =>
        simp only [Option.some.injEq] at hp
        rw [← hp, assignedRegister_cons_self q rest g m hnd.1]
        cases pool with
        | GP =>
          simp only [hq, if_true, poolSize]
          by_cases hg : g = 0
          · simp [hg]
          · have : 0 < g := by omega
            simp [hg, this]
        | MD =>
          have hgp : drawsFrom RegisterPool.GP q = false := by
            cases h : drawsFrom RegisterPool.GP q with
            | false => rfl
            | true => rw [drawsFrom_exclusive q h] at hq; cases hq
          simp only [hq, hgp, Bool.false_eq_true, if_false, if_true, poolSize]
          by_cases hg : m = 0
          · simp [hg]
          · have : 0 < m := by omega
            simp [hg, this]
      | succ j =>
        simp only at hp
        rw [assignedRegister_cons_ne q rest g m p.1 (hmem_rest j hp), ih _ _ hnd.2 j hp]
        cases pool with
        | GP =>
          have hmd := drawsFrom_exclusive q hq
          simp only [hq, hmd, if_true, Bool.false_eq_true, if_false, poolSize]
          by_cases h1 : j + 1 < g
          · have h2 : j < g - 1 := by omega
            have h3 : g - 1 - 1 - j = g - 1 - (j + 1) := by omega
            simp [h1, h2, h3]
          · have h2 : ¬ j < g - 1 := by omega
            simp [h1, h2]
        | MD =>
          have hgp : drawsFrom RegisterPool.GP q = false := by
            cases h : drawsFrom RegisterPool.GP q with
            | false => rfl
            | true => rw [drawsFrom_exclusive q h] at hq; cases hq
          simp only [hq, hgp, if_true, Bool.false_eq_true, if_false, poolSize]
          by_cases h1 : j + 1 < m
          · have h2 : j < m - 1 := by omega
            have h3 : m - 1 - 1 - j = m - 1 - (j + 1) := by omega
            simp [h1, h2, h3]
          · have h2 : ¬ j < m - 1 := by omega
            simp [h1, h2]
    · have hq' : drawsFrom pool q = false := by simpa using hq
      have hf : (q :: rest).filter (drawsFrom pool) = rest.filter (drawsFrom pool) := by
        rw [List.filter_cons, hq']; rfl
      rw [hf] at hp
      rw [assignedRegister_cons_ne q rest g m p.1 (hmem_rest i hp), ih _ _ hnd.2 i hp]
      have hsize : poolSize pool
          (if drawsFrom RegisterPool.GP q = true then g - 1 else g)
          (if drawsFrom RegisterPool.MD q = true then m - 1 else m) = poolSize pool g m := by
        cases pool with
        | GP => simp [poolSize, hq']
        | MD => simp [poolSize, hq']
      rw [hsize]

/-- Claim C19: `AssociateSymbolsToRegisters` hands out the indices of a pool from its tail.
For every vector `sortedSymbols` that `std::sort` can leave (a permutation of the candidates
in which no element ranks before an earlier one; tied candidates may stand in any order), the
candidate that is `i`-th (from 0) in that vector among the candidates that draw from a pool
of size `P` receives `registerId = P - 1 - i` when `i < P` and keeps `registerId = -1` when
`i >= P`; the candidates of both register kinds of a pool are counted together. When no two
distinct candidates are tied the vector is unique. The sort of the model yields one such
vector, and the model of the function is the assignment loop on it. -/
theorem AssociateSymbolsToRegisters_ids_from_tail (d : SymbolDecls) (gpCount mdCount : Nat)
    (t : SymbolRegAllocInfo) (pool : RegisterPool) (hnd : (t.map Prod.fst).Nodup)
    (hinit : ∀ p ∈ t, p.2.registerId = UINT_MAX)
    (sortedSymbols : List (CSymbol × SYMBOL_REGALLOCINFO))
    (hsort : isSortOutcome d t sortedSymbols)
    (i : Nat) (p : CSymbol × SYMBOL_REGALLOCINFO)
    (hp : (sortedSymbols.filter (drawsFrom pool))[i]? = some p) :
    (regAllocFind (assignSortedSymbols gpCount mdCount sortedSymbols t) p.1).map
        (fun r => r.registerId) =
      some (if i < poolSize pool gpCount mdCount then poolSize pool gpCount mdCount - 1 - i
        else UINT_MAX) ∧
    ((∀ a ∈ t, ∀ b ∈ t,
        isRegisterAllocatable a.1.m_type = true → a.2.aliased = false →
        isRegisterAllocatable b.1.m_type = true → b.2.aliased = false →
        a.2.useCount = b.2.useCount → a.1.m_type = b.1.m_type →
        a.1.m_valueLow = b.1.m_valueLow → a.1 = b.1) →
      sortedSymbols = sortedCandidates d t) ∧
    isSortOutcome d t (sortedCandidates d t) ∧
    AssociateSymbolsToRegisters d gpCount mdCount t =
      assignSortedSymbols gpCount mdCount (sortedCandidates d t) t := by
  obtain ⟨hperm, hsorted⟩ := hsort
  have hcand : ∀ q, q ∈ sortedSymbols ↔
      (q ∈ t ∧ isRegisterAllocatable q.1.m_type = true ∧ q.2.aliased = false) := by
    intro q
    rw [hperm.mem_iff, List.mem_filter]
    simp
  have hSnd : (sortedSymbols.map Prod.fst).Nodup := by
    rw [(hperm.map Prod.fst).nodup_iff]
    exact (hnd.sublist ((List.filter_sublist t).map Prod.fst))
  refine ⟨?_, ?_, ⟨stdSort_perm d _, stdSort_sorted d _⟩, rfl⟩
  · have hrank := assignedRegister_rank pool sortedSymbols gpCount mdCount hSnd i p hp
    have hpt : p ∈ t := ((hcand p).1 (List.mem_filter.1 (List.getElem?_mem hp)).1).1
    have hA : assignSortedSymbols gpCount mdCount sortedSymbols t =
        t.map (fun pair =>
          applyAssigned (assignedRegister sortedSymbols gpCount mdCount pair.1) pair) :=
      assign_foldl sortedSymbols gpCount mdCount t hSnd
    have hAnd : ((assignSortedSymbols gpCount mdCount sortedSymbols t).map Prod.fst).Nodup := by
      rw [hA, List.map_map]
      have : (Prod.fst ∘ fun pair : CSymbol × SYMBOL_REGALLOCINFO =>
          applyAssigned (assignedRegister sortedSymbols gpCount mdCount pair.1) pair) =
          Prod.fst := by
        funext pair
        exact applyAssigned_fst _ pair
      rw [this]
      exact hnd
    have hmem : (p.1, (applyAssigned
        (assignedRegister sortedSymbols gpCount mdCount p.1) p).2) ∈
        assignSortedSymbols gpCount mdCount sortedSymbols t := by
      rw [hA]
      refine List.mem_map.2 ⟨p, hpt, ?_⟩
      exact Prod.ext (applyAssigned_fst _ p) rfl
    rw [(regAllocFind_eq_some_iff _ hAnd _ _).2 hmem, hrank]
    by_cases h : i < poolSize pool gpCount mdCount
    · simp [h, applyAssigned]
    · simp [h, applyAssigned, hinit p hpt]
  · intro hties
    apply sorted_perm_unique (fun a b => sortComparator d b a = false)
    · intro a ha b hb hab hba
      have hab' : sortComparator d b a = false := hab
      have hba' : sortComparator d a b = false := hba
      rw [sortComparator_false_iff] at hab' hba'
      have ma := (hcand a).1 ha
      have mb := (hcand b).1 hb
      have hu : a.2.useCount = b.2.useCount := by omega
      have hv : d.typeValue a.1.m_type = d.typeValue b.1.m_type := by omega
      have hl : a.1.m_valueLow = b.1.m_valueLow := by omega
      exact eq_of_mem_of_keys_nodup t hnd a b ma.1 mb.1
        (hties a ma.1 b mb.1 ma.2.1 ma.2.2 mb.2.1 mb.2.2 hu (d.typeValue_injective hv) hl)
    · exact hperm.trans (stdSort_perm d _).symm
    · exact hsorted
    · exact stdSort_sorted d _

theorem AssociateSymbolsToRegisters_ids_from_tail_witness :
    isSortOutcome exampleDecls tiedTable
      [(⟨SYM_RELATIVE, 8, 1⟩, { SYMBOL_REGALLOCINFO.init with useCount := 1, firstUse := 0 }),
       (⟨SYM_RELATIVE, 8, 0⟩, { SYMBOL_REGALLOCINFO.init with useCount := 1, firstUse := 0 })] ∧
    sortedCandidates exampleDecls tiedTable =
      [(⟨SYM_RELATIVE, 8, 0⟩, { SYMBOL_REGALLOCINFO.init with useCount := 1, firstUse := 0 }),
       (⟨SYM_RELATIVE, 8, 1⟩, { SYMBOL_REGALLOCINFO.init with useCount := 1, firstUse := 0 })] ∧
    (regAllocFind (assignSortedSymbols 1 0
        [(⟨SYM_RELATIVE, 8, 1⟩, { SYMBOL_REGALLOCINFO.init with useCount := 1, firstUse := 0 }),
         (⟨SYM_RELATIVE, 8, 0⟩, { SYMBOL_REGALLOCINFO.init with useCount := 1, firstUse := 0 })]
        tiedTable) ⟨SYM_RELATIVE, 8, 1⟩).map (fun r => r.registerId) = some 0 :=
  ⟨⟨by decide, by decide⟩, by decide,
    (AssociateSymbolsToRegisters_ids_from_tail exampleDecls 1 0 tiedTable RegisterPool.GP
      (by decide) (by decide)
      [(⟨SYM_RELATIVE, 8, 1⟩, { SYMBOL_REGALLOCINFO.init with useCount := 1, firstUse := 0 }),
       (⟨SYM_RELATIVE, 8, 0⟩, { SYMBOL_REGALLOCINFO.init with useCount := 1, firstUse := 0 })]
      ⟨by decide, by decide⟩ 0
      (⟨SYM_RELATIVE, 8, 1⟩, { SYMBOL_REGALLOCINFO.init with useCount := 1, firstUse := 0 })
      (by decide)).1⟩

theorem drawsFrom_iff (pool : RegisterPool) (p : CSymbol × SYMBOL_REGALLOCINFO) :
    drawsFrom pool p = true ↔ (selectRegisters p.1.m_type).1 = some pool := by
  unfold drawsFrom
  exact beq_iff_eq

theorem assignedRegister_cons_self_pool (pool : RegisterPool)
    (p : CSymbol × SYMBOL_REGALLOCINFO) (rest : List (CSymbol × SYMBOL_REGALLOCINFO))
    (g m : Nat) (hnot : p.1 ∉ rest.map Prod.fst) (hp : drawsFrom pool p = true) :
    assignedRegister (p :: rest) g m p.1 =
      if poolSize pool g m = 0 then none
      else some ((selectRegisters p.1.m_type).2, poolSize pool g m - 1) := by
  rw [assignedRegister_cons_self p rest g m hnot]
  cases pool with
  | GP => simp only [hp, if_true, poolSize]
  | MD =>
    have hgp : drawsFrom RegisterPool.GP p = false := by
      cases h : drawsFrom RegisterPool.GP p with
      | false => rfl
      | true => rw [drawsFrom_exclusive p h] at hp; cases hp
    simp only [hp, hgp, Bool.false_eq_true, if_false, if_true, poolSize]

theorem assignedRegister_cons_ne_pool (pool : RegisterPool)
    (p : CSymbol × SYMBOL_REGALLOCINFO) (rest : List (CSymbol × SYMBOL_REGALLOCINFO))
    (g m : Nat) (symbol : CSymbol) (hne : ¬ p.1 = symbol) :
    ∃ g' m', assignedRegister (p :: rest) g m symbol = assignedRegister rest g' m' symbol ∧
      poolSize pool g' m' =
        poolSize pool g m - (if drawsFrom pool p = true then 1 else 0) := by
  refine ⟨_, _, assignedRegister_cons_ne p rest g m symbol hne, ?_⟩
  cases pool with
  | GP =>
    simp only [poolSize]
    split <;> rfl
  | MD =>
    simp only [poolSize]
    split <;> rfl

theorem assignedRegister_lt_pool (pool : RegisterPool)
    (l : List (CSymbol × SYMBOL_REGALLOCINFO)) (g m : Nat) (symbol : CSymbol)
    (x : SYM_TYPE × Nat) (h : assignedRegister l g m symbol = some x)
    (hpool : (selectRegisters symbol.m_type).1 = some pool) :
    x.2 < poolSize pool g m := by
  obtain ⟨_, pool', h2, h3⟩ := assignedRegister_spec l g m symbol x h
  rw [hpool] at h2
  simp only [Option.some.injEq] at h2
  rw [h2]
  exact h3

theorem assignedRegister_distinct (pool : RegisterPool)
    (l : List (CSymbol × SYMBOL_REGALLOCINFO)) (g m : Nat) (hnd : (l.map Prod.fst).Nodup)
    (a b : CSymbol) (x y : SYM_TYPE × Nat) (hab : a ≠ b)
    (ha : assignedRegister l g m a = some x) (hb : assignedRegister l g m b = some y)
    (hpa : (selectRegisters a.m_type).1 = some pool)
    (hpb : (selectRegisters b.m_type).1 = some pool) : x.2 ≠ y.2 := by
  induction l generalizing g m with
  | nil => cases ha
  | cons q rest ih =>
    simp only [List.map_cons, List.nodup_cons] at hnd
    by_cases hqa : q.1 = a
    · have hqb : ¬ q.1 = b := fun e => hab (hqa.symm.trans e)
      have hq : drawsFrom pool q = true := by
        rw [drawsFrom_iff, hqa]; exact hpa
      obtain ⟨g', m', he, hsize⟩ := assignedRegister_cons_ne_pool pool q rest g m b hqb
      rw [he] at hb
      have hy := assignedRegister_lt_pool pool rest g' m' b y hb hpb
      rw [← hqa, assignedRegister_cons_self_pool pool q rest g m hnd.1 hq] at ha
      split at ha
      · cases ha
      · cases ha
        simp only [hq, if_true] at hsize
        show poolSize pool g m - 1 ≠ y.2
        omega
    · by_cases hqb : q.1 = b
      · have hq : drawsFrom pool q = true := by
          rw [drawsFrom_iff, hqb]; exact hpb
        obtain ⟨g', m', he, hsize⟩ := assignedRegister_cons_ne_pool pool q rest g m a hqa
        rw [he] at ha
        have hx := assignedRegister_lt_pool pool rest g' m' a x ha hpa
        rw [← hqb, assignedRegister_cons_self_pool pool q rest g m hnd.1 hq] at hb
        split at hb
        · cases hb
        · cases hb
          simp only [hq, if_true] at hsize
          show x.2 ≠ poolSize pool g m - 1
          omega
      · rw [assignedRegister_cons_ne q rest g m a hqa] at ha
        rw [assignedRegister_cons_ne q rest g m b hqb] at hb
        exact ih _ _ hnd.2 ha hb

theorem registerType_pool (k : SYM_TYPE) (pool : RegisterPool)
    (h : (selectRegisters k).1 = some pool) :
    ((selectRegisters k).2 ∈ [SYM_REGISTER, SYM_REG_REFERENCE] ↔ pool = RegisterPool.GP) ∧
    ((selectRegisters k).2 ∈ [SYM_FP_REGISTER32, SYM_REGISTER128] ↔
      pool = RegisterPool.MD) := by
  cases k <;> cases pool <;> simp [selectRegisters] at h ⊢

/-- Claim C20: within one range no physical register is shared: after
`AssociateSymbolsToRegisters` two distinct symbols that both have `registerId != -1` and whose
register kinds belong to the same pool (`Register` or `RegReference` for the general-purpose
one, `FpRegister32` or `Register128` for the multimedia one) have different `registerId`s,
and every assigned `registerId` is of one of these four kinds and smaller than the size of
its pool. -/
theorem AssociateSymbolsToRegisters_no_sharing (d : SymbolDecls) (gpCount mdCount : Nat)
    (t : SymbolRegAllocInfo) (hnd : (t.map Prod.fst).Nodup)
    (hinit : ∀ p ∈ t, p.2.registerId = UINT_MAX) :
    (∀ a ∈ AssociateSymbolsToRegisters d gpCount mdCount t,
      ∀ b ∈ AssociateSymbolsToRegisters d gpCount mdCount t,
      a.1 ≠ b.1 → a.2.registerId ≠ UINT_MAX → b.2.registerId ≠ UINT_MAX →
      ((a.2.registerType ∈ [SYM_REGISTER, SYM_REG_REFERENCE] ∧
          b.2.registerType ∈ [SYM_REGISTER, SYM_REG_REFERENCE]) ∨
        (a.2.registerType ∈ [SYM_FP_REGISTER32, SYM_REGISTER128] ∧
          b.2.registerType ∈ [SYM_FP_REGISTER32, SYM_REGISTER128])) →
      a.2.registerId ≠ b.2.registerId) ∧
    (∀ a ∈ AssociateSymbolsToRegisters d gpCount mdCount t, a.2.registerId ≠ UINT_MAX →
      (a.2.registerType ∈ [SYM_REGISTER, SYM_REG_REFERENCE] ∧ a.2.registerId < gpCount) ∨
      (a.2.registerType ∈ [SYM_FP_REGISTER32, SYM_REGISTER128] ∧
        a.2.registerId < mdCount)) := by
  have hSnd : ((sortedCandidates d t).map Prod.fst).Nodup := candidates_keys_nodup d t hnd _
  have info : ∀ a ∈ AssociateSymbolsToRegisters d gpCount mdCount t,
      a.2.registerId ≠ UINT_MAX →
      assignedRegister (sortedCandidates d t) gpCount mdCount a.1 =
        some (a.2.registerType, a.2.registerId) ∧
      ∃ pool, (selectRegisters a.1.m_type).1 = some pool ∧
        a.2.registerId < poolSize pool gpCount mdCount ∧
        (a.2.registerType ∈ [SYM_REGISTER, SYM_REG_REFERENCE] ↔ pool = RegisterPool.GP) ∧
        (a.2.registerType ∈ [SYM_FP_REGISTER32, SYM_REGISTER128] ↔
          pool = RegisterPool.MD) := by
    intro a ha hreg
    have hx := associate_mem d gpCount mdCount t hnd hinit a ha hreg
    obtain ⟨h1, pool, h2, h3⟩ := assignedRegister_spec _ _ _ _ _ hx
    have hrt : a.2.registerType = (selectRegisters a.1.m_type).2 := h1
    have := registerType_pool a.1.m_type pool h2
    rw [← hrt] at this
    exact ⟨hx, pool, h2, h3, this.1, this.2⟩
  constructor
  · intro a ha b hb hab hra hrb hsame
    obtain ⟨hxa, pa, hpa, _, hga, hma⟩ := info a ha hra
    obtain ⟨hxb, pb, hpb, _, hgb, hmb⟩ := info b hb hrb
    have hpool : pa = pb := by
      rcases hsame with ⟨h1, h2⟩ | ⟨h1, h2⟩
      · rw [hga.1 h1, hgb.1 h2]
      · rw [hma.1 h1, hmb.1 h2]
    rw [← hpool] at hpb
    exact assignedRegister_distinct pa (sortedCandidates d t) gpCount mdCount hSnd a.1 b.1
      _ _ hab hxa hxb hpa hpb
  · intro a ha hreg
    obtain ⟨_, pool, _, hlt, hg, hm⟩ := info a ha hreg
    cases pool with
    | GP => exact Or.inl ⟨hg.2 rfl, hlt⟩
    | MD => exact Or.inr ⟨hm.2 rfl, hlt⟩

theorem AssociateSymbolsToRegisters_no_sharing_witness :
    (mixedTable.map Prod.fst).Nodup ∧
    (∀ p ∈ mixedTable, p.2.registerId = UINT_MAX) ∧
    (∀ a ∈ AssociateSymbolsToRegisters exampleDecls 2 2 mixedTable,
      ∀ b ∈ AssociateSymbolsToRegisters exampleDecls 2 2 mixedTable,
      a.1 ≠ b.1 → a.2.registerId ≠ UINT_MAX → b.2.registerId ≠ UINT_MAX →
      ((a.2.registerType ∈ [SYM_REGISTER, SYM_REG_REFERENCE] ∧
          b.2.registerType ∈ [SYM_REGISTER, SYM_REG_REFERENCE]) ∨
        (a.2.registerType ∈ [SYM_FP_REGISTER32, SYM_REGISTER128] ∧
          b.2.registerType ∈ [SYM_FP_REGISTER32, SYM_REGISTER128])) →
      a.2.registerId ≠ b.2.registerId) ∧
    (∀ a ∈ AssociateSymbolsToRegisters exampleDecls 2 2 mixedTable,
      a.2.registerId ≠ UINT_MAX →
      (a.2.registerType ∈ [SYM_REGISTER, SYM_REG_REFERENCE] ∧ a.2.registerId < 2) ∨
      (a.2.registerType ∈ [SYM_FP_REGISTER32, SYM_REGISTER128] ∧ a.2.registerId < 2)) :=
  ⟨by decide, by decide,
    AssociateSymbolsToRegisters_no_sharing exampleDecls 2 2 mixedTable
      (by decide) (by decide)⟩

/-! ## The commented-out multimap implementation against the active one -/

theorem selectEqualRange_of_selectRegisters (k : SYM_TYPE) :
    selectEqualRange k =
      (match (selectRegisters k).1 with
        | some RegisterPool.GP => some SYM_REGISTER
        | some RegisterPool.MD => some SYM_REGISTER128
        | none => none, (selectRegisters k).2) := by
  cases k <;> simp [selectRegisters, selectEqualRange]

theorem availableFrom_gp (a g b m : Nat) (hg : g ≠ 0) :
    availableFrom a g b m = (SYM_REGISTER, a) :: availableFrom (a + 1) (g - 1) b m := by
  obtain ⟨k, rfl⟩ := Nat.exists_eq_succ_of_ne_zero hg
  simp [availableFrom, List.range'_succ]

theorem availableFrom_md (a g b m : Nat) (hm : m ≠ 0) :
    availableFrom a g b m =
      (List.range' a g).map (fun i => (SYM_REGISTER, i)) ++
        (SYM_REGISTER128, b) :: availableFrom a 0 (b + 1) (m - 1) := by
  obtain ⟨k, rfl⟩ := Nat.exists_eq_succ_of_ne_zero hm
  simp [availableFrom, List.range'_succ]

theorem availableFrom_split (a g b m : Nat) :
    availableFrom a g b m =
      (List.range' a g).map (fun i => (SYM_REGISTER, i)) ++ availableFrom a 0 b m := by
  simp [availableFrom]

theorem multimapAssignStep_none (av : List (SYM_TYPE × Nat)) (t : SymbolRegAllocInfo)
    (p : CSymbol × SYMBOL_REGALLOCINFO) (h : (selectRegisters p.1.m_type).1 = none) :
    multimapAssignStep ⟨av, t⟩ p = ⟨av, t⟩ := by
  unfold multimapAssignStep
  dsimp only
  rw [selectEqualRange_of_selectRegisters, h]
  simp

theorem multimapAssignStep_gp_empty (b m : Nat) (a : Nat) (t : SymbolRegAllocInfo)
    (p : CSymbol × SYMBOL_REGALLOCINFO)
    (h : (selectRegisters p.1.m_type).1 = some RegisterPool.GP) :
    multimapAssignStep ⟨availableFrom a 0 b m, t⟩ p = ⟨availableFrom a 0 b m, t⟩ := by
  unfold multimapAssignStep
  dsimp only
  rw [selectEqualRange_of_selectRegisters, h]
  have hfind : (availableFrom a 0 b m).find? (fun r => decide (r.1 = SYM_REGISTER)) = none := by
    rw [List.find?_eq_none]
    intro x hx
    simp only [availableFrom, List.range'_zero, List.map_nil, List.nil_append,
      List.mem_map] at hx
    obtain ⟨i, _, rfl⟩ := hx
    simp
  simp only [hfind]
  split <;> rfl

theorem multimapAssignStep_gp (a g b m : Nat) (hg : g ≠ 0) (t : SymbolRegAllocInfo)
    (p : CSymbol × SYMBOL_REGALLOCINFO)
    (h : (selectRegisters p.1.m_type).1 = some RegisterPool.GP) :
    multimapAssignStep ⟨availableFrom a g b m, t⟩ p =
      ⟨availableFrom (a + 1) (g - 1) b m,
        setRegister t p.1 (selectRegisters p.1.m_type).2 a⟩ := by
  unfold multimapAssignStep
  dsimp only
  rw [selectEqualRange_of_selectRegisters, h, availableFrom_gp a g b m hg]
  simp

theorem multimapAssignStep_md_empty (a g b : Nat) (t : SymbolRegAllocInfo)
    (p : CSymbol × SYMBOL_REGALLOCINFO)
    (h : (selectRegisters p.1.m_type).1 = some RegisterPool.MD) :
    multimapAssignStep ⟨availableFrom a g b 0, t⟩ p = ⟨availableFrom a g b 0, t⟩ := by
  unfold multimapAssignStep
  dsimp only
  rw [selectEqualRange_of_selectRegisters, h]
  have hfind :
      (availableFrom a g b 0).find? (fun r => decide (r.1 = SYM_REGISTER128)) = none := by
    rw [List.find?_eq_none]
    intro x hx
    simp only [availableFrom, List.range'_zero, List.map_nil, List.append_nil,
      List.mem_map] at hx
    obtain ⟨i, _, rfl⟩ := hx
    simp
  simp only [hfind]
  split <;> rfl

theorem multimapAssignStep_md (a g b m : Nat) (hm : m ≠ 0) (t : SymbolRegAllocInfo)
    (p : CSymbol × SYMBOL_REGALLOCINFO)
    (h : (selectRegisters p.1.m_type).1 = some RegisterPool.MD) :
    multimapAssignStep ⟨availableFrom a g b m, t⟩ p =
      ⟨availableFrom a g (b + 1) (m - 1),
        setRegister t p.1 (selectRegisters p.1.m_type).2 b⟩ := by
  unfold multimapAssignStep
  dsimp only
  rw [selectEqualRange_of_selectRegisters, h, availableFrom_md a g b m hm]
  have hnot : (SYM_REGISTER128, b) ∉ (List.range' a g).map (fun i => (SYM_REGISTER, i)) := by
    simp
  have hfind : ((List.range' a g).map (fun i => (SYM_REGISTER, i)) ++
      (SYM_REGISTER128, b) :: availableFrom a 0 (b + 1) (m - 1)).find?
        (fun r => decide (r.1 = SYM_REGISTER128)) = some (SYM_REGISTER128, b) := by
    rw [List.find?_append]
    have : ((List.range' a g).map (fun i => (SYM_REGISTER, i))).find?
        (fun r => decide (r.1 = SYM_REGISTER128)) = none := by
      rw [List.find?_eq_none]
      intro x hx
      obtain ⟨i, _, rfl⟩ := List.mem_map.1 hx
      simp
    rw [this]
    simp
  simp only [hfind, List.erase_append_right _ hnot, List.erase_cons_head]
  rw [← availableFrom_split]
  simp

theorem assignedLowest_not_mem (l : List (CSymbol × SYMBOL_REGALLOCINFO)) (a g b m : Nat)
    (symbol : CSymbol) (h : symbol ∉ l.map Prod.fst) :
    assignedLowest l a g b m symbol = none := by
  induction l generalizing a g b m with
  | nil => rfl
  | cons p rest ih =>
    simp only [List.map_cons, List.mem_cons, not_or] at h
    have hne : ¬ p.1 = symbol := fun e => h.1 e.symm
    unfold assignedLowest
    split
    · split
      · exact ih _ _ _ _ h.2
      · exact ih _ _ _ _ h.2
    · split
      · exact ih _ _ _ _ h.2
      · exact ih _ _ _ _ h.2
    · exact ih _ _ _ _ h.2

theorem multimap_foldl (l : List (CSymbol × SYMBOL_REGALLOCINFO)) (a g b m : Nat)
    (t : SymbolRegAllocInfo) (hnd : (l.map Prod.fst).Nodup) :
    (l.foldl multimapAssignStep ⟨availableFrom a g b m, t⟩).symbolRegAllocs =
      t.map (fun pair => applyAssigned (assignedLowest l a g b m pair.1) pair) := by
  induction l generalizing a g b m t with
  | nil => simp [assignedLowest, applyAssigned]
  | cons p rest ih =>
    simp only [List.map_cons, List.nodup_cons] at hnd
    have hnone : ∀ a g b m, assignedLowest rest a g b m p.1 = none :=
      fun a g b m => assignedLowest_not_mem rest a g b m p.1 hnd.1
    rw [List.foldl_cons]
    rcases hsel : selectRegisters p.1.m_type with ⟨pool, rt⟩
    have hsel1 : (selectRegisters p.1.m_type).1 = pool := by rw [hsel]
    have hsel2 : (selectRegisters p.1.m_type).2 = rt := by rw [hsel]
    rcases pool with _ | pool
    · rw [multimapAssignStep_none _ _ _ hsel1, ih a g b m t hnd.2]
      apply List.map_congr_left
      intro pair _
      simp [assignedLowest, hsel]
    · cases pool with
      | GP =>
        by_cases hg : g = 0
        · subst hg
          rw [multimapAssignStep_gp_empty _ _ _ _ _ hsel1, ih a 0 b m t hnd.2]
          apply List.map_congr_left
          intro pair _
          simp [assignedLowest, hsel]
        · rw [multimapAssignStep_gp a g b m hg t p hsel1, hsel2,
            ih (a + 1) (g - 1) b m _ hnd.2, setRegister, List.map_map]
          apply List.map_congr_left
          intro pair _
          by_cases hp : pair.1 = p.1
          · simp [assignedLowest, hsel, hg, hp, hnone, applyAssigned]
          · have hp2 : ¬ p.1 = pair.1 := fun e => hp e.symm
            simp [assignedLowest, hsel, hg, hp, hp2]
      | MD =>
        by_cases hm : m = 0
        · subst hm
          rw [multimapAssignStep_md_empty _ _ _ _ _ hsel1, ih a g b 0 t hnd.2]
          apply List.map_congr_left
          intro pair _
          simp [assignedLowest, hsel]
        · rw [multimapAssignStep_md a g b m hm t p hsel1, hsel2,
            ih a g (b + 1) (m - 1) _ hnd.2, setRegister, List.map_map]
          apply List.map_congr_left
          intro pair _
          by_cases hp : pair.1 = p.1
          · simp [assignedLowest, hsel, hm, hp, hnone, applyAssigned]
          · have hp2 : ¬ p.1 = pair.1 := fun e => hp e.symm
            simp [assignedLowest, hsel, hm, hp, hp2]

theorem availableFrom_zero (g m : Nat) :
    (List.range g).map (fun i => (SYM_REGISTER, i)) ++
      (List.range m).map (fun i => (SYM_REGISTER128, i)) = availableFrom 0 g 0 m := by
  simp [availableFrom, List.range_eq_range']

theorem associateMultimap_eq_map (d : SymbolDecls) (gpCount mdCount : Nat)
    (t : SymbolRegAllocInfo) (hnd : (t.map Prod.fst).Nodup) :
    AssociateSymbolsToRegistersMultimap d gpCount mdCount t =
      t.map (fun pair => applyAssigned
        (assignedLowest (sortedCandidates d t) 0 gpCount 0 mdCount pair.1) pair) := by
  unfold AssociateSymbolsToRegistersMultimap
  dsimp only
  rw [availableFrom_zero]
  exact multimap_foldl _ 0 gpCount 0 mdCount t (candidates_keys_nodup d t hnd _)

theorem poolSizeOf_gp (rt : SYM_TYPE) (g m : Nat) (h : rt ∈ [SYM_REGISTER, SYM_REG_REFERENCE]) :
    poolSizeOf rt g m = g := by
  unfold poolSizeOf
  rw [if_pos h]

theorem poolSizeOf_md (rt : SYM_TYPE) (g m : Nat)
    (h : rt ∈ [SYM_FP_REGISTER32, SYM_REGISTER128]) : poolSizeOf rt g m = m := by
  unfold poolSizeOf
  have : ¬ rt ∈ [SYM_REGISTER, SYM_REG_REFERENCE] := by
    intro h2
    simp only [List.mem_cons, List.mem_singleton, List.mem_nil_iff, or_false] at h h2
    rcases h with rfl | rfl <;> rcases h2 with h2 | h2 <;> cases h2
  rw [if_neg this]

theorem assignedLowest_eq_mirror (l : List (CSymbol × SYMBOL_REGALLOCINFO)) (a g b m : Nat)
    (symbol : CSymbol) :
    assignedLowest l a g b m symbol =
      (assignedRegister l g m symbol).map
        (fun x => (x.1, poolSizeOf x.1 (a + g) (b + m) - 1 - x.2)) := by
  induction l generalizing a g b m with
  | nil => rfl
  | cons p rest ih =>
    rcases hsel : selectRegisters p.1.m_type with ⟨pool, rt⟩
    have hsel1 : (selectRegisters p.1.m_type).1 = pool := by rw [hsel]
    have hsel2 : (selectRegisters p.1.m_type).2 = rt := by rw [hsel]
    rcases pool with _ | pool
    · simp only [assignedLowest, assignedRegister, hsel]
      exact ih a g b m
    · cases pool with
      | GP =>
        have hrt : rt ∈ [SYM_REGISTER, SYM_REG_REFERENCE] := by
          have := selectRegisters_pool_type p.1.m_type RegisterPool.GP hsel1
          rw [hsel2] at this
          exact this
        simp only [assignedLowest, assignedRegister, hsel]
        by_cases hg : g = 0
        · simp only [hg, if_true]
          exact ih a 0 b m
        · simp only [hg, if_false]
          by_cases hp : p.1 = symbol
          · simp only [hp, if_true, Option.map_some', poolSizeOf_gp rt _ _ hrt]
            congr 2
            omega
          · simp only [hp, if_false]
            rw [ih (a + 1) (g - 1) b m]
            have : a + 1 + (g - 1) = a + g := by omega
            rw [this]
      | MD =>
        have hrt : rt ∈ [SYM_FP_REGISTER32, SYM_REGISTER128] := by
          have := selectRegisters_pool_type p.1.m_type RegisterPool.MD hsel1
          rw [hsel2] at this
          exact this
        simp only [assignedLowest, assignedRegister, hsel]
        by_cases hm : m = 0
        · simp only [hm, if_true]
          exact ih a g b 0
        · simp only [hm, if_false]
          by_cases hp : p.1 = symbol
          · simp only [hp, if_true, Option.map_some', poolSizeOf_md rt _ _ hrt]
            congr 2
            omega
          · simp only [hp, if_false]
            rw [ih a g (b + 1) (m - 1)]
            have : b + 1 + (m - 1) = b + m := by omega
            rw [this]

theorem assignedRegister_lt_poolSizeOf (l : List (CSymbol × SYMBOL_REGALLOCINFO)) (g m : Nat)
    (symbol : CSymbol) (x : SYM_TYPE × Nat) (h : assignedRegister l g m symbol = some x) :
    x.2 < poolSizeOf x.1 g m := by
  obtain ⟨h1, pool, h2, h3⟩ := assignedRegister_spec l g m symbol x h
  have hk := selectRegisters_pool_type symbol.m_type pool h2
  rw [← h1] at hk
  cases pool with
  | GP => rw [poolSizeOf_gp x.1 g m hk]; exact h3
  | MD => rw [poolSizeOf_md x.1 g m hk]; exact h3

theorem poolSizeOf_le (rt : SYM_TYPE) (g m k : Nat) (hg : g ≤ k) (hm : m ≤ k) :
    poolSizeOf rt g m ≤ k := by
  unfold poolSizeOf
  split
  · exact hg
  · exact hm

/-- Claim C16 (as amended): on a per-range table with pairwise different symbols and fresh
records, and with register counts that fit an `unsigned int`, the active split-pool
`AssociateSymbolsToRegisters` and the commented-out multimap implementation leave the same
symbols in the same order, every symbol with the same liveness fields, the same `aliased`
flag and the same `registerType`, and a symbol has a register after the one exactly when it
has a register after the other; the two `registerId`s of such a symbol mirror each other in
the pool (their sum is the pool size minus one), because the active implementation takes the
highest index left and the commented-out one the lowest. With at most one register in each
pool the two results are equal. -/
theorem AssociateSymbolsToRegisters_multimap_mirrored (d : SymbolDecls)
    (gpCount mdCount : Nat) (t : SymbolRegAllocInfo) (hnd : (t.map Prod.fst).Nodup)
    (hinit : ∀ p ∈ t, p.2.registerId = UINT_MAX)
    (hgp : gpCount ≤ UINT_MAX) (hmd : mdCount ≤ UINT_MAX) :
    List.Forall₂ (mirrored gpCount mdCount)
      (AssociateSymbolsToRegisters d gpCount mdCount t)
      (AssociateSymbolsToRegistersMultimap d gpCount mdCount t) ∧
    (gpCount ≤ 1 → mdCount ≤ 1 →
      AssociateSymbolsToRegisters d gpCount mdCount t =
        AssociateSymbolsToRegistersMultimap d gpCount mdCount t) := by
  rw [associate_eq_map d gpCount mdCount t hnd, associateMultimap_eq_map d gpCount mdCount t hnd]
  constructor
  · rw [List.forall₂_map_left_iff, List.forall₂_map_right_iff, List.forall₂_same]
    intro pair hpair
    rw [assignedLowest_eq_mirror]
    simp only [Nat.zero_add]
    cases hx : assignedRegister (sortedCandidates d t) gpCount mdCount pair.1 with
    | none =>
      have := hinit pair hpair
      simp [applyAssigned, mirrored, this]
    | some x =>
      have hlt := assignedRegister_lt_poolSizeOf _ _ _ _ _ hx
      have hle := poolSizeOf_le x.1 gpCount mdCount UINT_MAX hgp hmd
      simp only [Option.map_some', applyAssigned, mirrored, true_and]
      refine ⟨?_, ?_⟩
      · constructor
        · intro h; omega
        · intro h; omega
      · intro _; omega
  · intro h1 h2
    apply List.map_congr_left
    intro pair _
    rw [assignedLowest_eq_mirror]
    simp only [Nat.zero_add]
    cases hx : assignedRegister (sortedCandidates d t) gpCount mdCount pair.1 with
    | none => rfl
    | some x =>
      have hlt := assignedRegister_lt_poolSizeOf _ _ _ _ _ hx
      have hle := poolSizeOf_le x.1 gpCount mdCount 1 h1 h2
      have e : poolSizeOf x.1 gpCount mdCount - 1 - x.2 = x.2 := by omega
      simp only [Option.map_some', e]

theorem AssociateSymbolsToRegisters_multimap_mirrored_witness :
    List.Forall₂ (mirrored 3 2)
      (AssociateSymbolsToRegisters exampleDecls 3 2 mixedTable)
      (AssociateSymbolsToRegistersMultimap exampleDecls 3 2 mixedTable) :=
  (AssociateSymbolsToRegisters_multimap_mirrored exampleDecls 3 2 mixedTable
    (by decide) (by decide) (by decide) (by decide)).1

/-- Claim C16, counterexample: one relative symbol and two general-purpose registers. The
active implementation pops the back of its vector and gives the symbol register 1; the
commented-out implementation takes the first pair of the key in its multimap and gives it
register 0. -/
theorem AssociateSymbolsToRegisters_multimap_differs :
    (regAllocFind (AssociateSymbolsToRegisters exampleDecls 2 0 twoSymbolTable)
        ⟨SYM_RELATIVE, 0, 0⟩).map (fun r => (r.registerType, r.registerId)) =
      some (SYM_REGISTER, 1) ∧
    (regAllocFind (AssociateSymbolsToRegistersMultimap exampleDecls 2 0 twoSymbolTable)
        ⟨SYM_RELATIVE, 0, 0⟩).map (fun r => (r.registerType, r.registerId)) =
      some (SYM_REGISTER, 0) ∧
    AssociateSymbolsToRegisters exampleDecls 2 0 twoSymbolTable ≠
      AssociateSymbolsToRegistersMultimap exampleDecls 2 0 twoSymbolTable := by
  decide

/-! ## ComputeLivenessForRange -/

theorem regAllocFind_update (t : SymbolRegAllocInfo) (s : CSymbol)
    (f : SYMBOL_REGALLOCINFO → SYMBOL_REGALLOCINFO) (k : CSymbol) :
    regAllocFind (regAllocUpdate t s f) k =
      if s = k then some (f ((regAllocFind t k).getD SYMBOL_REGALLOCINFO.init))
      else regAllocFind t k := by
  induction t with
  | nil =>
    by_cases h : s = k
    · simp [regAllocUpdate, regAllocFind, List.lookup, h]
    · have hb : (k == s) = false := by simpa using fun e : k = s => h e.symm
      simp [regAllocUpdate, regAllocFind, List.lookup, h, hb]
  | cons p rest ih =>
    obtain ⟨q, v⟩ := p
    unfold regAllocFind at ih ⊢
    unfold regAllocUpdate
    by_cases hq : q = s
    · simp only [hq, if_true]
      by_cases h : s = k
      · subst h
        simp [List.lookup_cons]
      · have hb : (k == s) = false := by simpa using fun e : k = s => h e.symm
        simp [List.lookup_cons, hb, h]
    · simp only [hq, if_false]
      rw [List.lookup_cons, List.lookup_cons, ih]
      by_cases hk : k = q
      · subst hk
        have : ¬ s = k := fun e => hq e.symm
        simp [this]
      · have hb : (k == q) = false := by simpa using hk
        simp only [hb]

theorem liveness_eq_events (basicBlock : BASIC_BLOCK) (allocRange : AllocationRange)
    (t : SymbolRegAllocInfo) :
    ComputeLivenessForRange basicBlock allocRange t =
      (livenessEvents basicBlock allocRange).foldl
        (fun t e => regAllocUpdate t e.2.2.GetSymbol (fun r => recordEvent r e)) t := by
  unfold ComputeLivenessForRange livenessEvents rangeStatements
  generalize basicBlock.statements.enum = l
  induction l generalizing t with
  | nil => rfl
  | cons si rest ih =>
    rw [List.foldl_cons, ih]
    by_cases h1 : si.1 < allocRange.1
    · have hr : inRange allocRange si.1 = false := by
        simp [inRange]; omega
      simp [h1, List.filter_cons, hr]
    · by_cases h2 : si.1 > allocRange.2
      · have hr : inRange allocRange si.1 = false := by
          simp [inRange]; omega
        simp [h1, h2, List.filter_cons, hr]
      · have hr : inRange allocRange si.1 = true := by
          simp [inRange]; omega
        simp only [h1, h2, if_false, List.filter_cons, hr, if_true, List.flatMap_cons,
          List.foldl_append, statementEvents, List.foldl_map]
        rfl

theorem regAllocFind_events (es : List LivenessEvent) (t : SymbolRegAllocInfo) (k : CSymbol) :
    regAllocFind (es.foldl
        (fun t e => regAllocUpdate t e.2.2.GetSymbol (fun r => recordEvent r e)) t) k =
      if es.filter (fun e => decide (e.2.2.GetSymbol = k)) = [] then regAllocFind t k
      else some ((es.filter (fun e => decide (e.2.2.GetSymbol = k))).foldl recordEvent
        ((regAllocFind t k).getD SYMBOL_REGALLOCINFO.init)) := by
  induction es generalizing t with
  | nil => simp
  | cons e rest ih =>
    rw [List.foldl_cons, ih, regAllocFind_update]
    by_cases he : e.2.2.GetSymbol = k
    · simp only [he, if_true, List.filter_cons, decide_True, Option.getD_some,
        List.foldl_cons]
      split
      · rename_i h; rw [h]; rfl
      · rfl
    · simp only [he, if_false, List.filter_cons, decide_False, Bool.false_eq_true]

theorem recordEvent_destination (r : SYMBOL_REGALLOCINFO) (i : Nat) (ref : CSymbolRef) :
    recordEvent r (i, true, ref) =
      { r with
        useCount := (r.useCount + 1) % 4294967296
        firstDef := if r.firstDef = UINT_MAX then i else r.firstDef
        lastDef := if r.lastDef = UINT_MAX ∨ i > r.lastDef then i else r.lastDef } := by
  unfold recordEvent
  dsimp only
  split_ifs <;> rfl

theorem recordEvent_source (r : SYMBOL_REGALLOCINFO) (i : Nat) (ref : CSymbolRef) :
    recordEvent r (i, false, ref) =
      { r with
        useCount := (r.useCount + 1) % 4294967296
        firstUse := if r.firstUse = UINT_MAX then i else r.firstUse
        lastUse := if r.lastUse = UINT_MAX ∨ i > r.lastUse then i else r.lastUse } := by
  unfold recordEvent
  dsimp only
  split_ifs <;> rfl

theorem head_getD_concat (D : List Nat) (i M : Nat) (h : ∀ d ∈ D, d ≠ M) :
    (D ++ [i]).head?.getD M = if D.head?.getD M = M then i else D.head?.getD M := by
  cases D with
  | nil => simp
  | cons d rest =>
    have := h d (List.mem_cons_self _ _)
    simp [this]

theorem getLast_getD_concat (D : List Nat) (i M : Nat) (h : ∀ d ∈ D, d ≤ i ∧ d ≠ M) :
    (D ++ [i]).getLast?.getD M =
      if D.getLast?.getD M = M ∨ i > D.getLast?.getD M then i else D.getLast?.getD M := by
  have hl : (D ++ [i]).getLast?.getD M = i := by simp
  rw [hl]
  split
  · rfl
  · rename_i hc
    rw [not_or] at hc
    cases hD : D.getLast? with
    | none => rw [hD] at hc; exact absurd rfl hc.1
    | some x =>
      rw [hD] at hc
      simp only [Option.getD_some] at hc ⊢
      have hx : x ∈ D := List.mem_of_getLast?_eq_some hD
      have := (h x hx).1
      omega

theorem mem_eventIndices (b : Bool) (es : List LivenessEvent) (d : Nat) :
    d ∈ eventIndices b es ↔ ∃ ref, (d, b, ref) ∈ es := by
  unfold eventIndices
  simp only [List.mem_map, List.mem_filter, beq_iff_eq]
  constructor
  · rintro ⟨⟨i, b', ref⟩, ⟨hmem, hb⟩, hd⟩
    simp only at hb hd
    subst hb; subst hd
    exact ⟨ref, hmem⟩
  · rintro ⟨ref, hmem⟩
    exact ⟨(d, b, ref), ⟨hmem, rfl⟩, rfl⟩

theorem recordEvent_fold (es : List LivenessEvent)
    (hs : es.Pairwise (fun a b => a.1 ≤ b.1)) (hlt : ∀ e ∈ es, e.1 < UINT_MAX) :
    (es.foldl recordEvent SYMBOL_REGALLOCINFO.init).useCount = es.length % 4294967296 ∧
    (es.foldl recordEvent SYMBOL_REGALLOCINFO.init).firstDef =
      (eventIndices true es).head?.getD UINT_MAX ∧
    (es.foldl recordEvent SYMBOL_REGALLOCINFO.init).lastDef =
      (eventIndices true es).getLast?.getD UINT_MAX ∧
    (es.foldl recordEvent SYMBOL_REGALLOCINFO.init).firstUse =
      (eventIndices false es).head?.getD UINT_MAX ∧
    (es.foldl recordEvent SYMBOL_REGALLOCINFO.init).lastUse =
      (eventIndices false es).getLast?.getD UINT_MAX ∧
    (es.foldl recordEvent SYMBOL_REGALLOCINFO.init).aliased = false ∧
    (es.foldl recordEvent SYMBOL_REGALLOCINFO.init).registerId = UINT_MAX := by
  induction es using List.reverseRecOn with
  | nil => simp [eventIndices, SYMBOL_REGALLOCINFO.init]
  | append_singleton l e ih =>
    rw [List.pairwise_append] at hs
    obtain ⟨hs1, _, hs3⟩ := hs
    have ih' := ih hs1 (fun e he => hlt e (List.mem_append_left _ he))
    rw [List.foldl_append]
    simp only [List.foldl_cons, List.foldl_nil]
    generalize l.foldl recordEvent SYMBOL_REGALLOCINFO.init = r at ih' ⊢
    obtain ⟨hc, hfd, hld, hfu, hlu, hal, hreg⟩ := ih'
    have hbound : ∀ b, ∀ d ∈ eventIndices b l, d ≤ e.1 ∧ d ≠ UINT_MAX := by
      intro b d hd
      obtain ⟨ref, hmem⟩ := (mem_eventIndices b l d).1 hd
      have h1 := hs3 _ hmem e (List.mem_singleton_self e)
      have h2 := hlt _ (List.mem_append_left _ hmem)
      exact ⟨h1, Nat.ne_of_lt h2⟩
    obtain ⟨i, b, ref⟩ := e
    cases b with
    | true =>
      have e1 : eventIndices true (l ++ [(i, true, ref)]) = eventIndices true l ++ [i] := by
        simp [eventIndices, List.filter_append]
      have e2 : eventIndices false (l ++ [(i, true, ref)]) = eventIndices false l := by
        simp [eventIndices, List.filter_append]
      rw [recordEvent_destination, e1, e2,
        head_getD_concat _ i UINT_MAX (fun d hd => (hbound true d hd).2),
        getLast_getD_concat _ i UINT_MAX (hbound true), ← hfd, ← hld]
      refine ⟨?_, rfl, rfl, hfu, hlu, hal, hreg⟩
      simp only [List.length_append, List.length_singleton]
      omega
    | false =>
      have e1 : eventIndices false (l ++ [(i, false, ref)]) = eventIndices false l ++ [i] := by
        simp [eventIndices, List.filter_append]
      have e2 : eventIndices true (l ++ [(i, false, ref)]) = eventIndices true l := by
        simp [eventIndices, List.filter_append]
      rw [recordEvent_source, e1, e2,
        head_getD_concat _ i UINT_MAX (fun d hd => (hbound false d hd).2),
        getLast_getD_concat _ i UINT_MAX (hbound false), ← hfu, ← hlu]
      refine ⟨?_, hfd, hld, rfl, rfl, hal, hreg⟩
      simp only [List.length_append, List.length_singleton]
      omega

theorem enumFrom_pairwise {α : Type} (k : Nat) (l : List α) :
    (l.enumFrom k).Pairwise (fun a b => a.1 < b.1) := by
  induction l generalizing k with
  | nil => exact List.Pairwise.nil
  | cons x rest ih =>
    rw [List.enumFrom_cons, List.pairwise_cons]
    refine ⟨?_, ih (k + 1)⟩
    intro b hb
    have := List.le_fst_of_mem_enumFrom hb
    show k < b.1
    omega

theorem statementEvents_fst (si : Nat × STATEMENT) (e : LivenessEvent)
    (h : e ∈ statementEvents si) : e.1 = si.1 := by
  unfold statementEvents at h
  rcases List.mem_append.1 h with h | h
  · obtain ⟨_, _, rfl⟩ := List.mem_map.1 h
    rfl
  · obtain ⟨_, _, rfl⟩ := List.mem_map.1 h
    rfl

theorem rangeStatements_pairwise (basicBlock : BASIC_BLOCK) (allocRange : AllocationRange) :
    (rangeStatements basicBlock allocRange).Pairwise (fun a b => a.1 < b.1) :=
  List.Pairwise.filter _ (enumFrom_pairwise 0 basicBlock.statements)

theorem livenessEvents_pairwise (basicBlock : BASIC_BLOCK) (allocRange : AllocationRange) :
    (livenessEvents basicBlock allocRange).Pairwise (fun a b => a.1 ≤ b.1) := by
  unfold livenessEvents
  rw [List.pairwise_flatMap]
  constructor
  · intro si _
    apply List.pairwise_of_forall_mem_list
    intro a ha b hb
    rw [statementEvents_fst si a ha, statementEvents_fst si b hb]
  · apply (rangeStatements_pairwise basicBlock allocRange).imp
    intro a b hab x hx y hy
    rw [statementEvents_fst a x hx, statementEvents_fst b y hy]
    exact Nat.le_of_lt hab

theorem mem_rangeStatements (basicBlock : BASIC_BLOCK) (allocRange : AllocationRange)
    (i : Nat) (s : STATEMENT) :
    (i, s) ∈ rangeStatements basicBlock allocRange ↔
      basicBlock.statements[i]? = some s ∧ allocRange.1 ≤ i ∧ i ≤ allocRange.2 := by
  unfold rangeStatements inRange
  rw [List.mem_filter, List.mk_mem_enum_iff_getElem?]
  simp

theorem livenessEvents_lt (basicBlock : BASIC_BLOCK) (allocRange : AllocationRange)
    (e : LivenessEvent) (he : e ∈ livenessEvents basicBlock allocRange) :
    e.1 < basicBlock.statements.length := by
  unfold livenessEvents at he
  obtain ⟨si, hsi, hmem⟩ := List.mem_flatMap.1 he
  rw [statementEvents_fst si e hmem]
  unfold rangeStatements at hsi
  exact List.fst_lt_of_mem_enum (List.mem_filter.1 hsi).1

theorem mem_symbolEvents (basicBlock : BASIC_BLOCK) (allocRange : AllocationRange)
    (symbol : CSymbol) (i : Nat) (b : Bool) (ref : CSymbolRef) :
    (i, b, ref) ∈ symbolEvents basicBlock allocRange symbol ↔
      ref.GetSymbol = symbol ∧ ∃ s, basicBlock.statements[i]? = some s ∧
        allocRange.1 ≤ i ∧ i ≤ allocRange.2 ∧
        ((b = true ∧ ref ∈ s.destination) ∨ (b = false ∧ ref ∈ s.sources)) := by
  unfold symbolEvents livenessEvents
  rw [List.mem_filter, List.mem_flatMap]
  simp only [decide_eq_true_eq]
  constructor
  · rintro ⟨⟨⟨j, s⟩, hsi, hmem⟩, hsym⟩
    have hj : i = j := statementEvents_fst (j, s) _ hmem
    subst hj
    refine ⟨hsym, s, ?_⟩
    have hr := (mem_rangeStatements basicBlock allocRange i s).1 hsi
    refine ⟨hr.1, hr.2.1, hr.2.2, ?_⟩
    unfold statementEvents at hmem
    rcases List.mem_append.1 hmem with h | h
    · obtain ⟨x, hx, hxe⟩ := List.mem_map.1 h
      simp only [Prod.mk.injEq] at hxe
      left
      exact ⟨hxe.2.1.symm, hxe.2.2 ▸ hx⟩
    · obtain ⟨x, hx, hxe⟩ := List.mem_map.1 h
      simp only [Prod.mk.injEq] at hxe
      right
      exact ⟨hxe.2.1.symm, hxe.2.2 ▸ hx⟩
  · rintro ⟨hsym, s, hs, h1, h2, hb⟩
    refine ⟨⟨(i, s), (mem_rangeStatements basicBlock allocRange i s).2 ⟨hs, h1, h2⟩, ?_⟩, hsym⟩
    unfold statementEvents
    rcases hb with ⟨rfl, hm⟩ | ⟨rfl, hm⟩
    · exact List.mem_append_left _ (List.mem_map.2 ⟨ref, hm, rfl⟩)
    · exact List.mem_append_right _ (List.mem_map.2 ⟨ref, hm, rfl⟩)

theorem mem_defIndices (basicBlock : BASIC_BLOCK) (allocRange : AllocationRange)
    (symbol : CSymbol) (i : Nat) :
    i ∈ defIndices basicBlock allocRange symbol ↔
      ∃ s, basicBlock.statements[i]? = some s ∧ allocRange.1 ≤ i ∧ i ≤ allocRange.2 ∧
        ∃ ref ∈ s.destination, ref.GetSymbol = symbol := by
  unfold defIndices
  simp only [List.mem_map, List.mem_filter, List.any_eq_true, decide_eq_true_eq]
  constructor
  · rintro ⟨⟨j, s⟩, ⟨hsi, href⟩, hj⟩
    simp only at hj
    subst hj
    have hr := (mem_rangeStatements basicBlock allocRange j s).1 hsi
    exact ⟨s, hr.1, hr.2.1, hr.2.2, href⟩
  · rintro ⟨s, hs, h1, h2, href⟩
    exact ⟨(i, s), ⟨(mem_rangeStatements basicBlock allocRange i s).2 ⟨hs, h1, h2⟩, href⟩, rfl⟩

theorem mem_useIndices (basicBlock : BASIC_BLOCK) (allocRange : AllocationRange)
    (symbol : CSymbol) (i : Nat) :
    i ∈ useIndices basicBlock allocRange symbol ↔
      ∃ s, basicBlock.statements[i]? = some s ∧ allocRange.1 ≤ i ∧ i ≤ allocRange.2 ∧
        ∃ ref ∈ s.sources, ref.GetSymbol = symbol := by
  unfold useIndices
  simp only [List.mem_map, List.mem_filter, List.any_eq_true, decide_eq_true_eq]
  constructor
  · rintro ⟨⟨j, s⟩, ⟨hsi, href⟩, hj⟩
    simp only at hj
    subst hj
    have hr := (mem_rangeStatements basicBlock allocRange j s).1 hsi
    exact ⟨s, hr.1, hr.2.1, hr.2.2, href⟩
  · rintro ⟨s, hs, h1, h2, href⟩
    exact ⟨(i, s), ⟨(mem_rangeStatements basicBlock allocRange i s).2 ⟨hs, h1, h2⟩, href⟩, rfl⟩

theorem eventIndices_destination_mem (basicBlock : BASIC_BLOCK) (allocRange : AllocationRange)
    (symbol : CSymbol) (i : Nat) :
    i ∈ eventIndices true (symbolEvents basicBlock allocRange symbol) ↔
      i ∈ defIndices basicBlock allocRange symbol := by
  rw [mem_eventIndices, mem_defIndices]
  constructor
  · rintro ⟨ref, href⟩
    obtain ⟨hsym, s, hs, h1, h2, hb⟩ := (mem_symbolEvents _ _ _ _ _ _).1 href
    rcases hb with ⟨_, hm⟩ | ⟨hf, _⟩
    · exact ⟨s, hs, h1, h2, ref, hm, hsym⟩
    · cases hf
  · rintro ⟨s, hs, h1, h2, ref, hm, hsym⟩
    exact ⟨ref, (mem_symbolEvents _ _ _ _ _ _).2 ⟨hsym, s, hs, h1, h2, Or.inl ⟨rfl, hm⟩⟩⟩

theorem eventIndices_source_mem (basicBlock : BASIC_BLOCK) (allocRange : AllocationRange)
    (symbol : CSymbol) (i : Nat) :
    i ∈ eventIndices false (symbolEvents basicBlock allocRange symbol) ↔
      i ∈ useIndices basicBlock allocRange symbol := by
  rw [mem_eventIndices, mem_useIndices]
  constructor
  · rintro ⟨ref, href⟩
    obtain ⟨hsym, s, hs, h1, h2, hb⟩ := (mem_symbolEvents _ _ _ _ _ _).1 href
    rcases hb with ⟨hf, _⟩ | ⟨_, hm⟩
    · cases hf
    · exact ⟨s, hs, h1, h2, ref, hm, hsym⟩
  · rintro ⟨s, hs, h1, h2, ref, hm, hsym⟩
    exact ⟨ref, (mem_symbolEvents _ _ _ _ _ _).2 ⟨hsym, s, hs, h1, h2, Or.inr ⟨rfl, hm⟩⟩⟩

theorem isSmallestOf_head (l : List Nat) (h : l.Pairwise (fun a b => a ≤ b)) :
    isSmallestOf (l.head?.getD UINT_MAX) l := by
  cases l with
  | nil => exact Or.inl ⟨rfl, rfl⟩
  | cons a rest =>
    right
    rw [List.pairwise_cons] at h
    refine ⟨List.mem_cons_self _ _, ?_⟩
    intro i hi
    rcases List.mem_cons.1 hi with e | e
    · rw [e]; exact Nat.le_refl _
    · exact h.1 i e

theorem isLargestOf_getLast (l : List Nat) (h : l.Pairwise (fun a b => a ≤ b)) :
    isLargestOf (l.getLast?.getD UINT_MAX) l := by
  rcases List.eq_nil_or_concat l with e | ⟨init, a, e⟩
  · subst e; exact Or.inl ⟨rfl, rfl⟩
  · subst e
    right
    rw [List.concat_eq_append] at h ⊢
    rw [List.pairwise_append] at h
    have hl : (init ++ [a]).getLast?.getD UINT_MAX = a := by simp
    rw [hl]
    refine ⟨by simp, ?_⟩
    intro i hi
    rcases List.mem_append.1 hi with e | e
    · exact h.2.2 i e a (List.mem_singleton_self a)
    · rw [List.mem_singleton.1 e]

theorem isSmallestOf_congr (x : Nat) (l l' : List Nat) (h : ∀ i, i ∈ l ↔ i ∈ l')
    (hx : isSmallestOf x l) : isSmallestOf x l' := by
  rcases hx with ⟨hnil, hx⟩ | ⟨hmem, hle⟩
  · left
    refine ⟨List.eq_nil_iff_forall_not_mem.2 ?_, hx⟩
    intro i hi
    have := (h i).2 hi
    rw [hnil] at this
    cases this
  · exact Or.inr ⟨(h x).1 hmem, fun i hi => hle i ((h i).2 hi)⟩

theorem isLargestOf_congr (x : Nat) (l l' : List Nat) (h : ∀ i, i ∈ l ↔ i ∈ l')
    (hx : isLargestOf x l) : isLargestOf x l' := by
  rcases hx with ⟨hnil, hx⟩ | ⟨hmem, hle⟩
  · left
    refine ⟨List.eq_nil_iff_forall_not_mem.2 ?_, hx⟩
    intro i hi
    have := (h i).2 hi
    rw [hnil] at this
    cases this
  · exact Or.inr ⟨(h x).1 hmem, fun i hi => hle i ((h i).2 hi)⟩

theorem eventIndices_pairwise (b : Bool) (es : List LivenessEvent)
    (h : es.Pairwise (fun x y => x.1 ≤ y.1)) :
    (eventIndices b es).Pairwise (fun x y => x ≤ y) := by
  unfold eventIndices
  rw [List.pairwise_map]
  exact List.Pairwise.filter _ h

theorem symbolEvents_length (basicBlock : BASIC_BLOCK) (allocRange : AllocationRange)
    (symbol : CSymbol) :
    (symbolEvents basicBlock allocRange symbol).length =
      operandOccurrences basicBlock allocRange symbol := by
  unfold symbolEvents operandOccurrences livenessEvents
  have hmap : ((rangeStatements basicBlock allocRange).flatMap statementEvents).map
      (fun e => e.2.2) =
      (rangeStatements basicBlock allocRange).flatMap (fun si => si.2.operands) := by
    rw [List.map_flatMap]
    congr 1
    funext si
    simp [statementEvents, STATEMENT.operands, List.map_map, Function.comp_def]
  rw [← hmap, List.filter_map, List.length_map]
  rfl

theorem symbolEvents_ne_nil_iff (basicBlock : BASIC_BLOCK) (allocRange : AllocationRange)
    (symbol : CSymbol) :
    symbolEvents basicBlock allocRange symbol ≠ [] ↔
      ∃ i s, basicBlock.statements[i]? = some s ∧ allocRange.1 ≤ i ∧ i ≤ allocRange.2 ∧
        ∃ ref ∈ s.operands, ref.GetSymbol = symbol := by
  constructor
  · intro h
    obtain ⟨⟨i, b, ref⟩, he⟩ := List.exists_mem_of_ne_nil _ h
    obtain ⟨hsym, s, hs, h1, h2, hb⟩ := (mem_symbolEvents _ _ _ _ _ _).1 he
    refine ⟨i, s, hs, h1, h2, ref, ?_, hsym⟩
    unfold STATEMENT.operands
    rcases hb with ⟨_, hm⟩ | ⟨_, hm⟩
    · exact List.mem_append_left _ hm
    · exact List.mem_append_right _ hm
  · rintro ⟨i, s, hs, h1, h2, ref, hm, hsym⟩
    unfold STATEMENT.operands at hm
    rcases List.mem_append.1 hm with hm | hm
    · exact List.ne_nil_of_mem
        ((mem_symbolEvents _ _ _ i true ref).2 ⟨hsym, s, hs, h1, h2, Or.inl ⟨rfl, hm⟩⟩)
    · exact List.ne_nil_of_mem
        ((mem_symbolEvents _ _ _ i false ref).2 ⟨hsym, s, hs, h1, h2, Or.inr ⟨rfl, hm⟩⟩)

theorem liveness_find (basicBlock : BASIC_BLOCK) (allocRange : AllocationRange)
    (symbol : CSymbol) :
    regAllocFind (ComputeLivenessForRange basicBlock allocRange []) symbol =
      if symbolEvents basicBlock allocRange symbol = [] then none
      else some ((symbolEvents basicBlock allocRange symbol).foldl recordEvent
        SYMBOL_REGALLOCINFO.init) := by
  rw [liveness_eq_events, regAllocFind_events]
  rfl

/-- Claim C12: starting from an empty table, `ComputeLivenessForRange` tracks exactly the
symbols that occur as an operand of some statement with index in `[first, last]`, and the
record of a tracked symbol has: `useCount` equal to the number of its operand occurrences in
the range (`dst`, `src1` and `src2` counted separately; the counter is an `unsigned int`, so
the number is taken modulo `2^32`), `firstDef` and `lastDef` the smallest and the largest
index of the range at which it is the destination (`-1` if there is none), `firstUse` and
`lastUse` the smallest and the largest index of the range at which it is a source (`-1` if
there is none); the pass leaves `aliased` false and `registerId` at `-1`. The hypothesis says
that every statement index is an `unsigned int` other than the sentinel. In
`[MOV t1, rel_a; ADD t1, t1, rel_b; MOV rel_c, t1]` the temporary `t1` is counted four
times, twice for the `ADD`. -/
theorem ComputeLivenessForRange_tracks_occurrences (basicBlock : BASIC_BLOCK)
    (allocRange : AllocationRange) (symbol : CSymbol)
    (hlen : basicBlock.statements.length ≤ UINT_MAX) :
    ((regAllocFind (ComputeLivenessForRange basicBlock allocRange []) symbol).isSome = true ↔
      ∃ i s, basicBlock.statements[i]? = some s ∧ allocRange.1 ≤ i ∧ i ≤ allocRange.2 ∧
        ∃ ref ∈ s.operands, ref.GetSymbol = symbol) ∧
    (∀ i, i ∈ defIndices basicBlock allocRange symbol ↔
      ∃ s, basicBlock.statements[i]? = some s ∧ allocRange.1 ≤ i ∧ i ≤ allocRange.2 ∧
        ∃ ref ∈ s.destination, ref.GetSymbol = symbol) ∧
    (∀ i, i ∈ useIndices basicBlock allocRange symbol ↔
      ∃ s, basicBlock.statements[i]? = some s ∧ allocRange.1 ≤ i ∧ i ≤ allocRange.2 ∧
        ∃ ref ∈ s.sources, ref.GetSymbol = symbol) ∧
    (∀ r, regAllocFind (ComputeLivenessForRange basicBlock allocRange []) symbol = some r →
      r.useCount = operandOccurrences basicBlock allocRange symbol % 4294967296 ∧
      (operandOccurrences basicBlock allocRange symbol < 4294967296 →
        r.useCount = operandOccurrences basicBlock allocRange symbol) ∧
      isSmallestOf r.firstDef (defIndices basicBlock allocRange symbol) ∧
      isLargestOf r.lastDef (defIndices basicBlock allocRange symbol) ∧
      isSmallestOf r.firstUse (useIndices basicBlock allocRange symbol) ∧
      isLargestOf r.lastUse (useIndices basicBlock allocRange symbol) ∧
      r.aliased = false ∧ r.registerId = UINT_MAX) ∧
    regAllocFind (ComputeLivenessForRange straightLineBlock (0, 2) [])
        ⟨SYM_TEMPORARY, 1, 0⟩ =
      some ⟨4, 1, 2, 0, 1, false, SYM_REGISTER, UINT_MAX⟩ := by
  refine ⟨?_, mem_defIndices basicBlock allocRange symbol,
    mem_useIndices basicBlock allocRange symbol, ?_, by decide⟩
  · rw [← symbolEvents_ne_nil_iff, liveness_find]
    split
    · rename_i h; simp [h]
    · rename_i h; simp [h]
  · intro r hr
    rw [liveness_find] at hr
    split at hr
    · cases hr
    · simp only [Option.some.injEq] at hr
      have hpw : (symbolEvents basicBlock allocRange symbol).Pairwise
          (fun a b => a.1 ≤ b.1) :=
        List.Pairwise.filter _ (livenessEvents_pairwise basicBlock allocRange)
      have hlt : ∀ e ∈ symbolEvents basicBlock allocRange symbol, e.1 < UINT_MAX := by
        intro e he
        have := livenessEvents_lt basicBlock allocRange e (List.mem_filter.1 he).1
        omega
      obtain ⟨hc, hfd, hld, hfu, hlu, hal, hreg⟩ := recordEvent_fold _ hpw hlt
      rw [hr] at hc hfd hld hfu hlu hal hreg
      rw [symbolEvents_length] at hc
      refine ⟨hc, ?_, ?_, ?_, ?_, ?_, hal, hreg⟩
      · intro h
        rw [hc]
        exact Nat.mod_eq_of_lt h
      · rw [hfd]
        exact isSmallestOf_congr _ _ _ (eventIndices_destination_mem _ _ _)
          (isSmallestOf_head _ (eventIndices_pairwise true _ hpw))
      · rw [hld]
        exact isLargestOf_congr _ _ _ (eventIndices_destination_mem _ _ _)
          (isLargestOf_getLast _ (eventIndices_pairwise true _ hpw))
      · rw [hfu]
        exact isSmallestOf_congr _ _ _ (eventIndices_source_mem _ _ _)
          (isSmallestOf_head _ (eventIndices_pairwise false _ hpw))
      · rw [hlu]
        exact isLargestOf_congr _ _ _ (eventIndices_source_mem _ _ _)
          (isLargestOf_getLast _ (eventIndices_pairwise false _ hpw))

theorem ComputeLivenessForRange_tracks_occurrences_witness :
    operandOccurrences straightLineBlock (0, 2) ⟨SYM_TEMPORARY, 1, 0⟩ = 4 ∧
    defIndices straightLineBlock (0, 2) ⟨SYM_TEMPORARY, 1, 0⟩ = [0, 1] ∧
    useIndices straightLineBlock (0, 2) ⟨SYM_TEMPORARY, 1, 0⟩ = [1, 2] ∧
    ∀ r, regAllocFind (ComputeLivenessForRange straightLineBlock (0, 2) [])
        ⟨SYM_TEMPORARY, 1, 0⟩ = some r →
      r.useCount = operandOccurrences straightLineBlock (0, 2) ⟨SYM_TEMPORARY, 1, 0⟩ %
        4294967296 ∧
      (operandOccurrences straightLineBlock (0, 2) ⟨SYM_TEMPORARY, 1, 0⟩ < 4294967296 →
        r.useCount = operandOccurrences straightLineBlock (0, 2) ⟨SYM_TEMPORARY, 1, 0⟩) ∧
      isSmallestOf r.firstDef (defIndices straightLineBlock (0, 2) ⟨SYM_TEMPORARY, 1, 0⟩) ∧
      isLargestOf r.lastDef (defIndices straightLineBlock (0, 2) ⟨SYM_TEMPORARY, 1, 0⟩) ∧
      isSmallestOf r.firstUse (useIndices straightLineBlock (0, 2) ⟨SYM_TEMPORARY, 1, 0⟩) ∧
      isLargestOf r.lastUse (useIndices straightLineBlock (0, 2) ⟨SYM_TEMPORARY, 1, 0⟩) ∧
      r.aliased = false ∧ r.registerId = UINT_MAX :=
  ⟨by decide, by decide, by decide,
    (ComputeLivenessForRange_tracks_occurrences straightLineBlock (0, 2)
      ⟨SYM_TEMPORARY, 1, 0⟩ (by decide)).2.2.2.1⟩

/-! ## MarkAliasedSymbols -/

theorem regAllocFind_map (t : SymbolRegAllocInfo)
    (g : CSymbol → SYMBOL_REGALLOCINFO → SYMBOL_REGALLOCINFO) (k : CSymbol) :
    regAllocFind (t.map (fun p => (p.1, g p.1 p.2))) k = (regAllocFind t k).map (g k) := by
  unfold regAllocFind
  induction t with
  | nil => rfl
  | cons p rest ih =>
    obtain ⟨q, v⟩ := p
    rw [List.map_cons, List.lookup_cons, List.lookup_cons, ih]
    by_cases hk : k = q
    · subst hk; simp
    · have hb : (k == q) = false := by simpa using hk
      simp only [hb]

theorem aliasVisit_fold (d : SymbolDecls) (testedSymbol : CSymbol) (operands : List CSymbolRef)
    (r : SYMBOL_REGALLOCINFO) :
    operands.foldl (aliasVisit d testedSymbol) r =
      { r with aliased := r.aliased || operands.any (fun symbolRef =>
        !(symbolRef.GetSymbol == testedSymbol) &&
          d.Aliases symbolRef.GetSymbol testedSymbol) } := by
  induction operands generalizing r with
  | nil => simp
  | cons ref rest ih =>
    rw [List.foldl_cons, ih]
    unfold aliasVisit CSymbol.Equals
    by_cases h1 : (ref.GetSymbol == testedSymbol) = true
    · simp [h1]
    · simp only [h1, if_false, Bool.false_eq_true]
      by_cases h2 : d.Aliases ref.GetSymbol testedSymbol = true
      · simp [h1, h2]
      · simp [h1, h2]

theorem markAliasedStatement_find (d : SymbolDecls) (statement : STATEMENT)
    (t : SymbolRegAllocInfo) (testedSymbol : CSymbol) (r : SYMBOL_REGALLOCINFO)
    (h : regAllocFind t testedSymbol = some r) :
    regAllocFind (markAliasedStatement d statement t) testedSymbol =
      some { r with aliased := r.aliased || (paramRetSource statement testedSymbol ||
        aliasingOperand d statement testedSymbol) } := by
  unfold markAliasedStatement
  dsimp only
  have hg : (fun symbolRegAlloc : CSymbol × SYMBOL_REGALLOCINFO =>
      if symbolRegAlloc.2.aliased = true then symbolRegAlloc
      else (symbolRegAlloc.1,
        statement.operands.foldl (aliasVisit d symbolRegAlloc.1) symbolRegAlloc.2)) =
      (fun p => (p.1, (fun k v => if v.aliased = true then v
        else statement.operands.foldl (aliasVisit d k) v) p.1 p.2)) := by
    funext p
    dsimp only
    split <;> rfl
  rw [hg, regAllocFind_map _ (fun k v => if v.aliased = true then v
    else statement.operands.foldl (aliasVisit d k) v) testedSymbol]
  have hfirst : regAllocFind
      (if statement.op = OP_PARAM_RET then
        match statement.src1 with
        | some src1 => regAllocUpdate t src1.GetSymbol (fun r => { r with aliased := true })
        | none => t
      else t) testedSymbol =
      some { r with aliased := r.aliased || paramRetSource statement testedSymbol } := by
    unfold paramRetSource
    by_cases hop : statement.op = OP_PARAM_RET
    · cases hsrc : statement.src1 with
      | none => simp [hop, h]
      | some src1 =>
        simp only [hop, if_true, regAllocFind_update, h, Option.getD_some]
        by_cases hs : src1.GetSymbol = testedSymbol
        · simp [hs]
        · have hb : (src1.GetSymbol == testedSymbol) = false := by simpa using hs
          simp [hs, hb]
    · have hb : (statement.op == OP_PARAM_RET) = false := by simpa using hop
      simp [hop, h, hb]
  rw [hfirst, Option.map_some', aliasVisit_fold]
  unfold aliasingOperand
  congr 1
  dsimp only
  cases r.aliased <;> cases paramRetSource statement testedSymbol <;> simp

theorem recordEvent_aliased (es : List LivenessEvent) (r : SYMBOL_REGALLOCINFO) :
    (es.foldl recordEvent r).aliased = r.aliased := by
  induction es generalizing r with
  | nil => rfl
  | cons e rest ih =>
    rw [List.foldl_cons, ih]
    obtain ⟨i, b, ref⟩ := e
    cases b
    · rw [recordEvent_source]
    · rw [recordEvent_destination]

theorem liveness_aliased (basicBlock : BASIC_BLOCK) (allocRange : AllocationRange)
    (symbol : CSymbol) (r : SYMBOL_REGALLOCINFO)
    (h : regAllocFind (ComputeLivenessForRange basicBlock allocRange []) symbol = some r) :
    r.aliased = false := by
  rw [liveness_find] at h
  split at h
  · cases h
  · simp only [Option.some.injEq] at h
    rw [← h, recordEvent_aliased]
    rfl

theorem markAliased_fold (d : SymbolDecls) (allocRange : AllocationRange)
    (l : List (Nat × STATEMENT)) (t : SymbolRegAllocInfo) (testedSymbol : CSymbol)
    (r : SYMBOL_REGALLOCINFO) (h : regAllocFind t testedSymbol = some r) :
    regAllocFind (l.foldl (fun t statementInfo =>
        if statementInfo.1 < allocRange.1 then t
        else if statementInfo.1 > allocRange.2 then t
        else markAliasedStatement d statementInfo.2 t) t) testedSymbol =
      some { r with aliased := r.aliased || l.any (fun statementInfo =>
        inRange allocRange statementInfo.1 &&
          (paramRetSource statementInfo.2 testedSymbol ||
            aliasingOperand d statementInfo.2 testedSymbol)) } := by
  induction l generalizing t r with
  | nil => simp [h]
  | cons si rest ih =>
    rw [List.foldl_cons]
    by_cases h1 : si.1 < allocRange.1
    · have hr : inRange allocRange si.1 = false := by
        simp [inRange]; omega
      simp only [h1, if_true, List.any_cons, hr, Bool.false_and, Bool.false_or]
      exact ih t r h
    · by_cases h2 : si.1 > allocRange.2
      · have hr : inRange allocRange si.1 = false := by
          simp [inRange]; omega
        simp only [h1, h2, if_true, if_false, List.any_cons, hr, Bool.false_and,
          Bool.false_or]
        exact ih t r h
      · have hr : inRange allocRange si.1 = true := by
          simp [inRange]; omega
        simp only [h1, h2, if_false, List.any_cons, hr, Bool.true_and]
        rw [ih _ _ (markAliasedStatement_find d si.2 t testedSymbol r h)]
        simp only [Bool.or_assoc]

theorem markAliasedStatement_keys (d : SymbolDecls) (statement : STATEMENT)
    (t : SymbolRegAllocInfo)
    (h : statement.op = OP_PARAM_RET → ∀ src1, statement.src1 = some src1 →
      src1.GetSymbol ∈ t.map Prod.fst) :
    (markAliasedStatement d statement t).map Prod.fst = t.map Prod.fst := by
  unfold markAliasedStatement
  dsimp only
  rw [List.map_map]
  have hf : (Prod.fst ∘ fun symbolRegAlloc : CSymbol × SYMBOL_REGALLOCINFO =>
      if symbolRegAlloc.2.aliased = true then symbolRegAlloc
      else (symbolRegAlloc.1,
        statement.operands.foldl (aliasVisit d symbolRegAlloc.1) symbolRegAlloc.2)) =
      Prod.fst := by
    funext p
    simp only [Function.comp]
    split <;> rfl
  rw [hf]
  by_cases hop : statement.op = OP_PARAM_RET
  · cases hsrc : statement.src1 with
    | none => simp [hop]
    | some src1 =>
      simp only [hop, if_true, regAllocUpdate_keys]
      rw [if_pos (h hop src1 hsrc)]
  · simp [hop]

theorem markAliased_fold_keys (d : SymbolDecls) (allocRange : AllocationRange)
    (l : List (Nat × STATEMENT)) (t : SymbolRegAllocInfo)
    (h : ∀ si ∈ l, inRange allocRange si.1 = true → si.2.op = OP_PARAM_RET →
      ∀ src1, si.2.src1 = some src1 → src1.GetSymbol ∈ t.map Prod.fst) :
    (l.foldl (fun t statementInfo =>
        if statementInfo.1 < allocRange.1 then t
        else if statementInfo.1 > allocRange.2 then t
        else markAliasedStatement d statementInfo.2 t) t).map Prod.fst = t.map Prod.fst := by
  induction l generalizing t with
  | nil => rfl
  | cons si rest ih =>
    rw [List.foldl_cons]
    have hrest : ∀ sj ∈ rest, inRange allocRange sj.1 = true → sj.2.op = OP_PARAM_RET →
        ∀ src1, sj.2.src1 = some src1 → src1.GetSymbol ∈ t.map Prod.fst :=
      fun sj hsj => h sj (List.mem_cons_of_mem _ hsj)
    by_cases h1 : si.1 < allocRange.1
    · simp only [h1, if_true]
      exact ih t hrest
    · by_cases h2 : si.1 > allocRange.2
      · simp only [h1, h2, if_true, if_false]
        exact ih t hrest
      · have hr : inRange allocRange si.1 = true := by
          simp [inRange]; omega
        simp only [h1, h2, if_false]
        have hk := markAliasedStatement_keys d si.2 t (h si (List.mem_cons_self _ _) hr)
        rw [ih _ (by rw [hk]; exact hrest), hk]

theorem liveness_tracks_operand (basicBlock : BASIC_BLOCK) (allocRange : AllocationRange)
    (i : Nat) (s : STATEMENT) (ref : CSymbolRef)
    (hs : basicBlock.statements[i]? = some s) (h1 : allocRange.1 ≤ i) (h2 : i ≤ allocRange.2)
    (href : ref ∈ s.operands) :
    ref.GetSymbol ∈ (ComputeLivenessForRange basicBlock allocRange []).map Prod.fst := by
  have hne := (symbolEvents_ne_nil_iff basicBlock allocRange ref.GetSymbol).2
    ⟨i, s, hs, h1, h2, ref, href, rfl⟩
  have hfind := liveness_find basicBlock allocRange ref.GetSymbol
  rw [if_neg hne] at hfind
  have hmem := (regAllocFind_eq_some_iff _
    (ComputeLivenessForRange_nodup basicBlock allocRange [] (by simp)) _ _).1 hfind
  exact List.mem_map.2 ⟨_, hmem, rfl⟩

theorem paramRetSource_iff (statement : STATEMENT) (testedSymbol : CSymbol) :
    paramRetSource statement testedSymbol = true ↔
      statement.op = OP_PARAM_RET ∧
        ∃ src1, statement.src1 = some src1 ∧ src1.GetSymbol = testedSymbol := by
  unfold paramRetSource
  cases statement.src1 with
  | none => simp [Option.any]
  | some src1 => simp [Option.any]

theorem aliasingOperand_iff (d : SymbolDecls) (statement : STATEMENT)
    (testedSymbol : CSymbol) :
    aliasingOperand d statement testedSymbol = true ↔
      ∃ ref ∈ statement.operands, ref.GetSymbol ≠ testedSymbol ∧
        d.Aliases ref.GetSymbol testedSymbol = true := by
  unfold aliasingOperand
  simp

/-- Claim C13: after `ComputeLivenessForRange` followed by `MarkAliasedSymbols` the same
symbols are tracked, and a tracked symbol `T` (its record otherwise as liveness left it) has
`aliased = true` if and only if some statement with index in `[first, last]` has opcode
`OP_PARAM_RET` with `src1` referring to `T`, or some statement with index in `[first, last]`
has an operand whose symbol `S` is not structurally equal to `T` and satisfies
`S.Aliases(T)`. In `[MOV rel128_0, rel128_32; ADD t1, rel_4, rel_64; PARAM_RET rel_64]`,
where `rel128_0` and `rel_4` overlap, the symbols `rel128_0`, `rel_4` and `rel_64` end aliased
and `rel128_32` and `t1` do not. -/
theorem MarkAliasedSymbols_aliased_iff (d : SymbolDecls) (basicBlock : BASIC_BLOCK)
    (allocRange : AllocationRange) (testedSymbol : CSymbol) (r0 : SYMBOL_REGALLOCINFO)
    (hT : regAllocFind (ComputeLivenessForRange basicBlock allocRange []) testedSymbol =
      some r0) :
    (MarkAliasedSymbols d basicBlock allocRange
        (ComputeLivenessForRange basicBlock allocRange [])).map Prod.fst =
      (ComputeLivenessForRange basicBlock allocRange []).map Prod.fst ∧
    (∃ r, regAllocFind (MarkAliasedSymbols d basicBlock allocRange
          (ComputeLivenessForRange basicBlock allocRange [])) testedSymbol = some r ∧
      r = { r0 with aliased := r.aliased } ∧
      (r.aliased = true ↔
        (∃ i s src1, basicBlock.statements[i]? = some s ∧ allocRange.1 ≤ i ∧
          i ≤ allocRange.2 ∧ s.op = OP_PARAM_RET ∧ s.src1 = some src1 ∧
          src1.GetSymbol = testedSymbol) ∨
        (∃ i s, basicBlock.statements[i]? = some s ∧ allocRange.1 ≤ i ∧ i ≤ allocRange.2 ∧
          ∃ ref ∈ s.operands, ref.GetSymbol ≠ testedSymbol ∧
            d.Aliases ref.GetSymbol testedSymbol = true))) ∧
    (MarkAliasedSymbols overlapDecls aliasBlock (0, 2)
        (ComputeLivenessForRange aliasBlock (0, 2) [])).map (fun p => (p.1, p.2.aliased)) =
      [(⟨SYM_RELATIVE128, 0, 0⟩, true), (⟨SYM_RELATIVE128, 32, 0⟩, false),
       (⟨SYM_TEMPORARY, 1, 0⟩, false), (⟨SYM_RELATIVE, 4, 0⟩, true),
       (⟨SYM_RELATIVE, 64, 0⟩, true)] := by
  refine ⟨?_, ?_, by decide⟩
  · unfold MarkAliasedSymbols
    apply markAliased_fold_keys
    intro si hsi hr hop src1 hsrc
    have hget := List.mk_mem_enum_iff_getElem?.1 hsi
    unfold inRange at hr
    simp only [Bool.and_eq_true, decide_eq_true_eq] at hr
    apply liveness_tracks_operand basicBlock allocRange si.1 si.2 src1 hget hr.1 hr.2
    simp [STATEMENT.operands, STATEMENT.sources, hsrc]
  · have hfold := markAliased_fold d allocRange basicBlock.statements.enum _ testedSymbol r0 hT
    have hal := liveness_aliased basicBlock allocRange testedSymbol r0 hT
    refine ⟨_, hfold, rfl, ?_⟩
    simp only [hal, Bool.false_or, List.any_eq_true, Bool.and_eq_true, Bool.or_eq_true,
      inRange, decide_eq_true_eq, paramRetSource_iff, aliasingOperand_iff]
    constructor
    · rintro ⟨⟨i, s⟩, hsi, hr, hcase⟩
      have hget := List.mk_mem_enum_iff_getElem?.1 hsi
      rcases hcase with ⟨hop, src1, hsrc, hsym⟩ | ⟨ref, href, hne, halias⟩
      · exact Or.inl ⟨i, s, src1, hget, hr.1, hr.2, hop, hsrc, hsym⟩
      · exact Or.inr ⟨i, s, hget, hr.1, hr.2, ref, href, hne, halias⟩
    · rintro (⟨i, s, src1, hget, h1, h2, hop, hsrc, hsym⟩ |
        ⟨i, s, hget, h1, h2, ref, href, hne, halias⟩)
      · exact ⟨(i, s), List.mk_mem_enum_iff_getElem?.2 hget, ⟨h1, h2⟩,
          Or.inl ⟨hop, src1, hsrc, hsym⟩⟩
      · exact ⟨(i, s), List.mk_mem_enum_iff_getElem?.2 hget, ⟨h1, h2⟩,
          Or.inr ⟨ref, href, hne, halias⟩⟩

theorem MarkAliasedSymbols_aliased_iff_witness :
    ∃ r, regAllocFind (MarkAliasedSymbols overlapDecls aliasBlock (0, 2)
          (ComputeLivenessForRange aliasBlock (0, 2) [])) ⟨SYM_RELATIVE, 4, 0⟩ = some r ∧
      r = { (⟨1, 1, 1, UINT_MAX, UINT_MAX, false, SYM_REGISTER, UINT_MAX⟩ :
        SYMBOL_REGALLOCINFO) with aliased := r.aliased } ∧
      (r.aliased = true ↔
        (∃ i s src1, aliasBlock.statements[i]? = some s ∧ (0, 2).1 ≤ i ∧
          i ≤ (0, 2).2 ∧ s.op = OP_PARAM_RET ∧ s.src1 = some src1 ∧
          src1.GetSymbol = ⟨SYM_RELATIVE, 4, 0⟩) ∨
        (∃ i s, aliasBlock.statements[i]? = some s ∧ (0, 2).1 ≤ i ∧ i ≤ (0, 2).2 ∧
          ∃ ref ∈ s.operands, ref.GetSymbol ≠ ⟨SYM_RELATIVE, 4, 0⟩ ∧
            overlapDecls.Aliases ref.GetSymbol ⟨SYM_RELATIVE, 4, 0⟩ = true)) :=
  (MarkAliasedSymbols_aliased_iff overlapDecls aliasBlock (0, 2) ⟨SYM_RELATIVE, 4, 0⟩
    ⟨1, 1, 1, UINT_MAX, UINT_MAX, false, SYM_REGISTER, UINT_MAX⟩ (by decide)).2.1

/-! ## CSymbolTable -/

theorem find_eq_some (t : CSymbolTable) (s : CSymbol) (p : SymbolPtr)
    (h : t.find s = some p) : p ∈ t.m_symbols ∧ p.2 = s := by
  unfold CSymbolTable.find at h
  have h1 := List.mem_of_find?_eq_some h
  have h2 := List.find?_some h
  unfold CSymbol.Equals at h2
  exact ⟨h1, by simpa using h2⟩

theorem find_eq_none (t : CSymbolTable) (s : CSymbol) (h : t.find s = none) :
    ∀ p ∈ t.m_symbols, p.2 ≠ s := by
  unfold CSymbolTable.find at h
  rw [List.find?_eq_none] at h
  intro p hp e
  exact h p hp (by simp [CSymbol.Equals, e])

theorem makeSymbol_of_find (a : Allocator) (t : CSymbolTable) (s : CSymbol) (p : SymbolPtr)
    (h : t.find s = some p) : CSymbolTable.MakeSymbolFromPtr a t s = (p, t) := by
  unfold CSymbolTable.MakeSymbolFromPtr
  rw [h]

theorem makeSymbol_of_not_find (a : Allocator) (t : CSymbolTable) (s : CSymbol)
    (h : t.find s = none) :
    CSymbolTable.MakeSymbolFromPtr a t s =
      ((a.newAddress (t.m_allocatedSymbols.map Prod.fst), s),
        ⟨t.m_symbols ++ [(a.newAddress (t.m_allocatedSymbols.map Prod.fst), s)],
          t.m_allocatedSymbols ++ [(a.newAddress (t.m_allocatedSymbols.map Prod.fst), s)]⟩) := by
  unfold CSymbolTable.MakeSymbolFromPtr
  rw [h]

theorem makeSymbol_fields (a : Allocator) (t : CSymbolTable) (s : CSymbol) :
    (CSymbolTable.MakeSymbolFromPtr a t s).1.2 = s := by
  cases h : t.find s with
  | none => rw [makeSymbol_of_not_find a t s h]
  | some p =>
    rw [makeSymbol_of_find a t s p h]
    exact (find_eq_some t s p h).2

theorem makeSymbol_find (a : Allocator) (t : CSymbolTable) (s : CSymbol) :
    (CSymbolTable.MakeSymbolFromPtr a t s).2.find s =
      some (CSymbolTable.MakeSymbolFromPtr a t s).1 := by
  cases h : t.find s with
  | none =>
    rw [makeSymbol_of_not_find a t s h]
    unfold CSymbolTable.find at h ⊢
    simp only [List.find?_append, h, Option.none_or]
    simp [CSymbol.Equals]
  | some p =>
    rw [makeSymbol_of_find a t s p h]
    exact h

theorem find_after_make (a : Allocator) (t : CSymbolTable) (s other : CSymbol) (p : SymbolPtr)
    (h : t.find s = some p) : (CSymbolTable.MakeSymbolFromPtr a t other).2.find s = some p := by
  cases ho : t.find other with
  | none =>
    rw [makeSymbol_of_not_find a t other ho]
    unfold CSymbolTable.find at h ⊢
    simp only [List.find?_append, h]
    rfl
  | some q =>
    rw [makeSymbol_of_find a t other q ho]
    exact h

theorem find_erase (l : List SymbolPtr) (s : CSymbol) (it : SymbolPtr) (h : it.2 ≠ s) :
    (l.erase it).find? (fun symbol => symbol.2.Equals s) =
      l.find? (fun symbol => symbol.2.Equals s) := by
  induction l with
  | nil => rfl
  | cons x rest ih =>
    by_cases hx : x = it
    · subst hx
      have : x.2.Equals s = false := by simpa [CSymbol.Equals] using h
      simp [List.find?_cons, this]
    · have hb : (x == it) = false := by simpa using hx
      rw [List.erase_cons, hb]
      simp only [Bool.false_eq_true, if_false, List.find?_cons, ih]

theorem find_after_remove (t : CSymbolTable) (s : CSymbol) (it : SymbolPtr) (h : it.2 ≠ s) :
    (t.RemoveSymbol it).find s = t.find s := by
  unfold CSymbolTable.find CSymbolTable.RemoveSymbol
  exact find_erase t.m_symbols s it h

theorem wellFormed_make (a : Allocator) (t : CSymbolTable) (s : CSymbol)
    (hwf : t.WellFormed) : (CSymbolTable.MakeSymbolFromPtr a t s).2.WellFormed := by
  cases h : t.find s with
  | some p => rw [makeSymbol_of_find a t s p h]; exact hwf
  | none =>
    rw [makeSymbol_of_not_find a t s h]
    obtain ⟨h1, h2, h3⟩ := hwf
    refine ⟨?_, ?_, ?_⟩
    · simp only [List.map_append, List.map_cons, List.map_nil]
      rw [List.nodup_append]
      refine ⟨h1, List.nodup_singleton _, ?_⟩
      intro x hx hy
      rw [List.mem_singleton] at hy
      rw [hy] at hx
      exact a.fresh _ hx
    · intro symbol hs
      simp only [List.mem_append, List.mem_singleton] at hs ⊢
      rcases hs with hs | hs
      · exact Or.inl (h2 symbol hs)
      · exact Or.inr hs
    · simp only [List.map_append, List.map_cons, List.map_nil]
      rw [List.nodup_append]
      refine ⟨h3, List.nodup_singleton _, ?_⟩
      intro x hx hy
      rw [List.mem_singleton] at hy
      obtain ⟨q, hq, hqx⟩ := List.mem_map.1 hx
      exact find_eq_none t s h q hq (hqx.trans hy)

theorem wellFormed_remove (t : CSymbolTable) (it : SymbolPtr) (hwf : t.WellFormed) :
    (t.RemoveSymbol it).WellFormed := by
  obtain ⟨h1, h2, h3⟩ := hwf
  refine ⟨h1, ?_, ?_⟩
  · intro symbol hs
    exact h2 symbol (List.mem_of_mem_erase hs)
  · exact h3.sublist ((List.erase_sublist it t.m_symbols).map Prod.snd)

theorem makeSymbol_mem_allocated (a : Allocator) (t : CSymbolTable) (s : CSymbol)
    (hwf : t.WellFormed) :
    (CSymbolTable.MakeSymbolFromPtr a t s).1 ∈
      (CSymbolTable.MakeSymbolFromPtr a t s).2.m_allocatedSymbols := by
  have h := makeSymbol_find a t s
  exact (wellFormed_make a t s hwf).2.1 _ (find_eq_some _ s _ h).1

theorem allocated_after_make (a : Allocator) (t : CSymbolTable) (s : CSymbol) (p : SymbolPtr)
    (hp : p ∈ t.m_allocatedSymbols) :
    p ∈ (CSymbolTable.MakeSymbolFromPtr a t s).2.m_allocatedSymbols := by
  cases h : t.find s with
  | some q => rw [makeSymbol_of_find a t s q h]; exact hp
  | none =>
    rw [makeSymbol_of_not_find a t s h]
    exact List.mem_append_left _ hp

theorem address_injective (t : CSymbolTable) (hwf : t.WellFormed) (p q : SymbolPtr)
    (hp : p ∈ t.m_allocatedSymbols) (hq : q ∈ t.m_allocatedSymbols) (h : p.1 = q.1) :
    p = q := by
  have := List.inj_on_of_nodup_map hwf.1 hp hq h
  exact this

theorem wellFormed_operations (a : Allocator) (operations : List TableOperation)
    (t : CSymbolTable) (hwf : t.WellFormed) : (applyOperations a operations t).WellFormed := by
  unfold applyOperations
  apply foldl_invariant (fun t : CSymbolTable => t.WellFormed) _ _ _ hwf
  intro b op _ hb
  cases op with
  | make s => exact wellFormed_make a b s hb
  | remove it => exact wellFormed_remove b it hb

theorem allocated_after_operations (a : Allocator) (operations : List TableOperation)
    (t : CSymbolTable) (p : SymbolPtr) (hp : p ∈ t.m_allocatedSymbols) :
    p ∈ (applyOperations a operations t).m_allocatedSymbols := by
  unfold applyOperations
  apply foldl_invariant (fun t : CSymbolTable => p ∈ t.m_allocatedSymbols) _ _ _ hp
  intro b op _ hb
  cases op with
  | make s => exact allocated_after_make a b s p hb
  | remove it => exact hb

theorem find_after_operations (a : Allocator) (operations : List TableOperation)
    (t : CSymbolTable) (s : CSymbol) (p : SymbolPtr) (h : t.find s = some p)
    (hkeep : ∀ it, TableOperation.remove it ∈ operations → it.2 ≠ s) :
    (applyOperations a operations t).find s = some p := by
  unfold applyOperations
  apply foldl_invariant (fun t : CSymbolTable => t.find s = some p) _ _ _ h
  intro b op hop hb
  cases op with
  | make other => exact find_after_make a b s other p hb
  | remove it =>
    show (b.RemoveSymbol it).find s = some p
    rw [find_after_remove b s it (hkeep it hop)]
    exact hb

theorem makeSymbol_address_ne (a : Allocator) (t : CSymbolTable) (hwf : t.WellFormed)
    (s : CSymbol) (p : SymbolPtr) (hp : p ∈ t.m_allocatedSymbols)
    (hne : p ≠ (CSymbolTable.MakeSymbolFromPtr a t s).1) :
    (CSymbolTable.MakeSymbolFromPtr a t s).1.1 ≠ p.1 := by
  intro he
  have hp' := allocated_after_make a t s p hp
  have hq := makeSymbol_mem_allocated a t s hwf
  exact hne (address_injective _ (wellFormed_make a t s hwf) _ _ hp' hq he.symm)

/-- Claim C14: on a table that satisfies the invariant of the class, `MakeSymbol` returns a
symbol whose fields are exactly the tuple `(kind, valueLow, valueHigh)`; a second `MakeSymbol`
with the same tuple, with only `MakeSymbol` calls between the two, returns the same handle
and leaves the table unchanged; a `MakeSymbol` with a structurally unequal tuple returns a
handle with a different address; and the table the call leaves satisfies the invariant
again. -/
theorem MakeSymbol_canonical (a : Allocator) (t : CSymbolTable) (hwf : t.WellFormed)
    (type : SYM_TYPE) (valueLow valueHigh : Nat) (between : List CSymbol)
    (type' : SYM_TYPE) (valueLow' valueHigh' : Nat)
    (hne : (type', valueLow', valueHigh') ≠ (type, valueLow, valueHigh)) :
    (CSymbolTable.MakeSymbol a t type valueLow valueHigh).1.2 = ⟨type, valueLow, valueHigh⟩ ∧
    CSymbolTable.MakeSymbol a
        (applyOperations a (between.map TableOperation.make)
          (CSymbolTable.MakeSymbol a t type valueLow valueHigh).2) type valueLow valueHigh =
      ((CSymbolTable.MakeSymbol a t type valueLow valueHigh).1,
        applyOperations a (between.map TableOperation.make)
          (CSymbolTable.MakeSymbol a t type valueLow valueHigh).2) ∧
    (CSymbolTable.MakeSymbol a
        (applyOperations a (between.map TableOperation.make)
          (CSymbolTable.MakeSymbol a t type valueLow valueHigh).2)
        type' valueLow' valueHigh').1.1 ≠
      (CSymbolTable.MakeSymbol a t type valueLow valueHigh).1.1 ∧
    (CSymbolTable.MakeSymbol a t type valueLow valueHigh).2.WellFormed := by
  unfold CSymbolTable.MakeSymbol
  have hwf1 := wellFormed_make a t ⟨type, valueLow, valueHigh⟩ hwf
  have hwf2 := wellFormed_operations a (between.map TableOperation.make) _ hwf1
  refine ⟨makeSymbol_fields a t _, ?_, ?_, hwf1⟩
  · apply makeSymbol_of_find
    apply find_after_operations a _ _ _ _ (makeSymbol_find a t _)
    intro it hit
    simp at hit
  · apply makeSymbol_address_ne a _ hwf2
    · exact allocated_after_operations a _ _ _ (makeSymbol_mem_allocated a t _ hwf)
    · intro he
      have h1 := makeSymbol_fields a t ⟨type, valueLow, valueHigh⟩
      have h2 := makeSymbol_fields a
        (applyOperations a (between.map TableOperation.make)
          (CSymbolTable.MakeSymbolFromPtr a t ⟨type, valueLow, valueHigh⟩).2)
        ⟨type', valueLow', valueHigh'⟩
      rw [← he, h1] at h2
      apply hne
      simp only [CSymbol.mk.injEq] at h2
      simp only [Prod.mk.injEq]
      exact ⟨h2.1.symm, h2.2.1.symm, h2.2.2.symm⟩

theorem MakeSymbol_canonical_witness :
    (CSymbolTable.MakeSymbol exampleAllocator
        (applyOperations exampleAllocator
          ([⟨SYM_TEMPORARY, 1, 0⟩, ⟨SYM_RELATIVE, 4, 0⟩].map TableOperation.make)
          (CSymbolTable.MakeSymbol exampleAllocator CSymbolTable.empty SYM_RELATIVE 8 0).2)
        SYM_RELATIVE 4 0).1.1 ≠
      (CSymbolTable.MakeSymbol exampleAllocator CSymbolTable.empty SYM_RELATIVE 8 0).1.1 :=
  (MakeSymbol_canonical exampleAllocator CSymbolTable.empty
    (by decide) SYM_RELATIVE 8 0 [⟨SYM_TEMPORARY, 1, 0⟩, ⟨SYM_RELATIVE, 4, 0⟩] SYM_RELATIVE 4 0
    (by decide)).2.2.1

/-- Claim C15 (as amended): over any sequence of `MakeSymbol` and `RemoveSymbol` calls with no
`Clear`, the table keeps its invariant and keeps every handle it handed out among its
allocated objects, whose addresses stay pairwise different; a second `MakeSymbol` with the
same tuple returns the same handle provided no `RemoveSymbol` between the two calls removed
a symbol with that tuple; when the symbol is no more in the set at the second call, the
second call returns a structurally equal symbol at a different address. -/
theorem MakeSymbol_identity_until_removed (a : Allocator) (t : CSymbolTable)
    (hwf : t.WellFormed) (s : CSymbol) (operations : List TableOperation) :
    (applyOperations a operations (CSymbolTable.MakeSymbolFromPtr a t s).2).WellFormed ∧
    (CSymbolTable.MakeSymbolFromPtr a t s).1 ∈
      (applyOperations a operations
        (CSymbolTable.MakeSymbolFromPtr a t s).2).m_allocatedSymbols ∧
    ((∀ it, TableOperation.remove it ∈ operations → it.2 ≠ s) →
      (CSymbolTable.MakeSymbolFromPtr a
        (applyOperations a operations (CSymbolTable.MakeSymbolFromPtr a t s).2) s).1 =
        (CSymbolTable.MakeSymbolFromPtr a t s).1) ∧
    ((CSymbolTable.MakeSymbolFromPtr a t s).1 ∉
        (applyOperations a operations (CSymbolTable.MakeSymbolFromPtr a t s).2).m_symbols →
      (CSymbolTable.MakeSymbolFromPtr a
        (applyOperations a operations (CSymbolTable.MakeSymbolFromPtr a t s).2) s).1.1 ≠
        (CSymbolTable.MakeSymbolFromPtr a t s).1.1 ∧
      (CSymbolTable.MakeSymbolFromPtr a
        (applyOperations a operations (CSymbolTable.MakeSymbolFromPtr a t s).2) s).1.2 =
        (CSymbolTable.MakeSymbolFromPtr a t s).1.2) := by
  have hwf1 := wellFormed_make a t s hwf
  have hwf2 := wellFormed_operations a operations _ hwf1
  have hmem := allocated_after_operations a operations _ _ (makeSymbol_mem_allocated a t s hwf)
  refine ⟨hwf2, hmem, ?_, ?_⟩
  · intro hkeep
    rw [makeSymbol_of_find a _ s _
      (find_after_operations a operations _ s _ (makeSymbol_find a t s) hkeep)]
  · intro hnot
    refine ⟨?_, ?_⟩
    · apply makeSymbol_address_ne a _ hwf2 s _ hmem
      intro he
      apply hnot
      have hfind := makeSymbol_find a
        (applyOperations a operations (CSymbolTable.MakeSymbolFromPtr a t s).2) s
      have hin := (find_eq_some _ s _ hfind).1
      rw [← he] at hin
      cases hf : (applyOperations a operations
          (CSymbolTable.MakeSymbolFromPtr a t s).2).find s with
      | some q =>
        rw [makeSymbol_of_find a _ s q hf] at he
        rw [he]
        exact (find_eq_some _ s q hf).1
      | none =>
        exfalso
        rw [makeSymbol_of_not_find a _ s hf] at he
        have hfresh := a.fresh ((applyOperations a operations
          (CSymbolTable.MakeSymbolFromPtr a t s).2).m_allocatedSymbols.map Prod.fst)
        apply hfresh
        have := List.mem_map_of_mem Prod.fst hmem
        rw [he] at this
        exact this
    · rw [makeSymbol_fields, makeSymbol_fields]

theorem MakeSymbol_identity_until_removed_witness :
    (CSymbolTable.MakeSymbolFromPtr exampleAllocator
      (applyOperations exampleAllocator
        [TableOperation.make ⟨SYM_TEMPORARY, 1, 0⟩,
          TableOperation.remove (2, ⟨SYM_TEMPORARY, 1, 0⟩)]
        (CSymbolTable.MakeSymbolFromPtr exampleAllocator CSymbolTable.empty
          ⟨SYM_RELATIVE, 8, 0⟩).2) ⟨SYM_RELATIVE, 8, 0⟩).1 =
      (CSymbolTable.MakeSymbolFromPtr exampleAllocator CSymbolTable.empty
        ⟨SYM_RELATIVE, 8, 0⟩).1 :=
  (MakeSymbol_identity_until_removed exampleAllocator CSymbolTable.empty
    (by decide) ⟨SYM_RELATIVE, 8, 0⟩
    [TableOperation.make ⟨SYM_TEMPORARY, 1, 0⟩,
      TableOperation.remove (2, ⟨SYM_TEMPORARY, 1, 0⟩)]).2.2.1
    (by
      intro it hit
      simp only [List.mem_cons, List.mem_singleton, TableOperation.remove.injEq,
        List.mem_nil_iff, or_false, false_or, reduceCtorEq] at hit
      rw [hit]
      decide)

/-- Claim C15, counterexample: `MakeSymbol(Relative, 8, 0)`, `RemoveSymbol` of the iterator to
that symbol, `MakeSymbol(Relative, 8, 0)` again, with no `Clear`: `RemoveSymbol` takes the
symbol out of the set but the object stays allocated, so the second `MakeSymbol` finds
nothing and allocates a new object. The two calls have equal tuples and return different
identities (addresses 1 and 2), both structurally equal symbols. -/
theorem MakeSymbol_identity_lost_after_remove :
    (CSymbolTable.MakeSymbol exampleAllocator CSymbolTable.empty SYM_RELATIVE 8 0).1 =
      (1, ⟨SYM_RELATIVE, 8, 0⟩) ∧
    (CSymbolTable.MakeSymbol exampleAllocator
      (applyOperations exampleAllocator
        [TableOperation.remove
          (CSymbolTable.MakeSymbol exampleAllocator CSymbolTable.empty SYM_RELATIVE 8 0).1]
        (CSymbolTable.MakeSymbol exampleAllocator CSymbolTable.empty SYM_RELATIVE 8 0).2)
      SYM_RELATIVE 8 0).1 = (2, ⟨SYM_RELATIVE, 8, 0⟩) ∧
    (CSymbolTable.MakeSymbol exampleAllocator
      (applyOperations exampleAllocator
        [TableOperation.remove
          (CSymbolTable.MakeSymbol exampleAllocator CSymbolTable.empty SYM_RELATIVE 8 0).1]
        (CSymbolTable.MakeSymbol exampleAllocator CSymbolTable.empty SYM_RELATIVE 8 0).2)
      SYM_RELATIVE 8 0).1.1 ≠
      (CSymbolTable.MakeSymbol exampleAllocator CSymbolTable.empty SYM_RELATIVE 8 0).1.1 ∧
    (applyOperations exampleAllocator
        [TableOperation.remove
          (CSymbolTable.MakeSymbol exampleAllocator CSymbolTable.empty SYM_RELATIVE 8 0).1]
        (CSymbolTable.MakeSymbol exampleAllocator CSymbolTable.empty SYM_RELATIVE 8 0).2) =
      ⟨[], [(1, ⟨SYM_RELATIVE, 8, 0⟩)]⟩ := by
  decide

/-! ## The comparator of the sort -/

theorem incomparable_iff (d : SymbolDecls) (a b : CSymbol × SYMBOL_REGALLOCINFO) :
    incomparable d a b ↔ sortKey d a = sortKey d b := by
  unfold incomparable sortKey
  rw [sortComparator_false_iff, sortComparator_false_iff]
  simp only [Prod.mk.injEq]
  omega

theorem forall₂_of_map_eq {α β : Type} (f : α → β) (l1 l2 : List α)
    (h : l1.map f = l2.map f) : List.Forall₂ (fun a b => f a = f b) l1 l2 := by
  induction l1 generalizing l2 with
  | nil =>
    cases l2 with
    | nil => exact List.Forall₂.nil
    | cons b rest => cases h
  | cons a rest ih =>
    cases l2 with
    | nil => cases h
    | cons b rest2 =>
      simp only [List.map_cons, List.cons.injEq] at h
      exact List.Forall₂.cons h.1 (ih rest2 h.2)

theorem sorted_keys_unique (d : SymbolDecls) (l1 l2 : List (CSymbol × SYMBOL_REGALLOCINFO))
    (hp : List.Perm l1 l2)
    (h1 : List.Pairwise (fun a b => sortComparator d b a = false) l1)
    (h2 : List.Pairwise (fun a b => sortComparator d b a = false) l2) :
    l1.map (sortKey d) = l2.map (sortKey d) := by
  have hkey : ∀ a b : CSymbol × SYMBOL_REGALLOCINFO, sortComparator d b a = false ↔
      ((sortKey d b).1 < (sortKey d a).1 ∨ ((sortKey d b).1 = (sortKey d a).1 ∧
        ((sortKey d b).2.1 < (sortKey d a).2.1 ∨ ((sortKey d b).2.1 = (sortKey d a).2.1 ∧
          (sortKey d b).2.2 ≤ (sortKey d a).2.2)))) := by
    intro a b
    rw [sortComparator_false_iff]
    unfold sortKey
    simp only
    omega
  apply sorted_perm_unique
    (fun x y : Nat × Nat × Nat => y.1 < x.1 ∨ (y.1 = x.1 ∧
      (y.2.1 < x.2.1 ∨ (y.2.1 = x.2.1 ∧ y.2.2 ≤ x.2.2))))
  · intro x _ y _ hxy hyx
    obtain ⟨x1, x2, x3⟩ := x
    obtain ⟨y1, y2, y3⟩ := y
    simp only at hxy hyx
    simp only [Prod.mk.injEq]
    omega
  · exact hp.map _
  · rw [List.pairwise_map]
    exact h1.imp (fun {a b} h => (hkey a b).1 h)
  · rw [List.pairwise_map]
    exact h2.imp (fun {a b} h => (hkey a b).1 h)

/-- Claim C22: the comparator that `AssociateSymbolsToRegisters` passes to `std::sort` ranks
`a` before `b` exactly when `a` has the higher `useCount`, or the same `useCount` and the
higher kind, or the same `useCount` and kind and the higher `valueLow`. It is a strict weak
ordering: irreflexive, asymmetric and transitive, and its incomparability relation is
reflexive, symmetric and transitive (it is equality of the three compared values). So the
sort is well defined for every candidate list: the sorted list is a permutation of the
candidates in which no later element ranks before an earlier one, and two such arrangements
of the same candidates differ at most by the order of incomparable candidates. -/
theorem sortComparator_strict_weak_order (d : SymbolDecls) :
    (∀ a b, sortComparator d a b = true ↔
      (a.2.useCount > b.2.useCount ∨
        (a.2.useCount = b.2.useCount ∧
          (d.typeValue a.1.m_type > d.typeValue b.1.m_type ∨
            (a.1.m_type = b.1.m_type ∧ a.1.m_valueLow > b.1.m_valueLow))))) ∧
    (∀ a, sortComparator d a a = false) ∧
    (∀ a b, sortComparator d a b = true → sortComparator d b a = false) ∧
    (∀ a b c, sortComparator d a b = true → sortComparator d b c = true →
      sortComparator d a c = true) ∧
    (∀ a, incomparable d a a) ∧
    (∀ a b, incomparable d a b → incomparable d b a) ∧
    (∀ a b c, incomparable d a b → incomparable d b c → incomparable d a c) ∧
    (∀ l, List.Perm (stdSort d l) l ∧
      List.Pairwise (fun a b => sortComparator d b a = false) (stdSort d l)) ∧
    (∀ l1 l2, List.Perm l1 l2 →
      List.Pairwise (fun a b => sortComparator d b a = false) l1 →
      List.Pairwise (fun a b => sortComparator d b a = false) l2 →
      List.Forall₂ (incomparable d) l1 l2) := by
  refine ⟨?_, ?_, ?_, ?_, ?_, ?_, ?_, ?_, ?_⟩
  · intro a b
    rw [sortComparator_iff]
    have hinj : d.typeValue a.1.m_type = d.typeValue b.1.m_type ↔ a.1.m_type = b.1.m_type :=
      ⟨fun e => d.typeValue_injective e, fun e => by rw [e]⟩
    rw [hinj]
  · intro a
    rw [sortComparator_false_iff]
    omega
  · intro a b
    rw [sortComparator_iff, sortComparator_false_iff]
    omega
  · intro a b c
    rw [sortComparator_iff, sortComparator_iff, sortComparator_iff]
    omega
  · intro a
    rw [incomparable_iff]
  · intro a b
    rw [incomparable_iff, incomparable_iff]
    exact Eq.symm
  · intro a b c
    rw [incomparable_iff, incomparable_iff, incomparable_iff]
    exact Eq.trans
  · intro l
    exact ⟨stdSort_perm d l, stdSort_sorted d l⟩
  · intro l1 l2 hp h1 h2
    have h := forall₂_of_map_eq (sortKey d) l1 l2 (sorted_keys_unique d l1 l2 hp h1 h2)
    exact h.imp (fun a b hab => (incomparable_iff d a b).2 hab)

/-! ## The order of loads, statements and spills in the output -/

theorem placedAround_tag (loads spills : StatementMultimap) (info : Nat × STATEMENT) :
    (placedAround loads spills info).map (fun x => (x.1.tag, x.2)) =
      (stagedAt loads info.1 ++
          (if isControlTransfer info.2.op then stagedAt spills info.1 else [])).map inserted ++
        (some info.1, info.2) ::
          (if isControlTransfer info.2.op then [] else stagedAt spills info.1).map inserted := by
  unfold placedAround inserted
  simp [List.map_append, List.map_map, Function.comp_def, Placement.tag]

theorem placedForm_tag (loads spills : StatementMultimap) (k : Nat) (stmts : List STATEMENT) :
    (placedForm loads spills k stmts).map (fun x => (x.1.tag, x.2)) =
      anchoredForm loads spills k stmts := by
  unfold placedForm anchoredForm
  rw [List.map_flatMap]
  congr 1
  funext info
  exact placedAround_tag loads spills info

theorem placedAround_index (loads spills : StatementMultimap) (info : Nat × STATEMENT)
    (x : Placement × STATEMENT) (hx : x ∈ placedAround loads spills info) :
    x.1.index = info.1 := by
  unfold placedAround at hx
  simp only [List.mem_append, List.mem_map, List.mem_cons] at hx
  rcases hx with ⟨s, _, rfl⟩ | ⟨s, _, rfl⟩ | rfl | ⟨s, _, rfl⟩ <;> rfl

theorem placedAround_sorted (loads spills : StatementMultimap) (info : Nat × STATEMENT) :
    (placedAround loads spills info).Pairwise (fun x y => x.1.slot ≤ y.1.slot) := by
  unfold placedAround
  rw [List.pairwise_append]
  refine ⟨?_, ?_, ?_⟩
  · rw [List.pairwise_map]
    exact List.pairwise_of_forall (fun _ _ => Nat.le_refl _)
  · rw [List.pairwise_append]
    refine ⟨?_, ?_, ?_⟩
    · rw [List.pairwise_map]
      exact List.pairwise_of_forall (fun _ _ => Nat.le_refl _)
    · rw [List.pairwise_cons]
      refine ⟨?_, ?_⟩
      · intro y hy
        obtain ⟨s, _, rfl⟩ := List.mem_map.1 hy
        simp only [Placement.slot]
        omega
      · rw [List.pairwise_map]
        exact List.pairwise_of_forall (fun _ _ => Nat.le_refl _)
    · intro x hx y hy
      obtain ⟨s, _, rfl⟩ := List.mem_map.1 hx
      rcases List.mem_cons.1 hy with rfl | hy
      · simp only [Placement.slot]; omega
      · obtain ⟨s', _, rfl⟩ := List.mem_map.1 hy
        simp only [Placement.slot]; omega
  · intro x hx y hy
    obtain ⟨s, _, rfl⟩ := List.mem_map.1 hx
    simp only [List.mem_append, List.mem_map, List.mem_cons] at hy
    rcases hy with ⟨s', _, rfl⟩ | rfl | ⟨s', _, rfl⟩ <;>
      (simp only [Placement.slot]; omega)

theorem slot_bounds (p : Placement) : 4 * p.index ≤ p.slot ∧ p.slot ≤ 4 * p.index + 3 := by
  cases p <;> simp only [Placement.slot, Placement.index] <;> omega

theorem placedForm_sorted (loads spills : StatementMultimap) (k : Nat)
    (stmts : List STATEMENT) :
    (placedForm loads spills k stmts).Pairwise (fun x y => x.1.slot ≤ y.1.slot) := by
  unfold placedForm
  rw [List.pairwise_flatMap]
  constructor
  · intro info _
    exact placedAround_sorted loads spills info
  · apply (enumFrom_pairwise k stmts).imp
    intro a b hab x hx y hy
    have h1 := placedAround_index loads spills a x hx
    have h2 := placedAround_index loads spills b y hy
    have h3 := slot_bounds x.1
    have h4 := slot_bounds y.1
    omega

theorem sorted_position {α : Type} (f : α → Nat) (l : List α)
    (hs : l.Pairwise (fun x y => f x ≤ f y)) (p q : Nat) (x y : α)
    (hp : l[p]? = some x) (hq : l[q]? = some y) (hlt : f x < f y) : p < q := by
  by_contra hc
  have hqp : q ≤ p := Nat.le_of_not_lt hc
  rcases Nat.lt_or_eq_of_le hqp with h | h
  · rw [List.pairwise_iff_getElem] at hs
    obtain ⟨hp1, hp2⟩ := List.getElem?_eq_some_iff.1 hp
    obtain ⟨hq1, hq2⟩ := List.getElem?_eq_some_iff.1 hq
    have := hs q p hq1 hp1 h
    rw [hp2, hq2] at this
    omega
  · subst h
    rw [hp] at hq
    simp only [Option.some.injEq] at hq
    rw [hq] at hlt
    omega

theorem mem_placedForm (loads spills : StatementMultimap) (stmts : List STATEMENT)
    (x : Placement × STATEMENT) :
    x ∈ placedForm loads spills 0 stmts ↔
      ∃ s, stmts[x.1.index]? = some s ∧ x ∈ placedAround loads spills (x.1.index, s) := by
  unfold placedForm
  rw [List.mem_flatMap]
  constructor
  · rintro ⟨⟨i, s⟩, hinfo, hx⟩
    have hi := placedAround_index loads spills (i, s) x hx
    simp only at hi
    rw [hi]
    have := List.mk_mem_enumFrom_iff_le_and_getElem?_sub.1 hinfo
    exact ⟨s, by simpa using this.2, hx⟩
  · rintro ⟨s, hs, hx⟩
    refine ⟨(x.1.index, s), ?_, hx⟩
    rw [List.mk_mem_enumFrom_iff_le_and_getElem?_sub]
    exact ⟨Nat.zero_le _, by simpa using hs⟩

theorem placed_original (loads spills : StatementMultimap) (stmts : List STATEMENT)
    (i : Nat) (s : STATEMENT) (h : (Placement.original i, s) ∈ placedForm loads spills 0 stmts) :
    stmts[i]? = some s := by
  obtain ⟨s', hs', hx⟩ := (mem_placedForm loads spills stmts _).1 h
  simp only [Placement.index] at hs' hx
  unfold placedAround at hx
  simp only [List.mem_append, List.mem_map, List.mem_cons, Prod.mk.injEq, reduceCtorEq,
    false_and, and_false, exists_false, false_or, or_false, true_and] at hx
  rw [hs', hx]

theorem placed_spillBefore (loads spills : StatementMultimap) (stmts : List STATEMENT)
    (i : Nat) (sp : STATEMENT)
    (h : (Placement.spillBefore i, sp) ∈ placedForm loads spills 0 stmts) :
    ∃ s, stmts[i]? = some s ∧ isControlTransfer s.op = true := by
  obtain ⟨s, hs, hx⟩ := (mem_placedForm loads spills stmts _).1 h
  simp only [Placement.index] at hs hx
  refine ⟨s, hs, ?_⟩
  unfold placedAround at hx
  simp only [List.mem_append, List.mem_map, List.mem_cons, Prod.mk.injEq, reduceCtorEq,
    false_and, and_false, exists_false, false_or, or_false] at hx
  obtain ⟨a, ha, _⟩ := hx
  by_contra hc
  simp only [hc, Bool.false_eq_true, if_false] at ha
  cases ha

theorem mem_stagedAt (staged : StatementMultimap) (i : Nat) (s : STATEMENT) :
    s ∈ stagedAt staged i ↔ (i, s) ∈ staged := by
  unfold stagedAt
  simp only [List.mem_map, List.mem_filter, beq_iff_eq]
  constructor
  · rintro ⟨⟨j, s'⟩, ⟨hm, hj⟩, hs⟩
    simp only at hj hs
    rw [← hj, ← hs]
    exact hm
  · intro h
    exact ⟨(i, s), ⟨h, rfl⟩, rfl⟩

theorem placed_load_mem (loads spills : StatementMultimap) (stmts : List STATEMENT)
    (l : Nat × STATEMENT) (hl : l ∈ loads) (hlt : l.1 < stmts.length) :
    (Placement.load l.1, l.2) ∈ placedForm loads spills 0 stmts := by
  rw [mem_placedForm]
  obtain ⟨s, hs⟩ : ∃ s, stmts[l.1]? = some s := ⟨stmts[l.1], List.getElem?_eq_getElem hlt⟩
  refine ⟨s, hs, ?_⟩
  unfold placedAround
  apply List.mem_append_left
  exact List.mem_map.2 ⟨l.2, (mem_stagedAt loads l.1 l.2).2 hl, rfl⟩

theorem placed_spill_mem (loads spills : StatementMultimap) (stmts : List STATEMENT)
    (l : Nat × STATEMENT) (hl : l ∈ spills) (hlt : l.1 < stmts.length) :
    (Placement.spillBefore l.1, l.2) ∈ placedForm loads spills 0 stmts ∨
      (Placement.spillAfter l.1, l.2) ∈ placedForm loads spills 0 stmts := by
  obtain ⟨s, hs⟩ : ∃ s, stmts[l.1]? = some s := ⟨stmts[l.1], List.getElem?_eq_getElem hlt⟩
  have hst := (mem_stagedAt spills l.1 l.2).2 hl
  by_cases hct : isControlTransfer s.op = true
  · left
    rw [mem_placedForm]
    refine ⟨s, hs, ?_⟩
    unfold placedAround
    apply List.mem_append_right
    apply List.mem_append_left
    simp only [Placement.index, hct, if_true]
    exact List.mem_map.2 ⟨l.2, hst, rfl⟩
  · right
    rw [mem_placedForm]
    refine ⟨s, hs, ?_⟩
    unfold placedAround
    apply List.mem_append_right
    apply List.mem_append_right
    apply List.mem_cons_of_mem
    simp only [Placement.index, hct, if_false]
    exact List.mem_map.2 ⟨l.2, hst, rfl⟩

theorem allocateRanges_destination (d : SymbolDecls) (gpCount mdCount : Nat)
    (basicBlock : BASIC_BLOCK) (i : Nat) :
    ((allocateRanges d gpCount mdCount basicBlock).basicBlock.statements[i]?).map
        (fun s : STATEMENT => (s.op, s.dst.isSome)) =
      (basicBlock.statements[i]?).map (fun s : STATEMENT => (s.op, s.dst.isSome)) := by
  unfold allocateRanges
  apply foldl_invariant (fun st : AllocState =>
    (st.basicBlock.statements[i]?).map (fun s : STATEMENT => (s.op, s.dst.isSome)) =
      (basicBlock.statements[i]?).map (fun s : STATEMENT => (s.op, s.dst.isSome)))
  · rfl
  · intro st r _ hst
    rw [← hst]
    show ((rewriteRange r _ st.basicBlock.statements)[i]?).map _ = _
    rw [rewriteRange_getElem?]
    cases st.basicBlock.statements[i]? with
    | none => rfl
    | some s =>
      simp only [Option.map_some']
      split
      · rfl
      · split
        · rfl
        · simp [rewriteStatement]

theorem staged_kept (d : SymbolDecls) (gpCount mdCount : Nat) (todo : List AllocationRange)
    (st : AllocState) :
    (∀ l ∈ st.loadStatements,
      l ∈ (todo.foldl (allocateRange d gpCount mdCount) st).loadStatements) ∧
    (∀ l ∈ st.spillStatements,
      l ∈ (todo.foldl (allocateRange d gpCount mdCount) st).spillStatements) := by
  induction todo generalizing st with
  | nil => exact ⟨fun _ h => h, fun _ h => h⟩
  | cons r rest ih =>
    rw [List.foldl_cons]
    obtain ⟨h1, h2⟩ := ih (allocateRange d gpCount mdCount st r)
    constructor
    · intro l hl
      apply h1
      rw [allocateRange_loadStatements]
      exact List.mem_append_left _ hl
    · intro l hl
      apply h2
      rw [allocateRange_spillStatements]
      exact List.mem_append_left _ hl

theorem slot_load (i : Nat) : (Placement.load i).slot = 4 * i := rfl

theorem slot_spillBefore (i : Nat) : (Placement.spillBefore i).slot = 4 * i + 1 := rfl

theorem slot_original (i : Nat) : (Placement.original i).slot = 4 * i + 2 := rfl

theorem slot_spillAfter (i : Nat) : (Placement.spillAfter i).slot = 4 * i + 3 := rfl

theorem placedOutput_tag (d : SymbolDecls) (gpCount mdCount : Nat) (basicBlock : BASIC_BLOCK) :
    (placedOutput d gpCount mdCount basicBlock).map (fun x => (x.1.tag, x.2)) =
      insertedStatementList (allocateRanges d gpCount mdCount basicBlock) := by
  unfold placedOutput
  rw [placedForm_tag, insertedStatementList_eq_anchoredForm _
    (no_load_after_non_call d gpCount mdCount basicBlock)]

theorem placedOutput_statements (d : SymbolDecls) (gpCount mdCount : Nat)
    (basicBlock : BASIC_BLOCK) :
    (placedOutput d gpCount mdCount basicBlock).map (fun x => x.2) =
      (AllocateRegisters d gpCount mdCount basicBlock).statements := by
  show _ = (insertedStatementList (allocateRanges d gpCount mdCount basicBlock)).map
    (fun x => x.2)
  rw [← placedOutput_tag, List.map_map]
  rfl

theorem staged_in_output (d : SymbolDecls) (gpCount mdCount : Nat) (basicBlock : BASIC_BLOCK)
    (done todo : List AllocationRange) (r : AllocationRange)
    (hr : ComputeAllocationRanges basicBlock = done ++ r :: todo) :
    (∀ l ∈ stagedLoads r (rangeRegAllocs d gpCount mdCount
        (done.foldl (allocateRange d gpCount mdCount) ⟨basicBlock, [], []⟩).basicBlock r),
      l.1 = r.1 ∧
      (Placement.load r.1, l.2) ∈ placedOutput d gpCount mdCount basicBlock) ∧
    (∀ l ∈ stagedSpills d
        ((r.2 + 1) % 4294967296 ==
          (done.foldl (allocateRange d gpCount mdCount)
            ⟨basicBlock, [], []⟩).basicBlock.statements.length) r
        (rangeRegAllocs d gpCount mdCount
          (done.foldl (allocateRange d gpCount mdCount) ⟨basicBlock, [], []⟩).basicBlock r),
      l.1 = r.2 ∧
      ((Placement.spillBefore r.2, l.2) ∈ placedOutput d gpCount mdCount basicBlock ∨
        (Placement.spillAfter r.2, l.2) ∈ placedOutput d gpCount mdCount basicBlock)) := by
  obtain ⟨hlen, _, hld, hsp⟩ := allocateRanges_invariant d gpCount mdCount basicBlock
  have hfinal : allocateRanges d gpCount mdCount basicBlock =
      todo.foldl (allocateRange d gpCount mdCount)
        (allocateRange d gpCount mdCount
          (done.foldl (allocateRange d gpCount mdCount) ⟨basicBlock, [], []⟩) r) := by
    unfold allocateRanges
    rw [hr, List.foldl_append, List.foldl_cons]
  obtain ⟨hk1, hk2⟩ := staged_kept d gpCount mdCount todo
    (allocateRange d gpCount mdCount
      (done.foldl (allocateRange d gpCount mdCount) ⟨basicBlock, [], []⟩) r)
  rw [← hfinal] at hk1 hk2
  constructor
  · intro l hl
    have hkey := stagedLoads_key r _ l hl
    have hmem : l ∈ (allocateRanges d gpCount mdCount basicBlock).loadStatements := by
      apply hk1
      rw [allocateRange_loadStatements]
      exact List.mem_append_right _ hl
    refine ⟨hkey, ?_⟩
    rw [← hkey]
    exact placed_load_mem _ _ _ l hmem (by rw [hlen]; exact (hld l hmem).1)
  · intro l hl
    have hkey := stagedSpills_key d _ r _ l hl
    have hmem : l ∈ (allocateRanges d gpCount mdCount basicBlock).spillStatements := by
      apply hk2
      rw [allocateRange_spillStatements]
      exact List.mem_append_right _ hl
    refine ⟨hkey, ?_⟩
    rw [← hkey]
    exact placed_spill_mem _ _ _ l hmem (by rw [hlen]; exact hsp l hmem)

/-- Claim C21: in a block in which no statement with opcode `OP_CONDJMP`, `OP_JMP`, `OP_CALL`,
`OP_EXTERNJMP` or `OP_EXTERNJMP_DYN` has a destination operand, the output of
`AllocateRegisters` (the list `placedOutput`, whose statements are the output, with the origin
of each) is ordered as follows. Every load and spill staged in the pass of a range is in the
output, a load under the range's first index and a spill under the range's last index. A
load of a range stands before every original statement of that range and after every
statement (original, load or spill) of an earlier range. A spill of a range stands after
every original statement of that range that has a destination operand (so after every one
that writes the spilled symbol's register) and before every statement (original, load or
spill) of a later range. -/
theorem AllocateRegisters_load_spill_order (d : SymbolDecls) (gpCount mdCount : Nat)
    (basicBlock : BASIC_BLOCK)
    (hct : ∀ s ∈ basicBlock.statements,
      s.op ∈ [OP_CONDJMP, OP_JMP, OP_CALL, OP_EXTERNJMP, OP_EXTERNJMP_DYN] → s.dst = none) :
    (placedOutput d gpCount mdCount basicBlock).map (fun x => x.2) =
      (AllocateRegisters d gpCount mdCount basicBlock).statements ∧
    (placedOutput d gpCount mdCount basicBlock).map (fun x => (x.1.tag, x.2)) =
      insertedStatementList (allocateRanges d gpCount mdCount basicBlock) ∧
    (∀ done r todo, ComputeAllocationRanges basicBlock = done ++ r :: todo →
      (∀ l ∈ stagedLoads r (rangeRegAllocs d gpCount mdCount
          (done.foldl (allocateRange d gpCount mdCount) ⟨basicBlock, [], []⟩).basicBlock r),
        l.1 = r.1 ∧
        (Placement.load r.1, l.2) ∈ placedOutput d gpCount mdCount basicBlock) ∧
      (∀ l ∈ stagedSpills d
          ((r.2 + 1) % 4294967296 ==
            (done.foldl (allocateRange d gpCount mdCount)
              ⟨basicBlock, [], []⟩).basicBlock.statements.length) r
          (rangeRegAllocs d gpCount mdCount
            (done.foldl (allocateRange d gpCount mdCount) ⟨basicBlock, [], []⟩).basicBlock r),
        l.1 = r.2 ∧
        ((Placement.spillBefore r.2, l.2) ∈ placedOutput d gpCount mdCount basicBlock ∨
          (Placement.spillAfter r.2, l.2) ∈ placedOutput d gpCount mdCount basicBlock))) ∧
    (∀ r ∈ ComputeAllocationRanges basicBlock, ∀ (p : Nat) (l : STATEMENT),
      (placedOutput d gpCount mdCount basicBlock)[p]? = some (Placement.load r.1, l) →
      (∀ (q i : Nat) (s : STATEMENT),
        (placedOutput d gpCount mdCount basicBlock)[q]? = some (Placement.original i, s) →
        r.1 ≤ i → i ≤ r.2 → p < q) ∧
      (∀ r' ∈ ComputeAllocationRanges basicBlock, r'.2 < r.1 →
        ∀ (q : Nat) (x : Placement × STATEMENT),
          (placedOutput d gpCount mdCount basicBlock)[q]? = some x →
          r'.1 ≤ x.1.index → x.1.index ≤ r'.2 → q < p)) ∧
    (∀ r ∈ ComputeAllocationRanges basicBlock, ∀ (p : Nat) (sp : STATEMENT),
      ((placedOutput d gpCount mdCount basicBlock)[p]? = some (Placement.spillBefore r.2, sp) ∨
        (placedOutput d gpCount mdCount basicBlock)[p]? =
          some (Placement.spillAfter r.2, sp)) →
      (∀ (q i : Nat) (s : STATEMENT),
        (placedOutput d gpCount mdCount basicBlock)[q]? = some (Placement.original i, s) →
        r.1 ≤ i → i ≤ r.2 → s.dst ≠ none → q < p) ∧
      (∀ r' ∈ ComputeAllocationRanges basicBlock, r.2 < r'.1 →
        ∀ (q : Nat) (x : Placement × STATEMENT),
          (placedOutput d gpCount mdCount basicBlock)[q]? = some x →
          r'.1 ≤ x.1.index → x.1.index ≤ r'.2 → p < q)) := by
  have hsorted : (placedOutput d gpCount mdCount basicBlock).Pairwise
      (fun x y => x.1.slot ≤ y.1.slot) := placedForm_sorted _ _ _ _
  refine ⟨placedOutput_statements d gpCount mdCount basicBlock,
    placedOutput_tag d gpCount mdCount basicBlock,
    fun done r todo hr => staged_in_output d gpCount mdCount basicBlock done todo r hr, ?_, ?_⟩
  · intro r _ p l hp
    constructor
    · intro q i s hq h1 _
      apply sorted_position (fun x : Placement × STATEMENT => x.1.slot) _ hsorted p q _ _ hp hq
      simp only [slot_load, slot_spillBefore, slot_original, slot_spillAfter]
      omega
    · intro r' _ hlt q x hq _ h2
      apply sorted_position (fun x : Placement × STATEMENT => x.1.slot) _ hsorted q p _ _ hq hp
      have := slot_bounds x.1
      simp only [slot_load, slot_spillBefore, slot_original, slot_spillAfter]
      omega
  · intro r _ p sp hp
    constructor
    · intro q i s hq _ h2 hdst
      rcases hp with hp | hp
      · apply sorted_position (fun x : Placement × STATEMENT => x.1.slot) _ hsorted q p _ _
          hq hp
        simp only [slot_load, slot_spillBefore, slot_original, slot_spillAfter]
        rcases Nat.lt_or_eq_of_le h2 with h | h
        · omega
        · exfalso
          rw [← h] at hp
          have hs := placed_original _ _ _ i s (List.getElem?_mem hq)
          obtain ⟨s', hs', hcts⟩ := placed_spillBefore _ _ _ i sp (List.getElem?_mem hp)
          rw [hs] at hs'
          simp only [Option.some.injEq] at hs'
          subst hs'
          have hinv := allocateRanges_destination d gpCount mdCount basicBlock i
          rw [hs] at hinv
          cases ho : basicBlock.statements[i]? with
          | none => rw [ho] at hinv; cases hinv
          | some s0 =>
            rw [ho] at hinv
            simp only [Option.map_some', Option.some.injEq, Prod.mk.injEq] at hinv
            have hmem : s0 ∈ basicBlock.statements := List.getElem?_mem ho
            have hop : s0.op ∈ [OP_CONDJMP, OP_JMP, OP_CALL, OP_EXTERNJMP,
                OP_EXTERNJMP_DYN] := by
              rw [← hinv.1]
              exact (isControlTransfer_iff s.op).1 hcts
            have hnone := hct s0 hmem hop
            rw [hnone] at hinv
            apply hdst
            cases hd : s.dst with
            | none => rfl
            | some x => rw [hd] at hinv; simp at hinv
      · apply sorted_position (fun x : Placement × STATEMENT => x.1.slot) _ hsorted q p _ _
          hq hp
        simp only [slot_load, slot_spillBefore, slot_original, slot_spillAfter]
        omega
    · intro r' _ hlt q x hq h1 _
      have hb := slot_bounds x.1
      rcases hp with hp | hp
      · apply sorted_position (fun x : Placement × STATEMENT => x.1.slot) _ hsorted p q _ _
          hp hq
        simp only [slot_load, slot_spillBefore, slot_original, slot_spillAfter]
        omega
      · apply sorted_position (fun x : Placement × STATEMENT => x.1.slot) _ hsorted p q _ _
          hp hq
        simp only [slot_load, slot_spillBefore, slot_original, slot_spillAfter]
        omega

theorem AllocateRegisters_load_spill_order_witness :
    (∀ s ∈ callBlock.statements,
      s.op ∈ [OP_CONDJMP, OP_JMP, OP_CALL, OP_EXTERNJMP, OP_EXTERNJMP_DYN] → s.dst = none) ∧
    ComputeAllocationRanges callBlock = [(0, 1), (2, 2)] ∧
    (placedOutput exampleDecls 4 0 callBlock).map (fun x => x.1) =
      [Placement.load 0, Placement.original 0, Placement.spillBefore 1, Placement.original 1,
        Placement.load 2, Placement.original 2, Placement.spillAfter 2] ∧
    (placedOutput exampleDecls 4 0 callBlock).map (fun x => x.2) =
      (AllocateRegisters exampleDecls 4 0 callBlock).statements :=
  ⟨by decide, by decide, by decide,
    (AllocateRegisters_load_spill_order exampleDecls 4 0 callBlock (by decide)).1⟩

/-! ## Spills and the control transfers of their range -/

theorem ranges_loop_call_last (last : Nat) (stmts : List STATEMENT) (idx cs : Nat) :
    ∀ r ∈ ComputeAllocationRanges.loop last stmts idx cs, ∀ (j : Nat) (s : STATEMENT),
      stmts[j]? = some s → s.op = OP_CALL → r.1 ≤ idx + j → idx + j ≤ r.2 →
      r.2 = idx + j := by
  induction stmts generalizing idx cs with
  | nil =>
    intro r _ j s hj
    simp at hj
  | cons s0 rest ih =>
    intro r hr j s hj hop h1 h2
    unfold ComputeAllocationRanges.loop at hr
    split at hr
    · rcases List.mem_cons.1 hr with e | e
      · subst e
        simp only at h1 h2 ⊢
        omega
      · have hge := ranges_loop_first_ge last rest (idx + 1) (idx + 1) (le_refl _) r e
        cases j with
        | zero => omega
        | succ k =>
          simp only [List.getElem?_cons_succ] at hj
          have := ih (idx + 1) (idx + 1) r e k s hj hop (by omega) (by omega)
          omega
    · rename_i hnc
      cases j with
      | zero =>
        simp only [List.getElem?_cons_zero, Option.some.injEq] at hj
        rw [hj] at hnc
        exact absurd hop hnc
      | succ k =>
        simp only [List.getElem?_cons_succ] at hj
        have := ih (idx + 1) cs r hr k s hj hop (by omega) (by omega)
        omega

theorem control_transfer_is_last (basicBlock : BASIC_BLOCK)
    (hlt : basicBlock.statements.length < 4294967296)
    (hwf : ∀ info ∈ basicBlock.statements.enum,
      info.2.op ∈ [OP_CONDJMP, OP_JMP, OP_EXTERNJMP, OP_EXTERNJMP_DYN] →
      info.1 + 1 = basicBlock.statements.length)
    (r : AllocationRange) (hr : r ∈ ComputeAllocationRanges basicBlock)
    (i : Nat) (s : STATEMENT) (hs : basicBlock.statements[i]? = some s)
    (h1 : r.1 ≤ i) (h2 : i ≤ r.2)
    (hop : s.op ∈ [OP_CONDJMP, OP_JMP, OP_CALL, OP_EXTERNJMP, OP_EXTERNJMP_DYN]) :
    i = r.2 := by
  by_cases hcall : s.op = OP_CALL
  · have := ranges_loop_call_last _ _ 0 0 r hr i s hs hcall (by omega) (by omega)
    omega
  · have hjump : s.op ∈ [OP_CONDJMP, OP_JMP, OP_EXTERNJMP, OP_EXTERNJMP_DYN] := by
      simp only [List.mem_cons, List.mem_singleton, List.mem_nil_iff, or_false] at hop ⊢
      rcases hop with h | h | h | h | h
      · exact Or.inl h
      · exact Or.inr (Or.inl h)
      · exact absurd h hcall
      · exact Or.inr (Or.inr (Or.inl h))
      · exact Or.inr (Or.inr (Or.inr h))
    have hn := hwf (i, s) (List.mk_mem_enum_iff_getElem?.2 hs) hjump
    simp only at hn
    have hsec := ranges_loop_second _ _ 0 0 r hr
    rcases hsec with h | h
    · rw [h]
      omega
    · omega

theorem placed_spillAfter (loads spills : StatementMultimap) (stmts : List STATEMENT)
    (i : Nat) (sp : STATEMENT)
    (h : (Placement.spillAfter i, sp) ∈ placedForm loads spills 0 stmts) :
    ∃ s, stmts[i]? = some s ∧ isControlTransfer s.op = false := by
  obtain ⟨s, hs, hx⟩ := (mem_placedForm loads spills stmts _).1 h
  simp only [Placement.index] at hs hx
  refine ⟨s, hs, ?_⟩
  unfold placedAround at hx
  simp only [List.mem_append, List.mem_map, List.mem_cons, Prod.mk.injEq, reduceCtorEq,
    false_and, and_false, exists_false, false_or, or_false] at hx
  obtain ⟨a, ha, _⟩ := hx
  cases hc : isControlTransfer s.op with
  | false => rfl
  | true =>
    simp only [hc, if_true] at ha
    cases ha

/-- Claim C6: in a basic block (its jumps, `OP_CONDJMP`, `OP_JMP`, `OP_EXTERNJMP` and
`OP_EXTERNJMP_DYN`, stand at its last index; the length fits an `unsigned int`) every spill
that `AllocateRegisters` inserts precedes every control-transfer statement (`OP_CONDJMP`,
`OP_JMP`, `OP_CALL`, `OP_EXTERNJMP`, `OP_EXTERNJMP_DYN`) of the range the spill was staged
for. The output is the list `placedOutput` with the origin of each statement; every spill
staged in the pass of a range is in it under the range's last index; a control transfer of a
range is the statement at the range's last index, and the spills of the range stand before
it. In particular the spills of a range that ends in `OP_CONDJMP` stand immediately before
the `OP_CONDJMP`. -/
theorem AllocateRegisters_spill_before_branch (d : SymbolDecls) (gpCount mdCount : Nat)
    (basicBlock : BASIC_BLOCK)
    (hlt : basicBlock.statements.length < 4294967296)
    (hwf : ∀ info ∈ basicBlock.statements.enum,
      info.2.op ∈ [OP_CONDJMP, OP_JMP, OP_EXTERNJMP, OP_EXTERNJMP_DYN] →
      info.1 + 1 = basicBlock.statements.length) :
    (placedOutput d gpCount mdCount basicBlock).map (fun x => x.2) =
      (AllocateRegisters d gpCount mdCount basicBlock).statements ∧
    (placedOutput d gpCount mdCount basicBlock).map (fun x => (x.1.tag, x.2)) =
      insertedStatementList (allocateRanges d gpCount mdCount basicBlock) ∧
    (∀ done r todo, ComputeAllocationRanges basicBlock = done ++ r :: todo →
      ∀ l ∈ stagedSpills d
          ((r.2 + 1) % 4294967296 ==
            (done.foldl (allocateRange d gpCount mdCount)
              ⟨basicBlock, [], []⟩).basicBlock.statements.length) r
          (rangeRegAllocs d gpCount mdCount
            (done.foldl (allocateRange d gpCount mdCount) ⟨basicBlock, [], []⟩).basicBlock r),
        l.1 = r.2 ∧
        ((Placement.spillBefore r.2, l.2) ∈ placedOutput d gpCount mdCount basicBlock ∨
          (Placement.spillAfter r.2, l.2) ∈ placedOutput d gpCount mdCount basicBlock)) ∧
    (∀ r ∈ ComputeAllocationRanges basicBlock, ∀ (p : Nat) (sp : STATEMENT),
      ((placedOutput d gpCount mdCount basicBlock)[p]? = some (Placement.spillBefore r.2, sp) ∨
        (placedOutput d gpCount mdCount basicBlock)[p]? =
          some (Placement.spillAfter r.2, sp)) →
      ∀ (q i : Nat) (s : STATEMENT),
        (placedOutput d gpCount mdCount basicBlock)[q]? = some (Placement.original i, s) →
        r.1 ≤ i → i ≤ r.2 →
        s.op ∈ [OP_CONDJMP, OP_JMP, OP_CALL, OP_EXTERNJMP, OP_EXTERNJMP_DYN] →
        p < q ∧ i = r.2) ∧
    (∀ r ∈ ComputeAllocationRanges basicBlock, ∀ s : STATEMENT,
      (allocateRanges d gpCount mdCount basicBlock).basicBlock.statements[r.2]? = some s →
      s.op ∈ [OP_CONDJMP, OP_JMP, OP_CALL, OP_EXTERNJMP, OP_EXTERNJMP_DYN] →
      ∃ pre post, insertedStatementList (allocateRanges d gpCount mdCount basicBlock) =
        pre ++
        (stagedAt (allocateRanges d gpCount mdCount basicBlock).spillStatements r.2).map
          inserted ++
        (some r.2, s) :: post) := by
  have hsorted : (placedOutput d gpCount mdCount basicBlock).Pairwise
      (fun x y => x.1.slot ≤ y.1.slot) := placedForm_sorted _ _ _ _
  refine ⟨placedOutput_statements d gpCount mdCount basicBlock,
    placedOutput_tag d gpCount mdCount basicBlock,
    fun done r todo hr =>
      (staged_in_output d gpCount mdCount basicBlock done todo r hr).2, ?_, ?_⟩
  · intro r hr p sp hp q i s hq h1 h2 hop
    have hs := placed_original _ _ _ i s (List.getElem?_mem hq)
    have hinv := allocateRanges_destination d gpCount mdCount basicBlock i
    rw [hs] at hinv
    have hlast : i = r.2 := by
      cases ho : basicBlock.statements[i]? with
      | none => rw [ho] at hinv; cases hinv
      | some s0 =>
        rw [ho] at hinv
        simp only [Option.map_some', Option.some.injEq, Prod.mk.injEq] at hinv
        exact control_transfer_is_last basicBlock hlt hwf r hr i s0 ho h1 h2
          (by rw [← hinv.1]; exact hop)
    refine ⟨?_, hlast⟩
    rcases hp with hp | hp
    · apply sorted_position (fun x : Placement × STATEMENT => x.1.slot) _ hsorted p q _ _
        hp hq
      simp only [slot_spillBefore, slot_original]
      omega
    · exfalso
      obtain ⟨s', hs', hnct⟩ := placed_spillAfter _ _ _ r.2 sp (List.getElem?_mem hp)
      rw [← hlast, hs] at hs'
      simp only [Option.some.injEq] at hs'
      rw [← hs', (isControlTransfer_iff s.op).2 hop] at hnct
      cases hnct
  · intro r _ s hs hop
    exact ((AllocateRegisters_spill_placement d gpCount mdCount basicBlock).2 r.2 s hs).1 hop

theorem AllocateRegisters_spill_before_branch_witness :
    branchBlock.statements.length < 4294967296 ∧
    (∀ info ∈ branchBlock.statements.enum,
      info.2.op ∈ [OP_CONDJMP, OP_JMP, OP_EXTERNJMP, OP_EXTERNJMP_DYN] →
      info.1 + 1 = branchBlock.statements.length) ∧
    ComputeAllocationRanges branchBlock = [(0, 1)] ∧
    (placedOutput exampleDecls 4 0 branchBlock).map (fun x => x.1) =
      [Placement.load 0, Placement.original 0, Placement.spillBefore 1,
        Placement.original 1] ∧
    (placedOutput exampleDecls 4 0 branchBlock).map (fun x => x.2) =
      (AllocateRegisters exampleDecls 4 0 branchBlock).statements :=
  ⟨by decide, by decide, by decide, by decide,
    (AllocateRegisters_spill_before_branch exampleDecls 4 0 branchBlock
      (by decide) (by decide)).1⟩

end Jitter
